import Mathlib

/-!
# pythiaJetFinding

A shallow embedding of the two programs of the repository,

* `src/jetFindAnalysis.cxx` (the event / observable pipeline) and
* `src/generate_output.cxx` (the report renderer),

followed by theorems about them.

Conventions of the embedding.

* A C++ `double` is modelled by an exact rational number (`ℚ`): every finite,
  non-NaN double is a rational, and the programs only compare, add, subtract
  and multiply these values or hand them to a library.
* The external libraries (Pythia8, FastJet, ROOT, the C library) are not part
  of the repository.  Their pure accessors are fields of records
  (`Particle`), their functions are fields of the structure `FastJet` or of
  `World`, so every theorem holds for all behaviours of the libraries.
* `std::vector::operator[]` on an index that is not in range is undefined
  behaviour; the embedding returns `Except.error Fault.outOfRange` there.
* Output (`std::cerr`, `std::cout`, histogram fills, file operations) is a
  trace of `Effect`s in program order.
-/

namespace PythiaJetFinding

/-! ## Basic data -/

/-- Undefined behaviour that an execution can run into. -/
inductive Fault
  /-- an element access past the end of a `std::vector` or of the event record -/
  | outOfRange
  /-- a floating value converted to an unsigned integer that cannot hold it -/
  | badConversion
  deriving DecidableEq

/-- A record of the generator's event (`Pythia8::Particle`), given by the values
of the accessors the program calls: `status()`, `px()`, `py()`, `pz()`, `e()`,
`charge()`, `isFinal()`, `isVisible()`. -/
structure Particle where
  status : Int
  px : ℚ
  py : ℚ
  pz : ℚ
  e : ℚ
  charge : ℚ
  isFinal : Bool
  isVisible : Bool
  deriving DecidableEq

/-- A four-momentum with its integer tag: `fastjet::PseudoJet( px, py, pz, E )`
followed by `set_user_index`. -/
structure PseudoJet where
  px : ℚ
  py : ℚ
  pz : ℚ
  E : ℚ
  user_index : Int
  deriving DecidableEq

/-- A jet returned by a clustering: its four-momentum, `area()` and
`constituents()`. -/
structure Jet where
  mom : PseudoJet
  area : ℚ
  constituents : List PseudoJet
  deriving DecidableEq

/-- The jet algorithms of the sweep. -/
inductive Algo
  | antikt
  | kt
  | ca
  | sis
  deriving DecidableEq

/-- A `fastjet::JetDefinition`: algorithm and radius, and for the SISCone
plugin the overlap threshold. -/
structure JetDefinition where
  algo : Algo
  R : ℚ
  overlap : Option ℚ
  deriving DecidableEq

/-- The `fastjet::AreaDefinition( active_area_explicit_ghosts, GhostedAreaSpec(
ghost_max_rap, ghost_repeat, ghost_area ) )`. -/
structure AreaDefinition where
  ghost_max_rap : ℚ
  ghost_repeat : Nat
  ghost_area : ℚ
  deriving DecidableEq

/-- The FastJet library: the kinematic functions of a `PseudoJet` that the
programs call, and clustering (`ClusterSequenceArea( particles, jet_def,
area_def ).inclusive_jets()`). -/
structure FastJet where
  eta : PseudoJet → ℚ
  rap : PseudoJet → ℚ
  phi_std : PseudoJet → ℚ
  pt : PseudoJet → ℚ
  delta_R : PseudoJet → PseudoJet → ℚ
  inclusive_jets : JetDefinition → AreaDefinition → List PseudoJet → List Jet

/-- Conversion of a `double` to `int` (truncation toward zero), as done by the
implicit conversion in `set_user_index( ... )`. -/
def toInt (x : ℚ) : Int := x.num.tdiv x.den

/-- Element access `v[i]` of a vector; out of range is undefined behaviour. -/
def vecAt {α : Type} (v : List α) (i : Nat) : Except Fault α :=
  match v[i]? with
  | some x => .ok x
  | none => .error .outOfRange

/-! ## `patch::to_string` -/

namespace patch

/-- Round a non-negative fraction `n / d` to the nearest natural number, ties to
even. -/
def roundHalfEven (n d : Nat) : Nat :=
  let f := n / d
  let r := n % d
  if 2 * r < d then f else if d < 2 * r then f + 1 else if f % 2 = 0 then f else f + 1

/-- The decimal exponent of a positive fraction `n / d`: the integer `X` with
`10 ^ X ≤ n / d < 10 ^ (X + 1)`. -/
def decExponent (n d : Nat) : Int :=
  if d ≤ n then (Nat.log 10 (n / d) : Int) else - (Nat.clog 10 ((d + n - 1) / n) : Int)

/-- The six significant decimal digits of the positive fraction `n / d` and its
decimal exponent after rounding. -/
def sixDigits (n d : Nat) : Nat × Int :=
  let X := decExponent n d
  let m := roundHalfEven (n * 10 ^ (5 - X).toNat) (d * 10 ^ (X - 5).toNat)
  if m = 1000000 then (100000, X + 1) else (m, X)

/-- Drop the trailing zeros of a list of digits. -/
def stripZeros (ds : List Char) : List Char :=
  (ds.reverse.dropWhile (· = '0')).reverse

/-- The characters of the exponent of the scientific form: sign and at least
two digits. -/
def expChars (X : Int) : List Char :=
  let s := if X < 0 then '-' else '+'
  let ds := Nat.toDigits 10 X.natAbs
  s :: (if ds.length < 2 then '0' :: ds else ds)

/-- The text of a positive fraction in the general format with precision 6. -/
def general (n d : Nat) : List Char :=
  let (m, X) := sixDigits n d
  let ds := stripZeros (Nat.toDigits 10 m)
  if X < -4 ∨ 6 ≤ X then
    -- scientific
    match ds with
    | [] => []
    | [c] => c :: 'e' :: expChars X
    | c :: cs => c :: '.' :: (cs ++ 'e' :: expChars X)
  else if X < 0 then
    '0' :: '.' :: (List.replicate (-X - 1).toNat '0' ++ ds)
  else
    let k := X.toNat + 1
    let ip := ds.take k ++ List.replicate (k - ds.length) '0'
    let fp := ds.drop k
    if fp = [] then ip else ip ++ '.' :: fp

/-- The function `patch::to_string` at type `double`: `stm << n` on a fresh
`std::ostringstream`, that is the general floating format with the default
precision of six significant digits, trailing zeros removed. -/
def to_string (x : ℚ) : String :=
  if x = 0 then "0"
  else if x < 0 then String.mk ('-' :: general x.num.natAbs x.den)
  else String.mk (general x.num.natAbs x.den)

end patch

/-! ## `convertToPseudoJet` -/

/-- The three output containers of `convertToPseudoJet`. -/
structure Buffers where
  all : List PseudoJet
  charged : List PseudoJet
  part : List PseudoJet
  deriving DecidableEq

/-- What a call of `convertToPseudoJet` leaves behind: the returned `int`, the
containers, and the lines written to `std::cerr`. -/
structure Converted where
  ret : Int
  bufs : Buffers
  cerr : List String
  deriving DecidableEq

/-- The diagnostic of line 90. -/
def msgParton5 : String := "Error: assumption that id 5 is the outgoing parton is not valid."

/-- The diagnostic of line 92. -/
def msgParton6 : String := "Error: assumption that id 6 is the outgoing parton is not valid."

/-- One iteration of the particle loop of `convertToPseudoJet` (lines 103-117)
on the record `p`, with `all` and `charged` as they stand. -/
def convertStep (lib : FastJet) (max_rap : ℚ) (st : List PseudoJet × List PseudoJet)
    (p : Particle) : List PseudoJet × List PseudoJet :=
  if p.isFinal && p.isVisible then
    let tmp : PseudoJet := ⟨p.px, p.py, p.pz, p.e, toInt p.charge⟩
    if |lib.rap tmp| > max_rap then
      st
    else
      let all := st.1 ++ [tmp]
      if p.charge ≠ 0 then (all, st.2 ++ [tmp]) else (all, st.2)
  else
    st

/-- The function `convertToPseudoJet( p, max_rap, all, charged, part )` of
`jetFindAnalysis.cxx`, where `event` is `p.event` and `b` holds the three
containers as they are on entry. -/
def convertToPseudoJet (lib : FastJet) (event : List Particle) (max_rap : ℚ) (b : Buffers) :
    Except Fault Converted :=
  -- clear the event containers
  let b : Buffers := { b with all := [], charged := [], part := [] }
  match vecAt event 5, vecAt event 6 with
  | .ok e5, .ok e6 =>
    let d5 := if e5.status ≠ -23 then [msgParton5] else []
    let d6 := if e6.status ≠ -23 then [msgParton6] else []
    let part1 : PseudoJet := ⟨e5.px, e5.py, e5.pz, e5.e, toInt (3 * e5.charge)⟩
    let part2 : PseudoJet := ⟨e6.px, e6.py, e6.pz, e6.e, toInt (3 * e6.charge)⟩
    if |lib.eta part1| > max_rap ∨ |lib.eta part2| > max_rap then
      .ok { ret := 0, bufs := b, cerr := d5 ++ d6 }
    else
      let part := b.part ++ [part1] ++ [part2]
      let ac := event.foldl (convertStep lib max_rap) (b.all, b.charged)
      .ok { ret := 1, bufs := { all := ac.1, charged := ac.2, part := part }, cerr := d5 ++ d6 }
  | _, _ => .error .outOfRange

/-! ## Constants of `jetFindAnalysis.cxx` -/

/-- Line 192: `const double max_track_rap = 4.0`. -/
def max_track_rap : ℚ := 4

/-- Line 193: `const double max_rap = max_track_rap`. -/
def max_rap : ℚ := max_track_rap

/-- Line 203: `const int nRadii = 10`. -/
def nRadii : Nat := 10

/-- Line 204: `double deltaRad = 0.1`. -/
def deltaRad : ℚ := 1 / 10

/-- Line 205: `double overlap_threshold = 0.75`. -/
def overlap_threshold : ℚ := 3 / 4

/-- The array `radii` after the loop of lines 212-222, which stores
`deltaRad * (i+1)` at every index `i < nRadii`. -/
def radii : List ℚ := (List.range nRadii).map fun i => deltaRad * ((i + 1 : Nat) : ℚ)

/-- A read `radii[i]` inside the loops over `i < nRadii`. -/
def radiiAt (i : Nat) : ℚ := radii.getD i 0

/-- Line 215: `antiKtDefs[i]`. -/
def antiKtDefs (i : Nat) : JetDefinition := ⟨.antikt, radiiAt i, none⟩

/-- Line 216: `KtDefs[i]`. -/
def KtDefs (i : Nat) : JetDefinition := ⟨.kt, radiiAt i, none⟩

/-- Line 217: `CaDefs[i]`. -/
def CaDefs (i : Nat) : JetDefinition := ⟨.ca, radiiAt i, none⟩

/-- Lines 220-221: `SISDefs[i]`, the SISCone plugin with the overlap threshold. -/
def SISDefs (i : Nat) : JetDefinition := ⟨.sis, radiiAt i, some overlap_threshold⟩

/-- Line 247: `const int ghost_repeat = 1`. -/
def ghost_repeat : Nat := 1

/-- Line 248: `const double ghost_area = 0.01`. -/
def ghost_area : ℚ := 1 / 100

/-- The index with which line 251 reads the array: `radii[nRadii]`. -/
def ghostRadiusIndex : Nat := nRadii

/-- Line 251: `ghost_max_rap = max_rap + 2.0 * radii[nRadii]`.  The read is at
`ghostRadiusIndex`; when that is not an index of the array the value read is
whatever lies behind the array, `pastEnd`. -/
def ghost_max_rap (pastEnd : ℚ) : ℚ := max_rap + 2 * (radii[ghostRadiusIndex]?).getD pastEnd

/-- Lines 253-254: the area definition shared by all clusterings. -/
def area_def (pastEnd : ℚ) : AreaDefinition := ⟨ghost_max_rap pastEnd, ghost_repeat, ghost_area⟩

/-! ## Histograms -/

/-- The histogram objects of `jetFindAnalysis.cxx`, by the name of the variable
that holds them (lines 258-346). -/
inductive Hist
  | multiplicity
  | chargedMultiplicity
  | partonPt
  | partonE
  | partonEtaPhi
  | visiblePt
  | visibleE
  | visibleEtaPhi
  | chargedPt
  | chargedE
  | chargedEtaPhi
  | nJetsAntiKtBaseAll
  | nJetsKtBaseAll
  | nJetsCaBaseAll
  | nJetsAntiKtBaseCharged
  | nJetsKtBaseCharged
  | nJetsCaBaseCharged
  | nJetsAntiKt
  | deltaEAntiKt
  | deltaRAntiKt
  | nPartAntiKt
  | nPartLeadAntiKt
  | timeAntiKt
  | areaAntiKt
  | areaLeadAntiKt
  | ptLeadAntiKt
  | eLeadAntiKt
  | etaAntiKt
  | etaLeadAntiKt
  | phiAntiKt
  | phiLeadAntiKt
  | nJetsKt
  | deltaEKt
  | deltaRKt
  | nPartKt
  | nPartLeadKt
  | timeKt
  | areaKt
  | areaLeadKt
  | ptLeadKt
  | eLeadKt
  | etaKt
  | etaLeadKt
  | phiKt
  | phiLeadKt
  | nJetsCa
  | deltaECa
  | deltaRCa
  | nPartCa
  | nPartLeadCa
  | timeCa
  | areaCa
  | areaLeadCa
  | ptLeadCa
  | eLeadCa
  | etaCa
  | etaLeadCa
  | phiCa
  | phiLeadCa
  | nJetsSIS
  | deltaESIS
  | deltaRSIS
  | nPartSIS
  | nPartLeadSIS
  | timeSIS
  | areaSIS
  | areaLeadSIS
  | ptLeadSIS
  | eLeadSIS
  | etaSIS
  | etaLeadSIS
  | phiSIS
  | phiLeadSIS
  deriving DecidableEq
/-- The name given to each histogram by its constructor (first argument of
`new TH1D` / `new TH2D`, lines 258-346). -/
def Hist.name : Hist → String
  | .multiplicity => "mult"
  | .chargedMultiplicity => "chargemult"
  | .partonPt => "partonpt"
  | .partonE => "parton_e"
  | .partonEtaPhi => "partonetaphi"
  | .visiblePt => "finalstatept"
  | .visibleE => "finalstateE"
  | .visibleEtaPhi => "finaletaphi"
  | .chargedPt => "chargedfstatept"
  | .chargedE => "chargedfstateE"
  | .chargedEtaPhi => "chargedetaphi"
  | .nJetsAntiKtBaseAll => "njetsantiktbase"
  | .nJetsKtBaseAll => "njetsktbase"
  | .nJetsCaBaseAll => "njetsCabase"
  | .nJetsAntiKtBaseCharged => "njetsantiktbasecharged"
  | .nJetsKtBaseCharged => "njetsktbasecharged"
  | .nJetsCaBaseCharged => "njetsCabasecharged"
  | .nJetsAntiKt => "antiktnjets"
  | .deltaEAntiKt => "antiktdeltaE"
  | .deltaRAntiKt => "antiktdeltaR"
  | .nPartAntiKt => "antiktnpart"
  | .nPartLeadAntiKt => "antiktnpartlead"
  | .timeAntiKt => "antiktclustertime"
  | .areaAntiKt => "antiktarea"
  | .areaLeadAntiKt => "antiktarealead"
  | .ptLeadAntiKt => "antiktptlead"
  | .eLeadAntiKt => "antiktelead"
  | .etaAntiKt => "antikteta"
  | .etaLeadAntiKt => "antiktetalead"
  | .phiAntiKt => "antiktphi"
  | .phiLeadAntiKt => "antiktphilead"
  | .nJetsKt => "ktnjets"
  | .deltaEKt => "ktdeltaE"
  | .deltaRKt => "ktdeltaR"
  | .nPartKt => "ktnpart"
  | .nPartLeadKt => "ktnpartlead"
  | .timeKt => "ktclustertime"
  | .areaKt => "ktarea"
  | .areaLeadKt => "ktarealead"
  | .ptLeadKt => "ktptlead"
  | .eLeadKt => "ktelead"
  | .etaKt => "kteta"
  | .etaLeadKt => "ktetalead"
  | .phiKt => "ktphi"
  | .phiLeadKt => "ktphilead"
  | .nJetsCa => "canjets"
  | .deltaECa => "cadeltaE"
  | .deltaRCa => "cadeltaR"
  | .nPartCa => "canpart"
  | .nPartLeadCa => "canpartlead"
  | .timeCa => "caclustertime"
  | .areaCa => "caarea"
  | .areaLeadCa => "caarealead"
  | .ptLeadCa => "captlead"
  | .eLeadCa => "caelead"
  | .etaCa => "caeta"
  | .etaLeadCa => "caetalead"
  | .phiCa => "caphi"
  | .phiLeadCa => "caphilead"
  | .nJetsSIS => "sisnjets"
  | .deltaESIS => "sisdeltaE"
  | .deltaRSIS => "sisdeltaR"
  | .nPartSIS => "sisnpart"
  | .nPartLeadSIS => "sisnpartlead"
  | .timeSIS => "sisclustertime"
  | .areaSIS => "sisarea"
  | .areaLeadSIS => "sisarealead"
  | .ptLeadSIS => "sisptlead"
  | .eLeadSIS => "siselead"
  | .etaSIS => "siseta"
  | .etaLeadSIS => "sisetalead"
  | .phiSIS => "sisphi"
  | .phiLeadSIS => "sisphilead"
/-- The histograms in the order in which lines 258-346 construct them. -/
def booked : List Hist :=
  [.multiplicity, .chargedMultiplicity, .partonPt, .partonE, .partonEtaPhi,
   .visiblePt, .visibleE, .visibleEtaPhi, .chargedPt, .chargedE,
   .chargedEtaPhi, .nJetsAntiKtBaseAll, .nJetsKtBaseAll, .nJetsCaBaseAll, .nJetsAntiKtBaseCharged,
   .nJetsKtBaseCharged, .nJetsCaBaseCharged, .nJetsAntiKt, .deltaEAntiKt, .deltaRAntiKt,
   .nPartAntiKt, .nPartLeadAntiKt, .timeAntiKt, .areaAntiKt, .areaLeadAntiKt,
   .ptLeadAntiKt, .eLeadAntiKt, .etaAntiKt, .etaLeadAntiKt, .phiAntiKt,
   .phiLeadAntiKt, .nJetsKt, .deltaEKt, .deltaRKt, .nPartKt,
   .nPartLeadKt, .timeKt, .areaKt, .areaLeadKt, .ptLeadKt,
   .eLeadKt, .etaKt, .etaLeadKt, .phiKt, .phiLeadKt,
   .nJetsCa, .deltaECa, .deltaRCa, .nPartCa, .nPartLeadCa,
   .timeCa, .areaCa, .areaLeadCa, .ptLeadCa, .eLeadCa,
   .etaCa, .etaLeadCa, .phiCa, .phiLeadCa, .nJetsSIS,
   .deltaESIS, .deltaRSIS, .nPartSIS, .nPartLeadSIS, .timeSIS,
   .areaSIS, .areaLeadSIS, .ptLeadSIS, .eLeadSIS, .etaSIS,
   .etaLeadSIS, .phiSIS, .phiLeadSIS]
/-- The histograms in the order in which lines 637-720 call `Write()`. -/
def writeOrder : List Hist :=
  [.multiplicity, .chargedMultiplicity, .partonEtaPhi, .partonPt, .partonE,
   .visiblePt, .visibleE, .visibleEtaPhi, .chargedPt, .chargedE,
   .chargedEtaPhi, .nJetsAntiKt, .nPartAntiKt, .nPartLeadAntiKt, .deltaEAntiKt,
   .deltaRAntiKt, .timeAntiKt, .areaAntiKt, .areaLeadAntiKt, .ptLeadAntiKt,
   .eLeadAntiKt, .etaAntiKt, .etaLeadAntiKt, .phiAntiKt, .phiLeadAntiKt,
   .nJetsKt, .nPartKt, .nPartLeadKt, .deltaEKt, .deltaRKt,
   .timeKt, .areaKt, .areaLeadKt, .ptLeadKt, .eLeadKt,
   .etaKt, .etaLeadKt, .phiKt, .phiLeadKt, .nJetsCa,
   .nPartCa, .nPartLeadCa, .deltaECa, .deltaRCa, .timeCa,
   .areaCa, .areaLeadCa, .ptLeadCa, .eLeadCa, .etaCa,
   .etaLeadCa, .phiCa, .phiLeadCa, .nJetsSIS, .nPartSIS,
   .nPartLeadSIS, .deltaESIS, .deltaRSIS, .timeSIS, .areaSIS,
   .areaLeadSIS, .ptLeadSIS, .eLeadSIS, .etaSIS, .etaLeadSIS,
   .phiSIS, .phiLeadSIS]
/-- The observables of the radius sweep. -/
inductive Obs
  | njets
  | deltaE
  | deltaR
  | npart
  | npartlead
  | clustertime
  | area
  | arealead
  | ptlead
  | elead
  | eta
  | etalead
  | phi
  | philead
  deriving DecidableEq

/-- The sweep histogram of an algorithm and an observable: the variable of
lines 285-346 declared under the comment of that algorithm for that
observable. -/
def sweepHist : Algo → Obs → Hist
  | .antikt, .njets => .nJetsAntiKt
  | .antikt, .deltaE => .deltaEAntiKt
  | .antikt, .deltaR => .deltaRAntiKt
  | .antikt, .npart => .nPartAntiKt
  | .antikt, .npartlead => .nPartLeadAntiKt
  | .antikt, .clustertime => .timeAntiKt
  | .antikt, .area => .areaAntiKt
  | .antikt, .arealead => .areaLeadAntiKt
  | .antikt, .ptlead => .ptLeadAntiKt
  | .antikt, .elead => .eLeadAntiKt
  | .antikt, .eta => .etaAntiKt
  | .antikt, .etalead => .etaLeadAntiKt
  | .antikt, .phi => .phiAntiKt
  | .antikt, .philead => .phiLeadAntiKt
  | .kt, .njets => .nJetsKt
  | .kt, .deltaE => .deltaEKt
  | .kt, .deltaR => .deltaRKt
  | .kt, .npart => .nPartKt
  | .kt, .npartlead => .nPartLeadKt
  | .kt, .clustertime => .timeKt
  | .kt, .area => .areaKt
  | .kt, .arealead => .areaLeadKt
  | .kt, .ptlead => .ptLeadKt
  | .kt, .elead => .eLeadKt
  | .kt, .eta => .etaKt
  | .kt, .etalead => .etaLeadKt
  | .kt, .phi => .phiKt
  | .kt, .philead => .phiLeadKt
  | .ca, .njets => .nJetsCa
  | .ca, .deltaE => .deltaECa
  | .ca, .deltaR => .deltaRCa
  | .ca, .npart => .nPartCa
  | .ca, .npartlead => .nPartLeadCa
  | .ca, .clustertime => .timeCa
  | .ca, .area => .areaCa
  | .ca, .arealead => .areaLeadCa
  | .ca, .ptlead => .ptLeadCa
  | .ca, .elead => .eLeadCa
  | .ca, .eta => .etaCa
  | .ca, .etalead => .etaLeadCa
  | .ca, .phi => .phiCa
  | .ca, .philead => .phiLeadCa
  | .sis, .njets => .nJetsSIS
  | .sis, .deltaE => .deltaESIS
  | .sis, .deltaR => .deltaRSIS
  | .sis, .npart => .nPartSIS
  | .sis, .npartlead => .nPartLeadSIS
  | .sis, .clustertime => .timeSIS
  | .sis, .area => .areaSIS
  | .sis, .arealead => .areaLeadSIS
  | .sis, .ptlead => .ptLeadSIS
  | .sis, .elead => .eLeadSIS
  | .sis, .eta => .etaSIS
  | .sis, .etalead => .etaLeadSIS
  | .sis, .phi => .phiSIS
  | .sis, .philead => .phiLeadSIS
/-- The four algorithms. -/
def Algo.all : List Algo := [.antikt, .kt, .ca, .sis]

/-- The fourteen observables. -/
def Obs.all : List Obs :=
  [.njets, .deltaE, .deltaR, .npart, .npartlead, .clustertime, .area, .arealead,
   .ptlead, .elead, .eta, .etalead, .phi, .philead]

/-- The x axis of a histogram as far as labels are concerned (ROOT `TAxis`):
the number of bins and the labelled bins, in the order in which the labels
were attached. -/
structure TAxis where
  nbins : Nat
  labels : List (Nat × String)
  deriving DecidableEq

/-- ROOT `TAxis::SetBinLabel( bin, label )`: refused when `bin` is not in
`1..nbins`; replaces the label of a bin that has one; otherwise attaches the
label to the bin. -/
def TAxis.SetBinLabel (ax : TAxis) (bin : Nat) (label : String) : TAxis :=
  if bin = 0 ∨ ax.nbins < bin then ax
  else if ax.labels.any (fun p => p.1 == bin) then
    { ax with labels := ax.labels.map fun p => if p.1 == bin then (bin, label) else p }
  else { ax with labels := ax.labels ++ [(bin, label)] }

/-- The label of a bin, if it has one. -/
def TAxis.GetBinLabel (ax : TAxis) (bin : Nat) : Option String :=
  (ax.labels.find? fun p => p.1 == bin).map (·.2)

/-- ROOT `TAxis::FindBin( label )`, used by `Fill( namex, y, w )`: the bin that
carries the label.  For a label that no bin carries ROOT would attach it to a
further bin; the model answers `none` there. -/
def TAxis.FindBin (ax : TAxis) (label : String) : Option Nat :=
  (ax.labels.find? fun p => p.2 == label).map (·.1)

/-- The number of bins of the x axis that the constructor of each histogram
sets (third argument of `new TH1D` / `new TH2D`, lines 258-346). -/
def Hist.nbinsx : Hist → Nat
  | .multiplicity => 300
  | .chargedMultiplicity => 300
  | .partonPt => 100
  | .partonE => 100
  | .partonEtaPhi => 100
  | .visiblePt => 200
  | .visibleE => 200
  | .visibleEtaPhi => 100
  | .chargedPt => 200
  | .chargedE => 200
  | .chargedEtaPhi => 100
  | .nJetsAntiKtBaseAll => 50
  | .nJetsKtBaseAll => 50
  | .nJetsCaBaseAll => 50
  | .nJetsAntiKtBaseCharged => 50
  | .nJetsKtBaseCharged => 50
  | .nJetsCaBaseCharged => 50
  | .nJetsAntiKt => nRadii
  | .deltaEAntiKt => nRadii
  | .deltaRAntiKt => nRadii
  | .nPartAntiKt => nRadii
  | .nPartLeadAntiKt => nRadii
  | .timeAntiKt => nRadii
  | .areaAntiKt => nRadii
  | .areaLeadAntiKt => nRadii
  | .ptLeadAntiKt => nRadii
  | .eLeadAntiKt => nRadii
  | .etaAntiKt => nRadii
  | .etaLeadAntiKt => nRadii
  | .phiAntiKt => nRadii
  | .phiLeadAntiKt => nRadii
  | .nJetsKt => nRadii
  | .deltaEKt => nRadii
  | .deltaRKt => nRadii
  | .nPartKt => nRadii
  | .nPartLeadKt => nRadii
  | .timeKt => nRadii
  | .areaKt => nRadii
  | .areaLeadKt => nRadii
  | .ptLeadKt => nRadii
  | .eLeadKt => nRadii
  | .etaKt => nRadii
  | .etaLeadKt => nRadii
  | .phiKt => nRadii
  | .phiLeadKt => nRadii
  | .nJetsCa => nRadii
  | .deltaECa => nRadii
  | .deltaRCa => nRadii
  | .nPartCa => nRadii
  | .nPartLeadCa => nRadii
  | .timeCa => nRadii
  | .areaCa => nRadii
  | .areaLeadCa => nRadii
  | .ptLeadCa => nRadii
  | .eLeadCa => nRadii
  | .etaCa => nRadii
  | .etaLeadCa => nRadii
  | .phiCa => nRadii
  | .phiLeadCa => nRadii
  | .nJetsSIS => nRadii
  | .deltaESIS => nRadii
  | .deltaRSIS => nRadii
  | .nPartSIS => nRadii
  | .nPartLeadSIS => nRadii
  | .timeSIS => nRadii
  | .areaSIS => nRadii
  | .areaLeadSIS => nRadii
  | .ptLeadSIS => nRadii
  | .eLeadSIS => nRadii
  | .etaSIS => nRadii
  | .etaLeadSIS => nRadii
  | .phiSIS => nRadii
  | .phiLeadSIS => nRadii

/-- The x axis of a histogram as its constructor leaves it: no labels yet. -/
def Hist.axisNew (h : Hist) : TAxis := ⟨h.nbinsx, []⟩

/-- The histograms whose x axis the loop of lines 348-410 labels, in the order
of lines 350-408. -/
def labelled : List Hist :=
  [.nJetsAntiKt, .deltaEAntiKt, .deltaRAntiKt, .nPartAntiKt, .nPartLeadAntiKt,
   .timeAntiKt, .areaAntiKt, .areaLeadAntiKt, .ptLeadAntiKt, .eLeadAntiKt,
   .etaAntiKt, .etaLeadAntiKt, .phiAntiKt, .phiLeadAntiKt, .nJetsKt,
   .deltaEKt, .deltaRKt, .nPartKt, .nPartLeadKt, .timeKt,
   .areaKt, .areaLeadKt, .ptLeadKt, .eLeadKt, .etaKt,
   .etaLeadKt, .phiKt, .phiLeadKt, .nJetsCa, .deltaECa,
   .deltaRCa, .nPartCa, .nPartLeadCa, .timeCa, .areaCa,
   .areaLeadCa, .ptLeadCa, .eLeadCa, .etaCa, .etaLeadCa,
   .phiCa, .phiLeadCa, .nJetsSIS, .deltaESIS, .deltaRSIS,
   .nPartSIS, .nPartLeadSIS, .timeSIS, .areaSIS, .areaLeadSIS,
   .ptLeadSIS, .eLeadSIS, .etaSIS, .etaLeadSIS, .phiSIS,
   .phiLeadSIS]

/-- One pass of the loop of lines 348-410 for the loop variable `i`: every
sweep histogram gets `SetBinLabel( i, patch::to_string( radii[i-1] ) )`. -/
def setBinLabels (axes : Hist → TAxis) (i : Nat) : Hist → TAxis := fun h =>
  if h ∈ labelled then (axes h).SetBinLabel i (patch.to_string (radiiAt (i - 1)))
  else axes h

/-- The x axes of the histograms after the loop `for ( i = 1; i <= nRadii; ++i )`
of lines 348-410. -/
def labelledAxes : Hist → TAxis :=
  (List.range' 1 nRadii).foldl setBinLabels Hist.axisNew

/-- Line 487: `radBin = patch::to_string( radii[i] )`. -/
def radBin (i : Nat) : String := patch.to_string (radiiAt i)

/-- A call of a `Fill` method of a histogram. -/
inductive FillCall
  /-- `h->Fill( x )` of a `TH1D` -/
  | fill1 (h : Hist) (x : ℚ)
  /-- `h->Fill( x, y )` of a `TH2D` -/
  | fill2 (h : Hist) (x y : ℚ)
  /-- `h->Fill( namex, y, w )` of a `TH2D`: the x bin is found by its label -/
  | fillLabel (h : Hist) (namex : String) (y w : ℚ)
  deriving DecidableEq

/-- The histogram a fill goes to. -/
def FillCall.hist : FillCall → Hist
  | .fill1 h _ => h
  | .fill2 h _ _ => h
  | .fillLabel h _ _ _ => h

/-! ## The radius sweep (lines 484-621) -/

/-- FastJet `SelectorPtMin( ptmin )` applied to a list of jets: the jets whose
transverse momentum is at least `ptmin`, in their order. -/
def SelectorPtMin (lib : FastJet) (ptmin : ℚ) (jets : List Jet) : List Jet :=
  jets.filter fun j => decide (ptmin ≤ lib.pt j.mom)

/-- FastJet `sorted_by_pt`: the jets in order of decreasing transverse
momentum.  The library leaves the order among jets of equal pT open; here
they keep their relative order. -/
def sorted_by_pt (lib : FastJet) (jets : List Jet) : List Jet :=
  jets.insertionSort fun a b => lib.pt b.mom ≤ lib.pt a.mom

/-- The jet definition that the sweep uses for an algorithm at radius index
`i`: `antiKtDefs[i]`, `KtDefs[i]`, `CaDefs[i]`, `SISDefs[i]` (lines 494-509). -/
def jetDefOf (a : Algo) (i : Nat) : JetDefinition :=
  match a with
  | .antikt => antiKtDefs i
  | .kt => KtDefs i
  | .ca => CaDefs i
  | .sis => SISDefs i

/-- Lines 518-521 for one algorithm: the inclusive jets of the clustering of
`allFinal`, selected by `SelectorPtMin(1.0)` and sorted by pT. -/
def selectedJets (lib : FastJet) (adef : AreaDefinition) (allFinal : List PseudoJet)
    (jd : JetDefinition) : List Jet :=
  sorted_by_pt lib (SelectorPtMin lib 1 (lib.inclusive_jets jd adef allFinal))

/-- Lines 589-593 (and again 598-602, 606-610, 614-618): the index of the parton
that is nearer to the leading jet `lead`. -/
def partonIdx (lib : FastJet) (partons : List PseudoJet) (lead : Jet) : Except Fault Nat := do
  let p0 ← vecAt partons 0
  let p1 ← vecAt partons 1
  let distToPart1 := lib.delta_R p0 lead.mom
  let distToPart2 := lib.delta_R p1 lead.mom
  pure (if distToPart2 < distToPart1 then 1 else 0)

/-- Lines 513-527: the fills of the timing measurements and of the number of
jets, for the label `radBin`. -/
def headFills (radBin : String) (antiKtTime ktTime caTime SISTime : ℚ)
    (antiKtJets KtJets CaJets SISJets : List Jet) : List FillCall :=
  [.fillLabel .timeAntiKt radBin antiKtTime 1,
   .fillLabel .timeKt radBin ktTime 1,
   .fillLabel .timeCa radBin caTime 1,
   .fillLabel .timeSIS radBin SISTime 1,
   .fillLabel .nJetsAntiKt radBin antiKtJets.length 1,
   .fillLabel .nJetsKt radBin KtJets.length 1,
   .fillLabel .nJetsCa radBin CaJets.length 1,
   .fillLabel .nJetsSIS radBin SISJets.length 1]

/-- Lines 530-557: the fills from the leading jets `antiKtJets[0]`, `KtJets[0]`,
`CaJets[0]`, `SISJets[0]`. -/
def leadingFills (lib : FastJet) (radBin : String)
    (antiKtJets0 KtJets0 CaJets0 SISJets0 : Jet) : List FillCall :=
  [.fillLabel .nPartLeadAntiKt radBin antiKtJets0.constituents.length 1,
   .fillLabel .nPartLeadKt radBin KtJets0.constituents.length 1,
   .fillLabel .nPartLeadCa radBin CaJets0.constituents.length 1,
   .fillLabel .nPartLeadSIS radBin SISJets0.constituents.length 1,
   .fillLabel .areaLeadAntiKt radBin antiKtJets0.area 1,
   .fillLabel .areaLeadKt radBin KtJets0.area 1,
   .fillLabel .areaLeadCa radBin CaJets0.area 1,
   .fillLabel .areaLeadSIS radBin SISJets0.area 1,
   .fillLabel .ptLeadAntiKt radBin (lib.pt antiKtJets0.mom) 1,
   .fillLabel .eLeadAntiKt radBin antiKtJets0.mom.E 1,
   .fillLabel .ptLeadKt radBin (lib.pt KtJets0.mom) 1,
   .fillLabel .eLeadKt radBin KtJets0.mom.E 1,
   .fillLabel .ptLeadCa radBin (lib.pt CaJets0.mom) 1,
   .fillLabel .eLeadCa radBin CaJets0.mom.E 1,
   .fillLabel .ptLeadSIS radBin (lib.pt SISJets0.mom) 1,
   .fillLabel .eLeadSIS radBin SISJets0.mom.E 1,
   .fillLabel .etaLeadAntiKt radBin (lib.eta antiKtJets0.mom) 1,
   .fillLabel .phiLeadAntiKt radBin (lib.phi_std antiKtJets0.mom) 1,
   .fillLabel .etaLeadKt radBin (lib.eta KtJets0.mom) 1,
   .fillLabel .phiLeadKt radBin (lib.phi_std KtJets0.mom) 1,
   .fillLabel .etaLeadCa radBin (lib.eta CaJets0.mom) 1,
   .fillLabel .phiLeadCa radBin (lib.phi_std CaJets0.mom) 1,
   .fillLabel .etaLeadSIS radBin (lib.eta SISJets0.mom) 1,
   .fillLabel .phiLeadSIS radBin (lib.phi_std SISJets0.mom) 1]

/-- Lines 559-582: the four loops over all jets of a list. -/
def perJetFills (lib : FastJet) (radBin : String)
    (antiKtJets KtJets CaJets SISJets : List Jet) : List FillCall :=
  (antiKtJets.flatMap fun j =>
    [.fillLabel .nPartAntiKt radBin j.constituents.length 1,
     .fillLabel .areaAntiKt radBin j.area 1,
     .fillLabel .etaAntiKt radBin (lib.eta j.mom) 1,
     .fillLabel .phiAntiKt radBin (lib.phi_std j.mom) 1]) ++
  (KtJets.flatMap fun j =>
    [.fillLabel .nPartKt radBin j.constituents.length 1,
     .fillLabel .areaKt radBin j.area 1,
     .fillLabel .etaKt radBin (lib.eta j.mom) 1,
     .fillLabel .phiKt radBin (lib.phi_std j.mom) 1]) ++
  (CaJets.flatMap fun j =>
    [.fillLabel .nPartCa radBin j.constituents.length 1,
     .fillLabel .areaCa radBin j.area 1,
     .fillLabel .etaCa radBin (lib.eta j.mom) 1,
     .fillLabel .phiCa radBin (lib.phi_std j.mom) 1]) ++
  (SISJets.flatMap fun j =>
    [.fillLabel .nPartSIS radBin j.constituents.length 1,
     .fillLabel .areaSIS radBin j.area 1,
     .fillLabel .etaSIS radBin (lib.eta j.mom) 1,
     .fillLabel .phiSIS radBin (lib.phi_std j.mom) 1])

/-- Lines 594-595, 603-604, 611-612, 619-620: the fills of delta R and delta E,
where `pAntiKt`, `pKt`, `pCa`, `pSIS` are the values of `partons[partonIdx]`
in the four blocks. -/
def matchedFills (lib : FastJet) (radBin : String) (pAntiKt pKt pCa pSIS : PseudoJet)
    (antiKtJets0 KtJets0 CaJets0 SISJets0 : Jet) : List FillCall :=
  [.fillLabel .deltaRAntiKt radBin (lib.delta_R pAntiKt antiKtJets0.mom) 1,
   .fillLabel .deltaEAntiKt radBin (pAntiKt.E - antiKtJets0.mom.E) 1,
   .fillLabel .deltaRKt radBin (lib.delta_R pKt KtJets0.mom) 1,
   .fillLabel .deltaEKt radBin (pKt.E - KtJets0.mom.E) 1,
   .fillLabel .deltaRCa radBin (lib.delta_R pCa CaJets0.mom) 1,
   .fillLabel .deltaECa radBin (pCa.E - CaJets0.mom.E) 1,
   .fillLabel .deltaRSIS radBin (lib.delta_R pSIS SISJets0.mom) 1,
   .fillLabel .deltaESIS radBin (pSIS.E - SISJets0.mom.E) 1]

/-- The body of the loop `for ( int i = 0; i < nRadii; ++i )` of lines 484-621
for the radius index `i`: the fills it makes, in program order.  `time a` is
the duration measured around the clustering of algorithm `a` (lines 492-510). -/
def sweepBody (lib : FastJet) (adef : AreaDefinition) (time : Algo → ℚ)
    (allFinal partons : List PseudoJet) (i : Nat) : Except Fault (List FillCall) := do
  let radBin := radBin i
  -- first perform the clustering, and time it
  let antiKtTime := time .antikt
  let ktTime := time .kt
  let caTime := time .ca
  let SISTime := time .sis
  let antiKtJets := selectedJets lib adef allFinal (antiKtDefs i)
  let KtJets := selectedJets lib adef allFinal (KtDefs i)
  let CaJets := selectedJets lib adef allFinal (CaDefs i)
  let SISJets := selectedJets lib adef allFinal (SISDefs i)
  -- lines 530-557 read the leading jets
  let antiKtJets0 ← vecAt antiKtJets 0
  let KtJets0 ← vecAt KtJets 0
  let CaJets0 ← vecAt CaJets 0
  let SISJets0 ← vecAt SISJets 0
  -- lines 589-595: first antikt
  let partonIdxAntiKt ← partonIdx lib partons antiKtJets0
  let pAntiKt ← vecAt partons partonIdxAntiKt
  -- lines 598-604: Kt
  let partonIdxKt ← partonIdx lib partons KtJets0
  let pKt ← vecAt partons partonIdxKt
  -- lines 606-612: Ca
  let partonIdxCa ← partonIdx lib partons CaJets0
  let pCa ← vecAt partons partonIdxCa
  -- lines 614-620: SISCone
  let partonIdxSIS ← partonIdx lib partons SISJets0
  let pSIS ← vecAt partons partonIdxSIS
  pure (headFills radBin antiKtTime ktTime caTime SISTime antiKtJets KtJets CaJets SISJets ++
    leadingFills lib radBin antiKtJets0 KtJets0 CaJets0 SISJets0 ++
    perJetFills lib radBin antiKtJets KtJets CaJets SISJets ++
    matchedFills lib radBin pAntiKt pKt pCa pSIS antiKtJets0 KtJets0 CaJets0 SISJets0)

/-- The loop `for ( int i = 0; i < nRadii; ++i )` of lines 484-621, from the
radius indices `is` that are still to do: the fills of all passes in order.
`time i a` is the duration measured for algorithm `a` in pass `i`. -/
def sweepLoop (lib : FastJet) (adef : AreaDefinition) (time : Nat → Algo → ℚ)
    (allFinal partons : List PseudoJet) : List Nat → Except Fault (List FillCall)
  | [] => pure []
  | i :: is => do
    let fs ← sweepBody lib adef (time i) allFinal partons i
    let gs ← sweepLoop lib adef time allFinal partons is
    pure (fs ++ gs)

/-! ## The program `jetFindAnalysis` -/

/-- The lines the pipeline writes to `std::cout`. -/
inductive Report
  /-- line 169: `set for N events` -/
  | setFor (maxEvent : Nat)
  /-- line 428: `Event: n` -/
  | event (currentEvent : Nat)
  /-- line 628: `processed n events` -/
  | processed (currentEvent : Nat)
  /-- line 727: `Analysis of N Pythia events took ... seconds. Exiting` -/
  | analysisOf (maxEvent : Nat)
  deriving DecidableEq

/-- What the pipeline does to the world around it, in program order. -/
inductive Effect
  /-- a line on `std::cerr` -/
  | cerr (line : String)
  /-- a line on `std::cout` -/
  | cout (r : Report)
  /-- line 176: `Pythia8::Pythia pythia;`, with the xml directory handed to the
  constructor, if any -/
  | pythiaNew (xmldir : Option String)
  /-- `pythia.readString( s )` -/
  | readString (s : String)
  /-- line 186: `pythia.init()` -/
  | pythiaInit
  /-- a call of `pythia.next()` and whether it succeeded -/
  | next (ok : Bool)
  /-- line 631: `pythia.stat()` -/
  | pythiaStat
  /-- `new TH1D( name, ... )` / `new TH2D( name, ... )` -/
  | newHist (h : Hist)
  /-- a `Fill` of a histogram -/
  | fill (c : FillCall)
  /-- line 634: `TFile out( outFile, "RECREATE" )` -/
  | fileRecreate (outFile : String)
  /-- `h->Write()` into the open file, under the name of `h` -/
  | write (name : String)
  /-- line 723: `out.Close()` -/
  | fileClose
  deriving DecidableEq

/-- What a call of `pythia.next()` can do. -/
inductive GenOutcome
  /-- it returns `false` -/
  | failed
  /-- it returns `true`, and `pythia.event` is the given record -/
  | event (ev : List Particle)
  /-- it raises an exception derived from `std::exception` -/
  | throws (what : String)

/-- Everything outside the program that an execution of the pipeline depends
on. -/
structure World where
  /-- the C library function `atoi` -/
  atoi : String → Int
  /-- what the `n`-th call of `pythia.next()` does; call `0` is the one of line
  187, before the event loop -/
  next : Nat → GenOutcome
  /-- the FastJet library -/
  lib : FastJet
  /-- the milliseconds measured around a clustering: by the number of the call
  of `pythia.next()` that produced the event, the radius index and the
  algorithm -/
  elapsed : Nat → Nat → Algo → ℚ
  /-- the value that line 251 finds when it reads `radii[nRadii]` -/
  pastEnd : ℚ

/-- How an execution ends. -/
inductive Result
  /-- `main` returns `code` -/
  | exit (code : Int) (trace : List Effect)
  /-- undefined behaviour is reached -/
  | undefined (f : Fault) (trace : List Effect)
  /-- an exception leaves `main` -/
  | uncaught (what : String) (trace : List Effect)
  /-- the event loop is still running when the steps allowed to it are used up -/
  | running (trace : List Effect)
  deriving DecidableEq

/-- The values set by the `switch ( argc )` of lines 146-164. -/
structure Config where
  exponent : Nat
  outFile : String
  xmldir : String
  deriving DecidableEq

/-- Conversion of an `int` to `unsigned` (32 bits). -/
def toUnsigned (n : Int) : Nat := (n % (2 ^ 32 : Int)).toNat

/-- The message of lines 161 (pipeline) and 73 (renderer). -/
def msgInputs : String := "Error: unexpected number of inputs."

/-- Lines 146-164 of `jetFindAnalysis.cxx`: the `switch ( argc )`, where `argc`
is the length of `argv`.  `Except.error c` is `return c`. -/
def parseArgs (atoi : String → Int) (argv : List String) : Except Int Config :=
  match argv.length with
  | 1 => .ok
      { exponent := 1
        outFile := "out/test.root"
        xmldir := "/wsu/home/dx/dx54/dx5412/software/pythia8219/share/Pythia8/xmldoc" }
  | 4 => .ok
      { xmldir := argv.getD 1 ""
        exponent := toUnsigned (atoi (argv.getD 2 ""))
        outFile := argv.getD 3 "" }
  | _ => .error (-1)

/-- Line 168: `unsigned maxEvent = pow( 10, exponent )`.  The conversion of the
power to `unsigned` is defined only when the value fits into 32 bits. -/
def maxEventOf (exponent : Nat) : Except Fault Nat :=
  if 10 ^ exponent < 2 ^ 32 then .ok (10 ^ exponent) else .error .badConversion

/-- Lines 176-187: the generator is created and configured. -/
def pythiaSetup : List Effect :=
  [.pythiaNew none,
   .readString "Beams:eCM = 13000",
   .readString "HardQCD:all = on",
   .readString "Random:setSeed = on",
   .readString "Random:seed = 0",
   .readString "PhaseSpace:pTHatMin = 200.0",
   .pythiaInit]

/-- Lines 427-621: what the event loop does with an event `ev` that
`pythia.next()` has produced, after the counter has been incremented to
`currentEvent`.  Returns the containers and the effects. -/
def eventBody (lib : FastJet) (adef : AreaDefinition) (time : Nat → Algo → ℚ)
    (ev : List Particle) (b : Buffers) (currentEvent : Nat) :
    Except Fault (Buffers × List Effect) := do
  -- output event number
  let evNo : List Effect := if currentEvent % 50 = 0 then [.cout (.event currentEvent)] else []
  -- line 435; the returned value is not used
  let conv ← convertToPseudoJet lib ev max_track_rap b
  let allFinal := conv.bufs.all
  let chargedFinal := conv.bufs.charged
  let partons := conv.bufs.part
  -- event information
  let mult : List FillCall :=
    [.fill1 .multiplicity allFinal.length, .fill1 .chargedMultiplicity chargedFinal.length]
  -- fill parton information
  let partons0 ← vecAt partons 0
  let partons1 ← vecAt partons 1
  let partonInfo : List FillCall :=
    [.fill2 .partonEtaPhi (lib.eta partons0) (lib.phi_std partons0),
     .fill1 .partonPt (lib.pt partons0),
     .fill1 .partonE partons0.E,
     .fill2 .partonEtaPhi (lib.eta partons1) (lib.phi_std partons1),
     .fill1 .partonPt (lib.pt partons1),
     .fill1 .partonE partons1.E]
  -- now fill track information
  let visible : List FillCall := allFinal.flatMap fun p =>
    [.fill1 .visiblePt (lib.pt p), .fill1 .visibleE p.E,
     .fill2 .visibleEtaPhi (lib.eta p) (lib.phi_std p)]
  let charged : List FillCall := chargedFinal.flatMap fun p =>
    [.fill1 .chargedPt (lib.pt p), .fill1 .chargedE p.E,
     .fill2 .chargedEtaPhi (lib.eta p) (lib.phi_std p)]
  -- now the loop over differing radii
  let sweep ← sweepLoop lib adef time allFinal partons (List.range nRadii)
  pure (conv.bufs,
    evNo ++ conv.cerr.map .cerr ++ (mult ++ partonInfo ++ visible ++ charged ++ sweep).map .fill)

/-- The state of the event loop between two passes. -/
structure LoopState where
  /-- the number of calls of `pythia.next()` made so far -/
  calls : Nat
  /-- the variable `currentEvent` -/
  currentEvent : Nat
  /-- the containers `allFinal`, `chargedFinal`, `partons` -/
  bufs : Buffers
  /-- the effects so far -/
  trace : List Effect

/-- How the `try` block of lines 414-627 ends. -/
inductive LoopExit
  /-- the condition of the `while` is false -/
  | done (s : LoopState)
  /-- an exception reaches the `catch` of line 624 -/
  | caught (what : String) (s : LoopState)
  /-- undefined behaviour -/
  | undefined (f : Fault) (s : LoopState)
  /-- the loop is still running after the allowed number of passes -/
  | running (s : LoopState)

/-- The loop `while ( currentEvent < maxEvent )` of lines 415-623, for at most
`fuel` passes. -/
def eventLoop (w : World) (maxEvent : Nat) : Nat → LoopState → LoopExit
  | 0, s => if s.currentEvent < maxEvent then .running s else .done s
  | fuel + 1, s =>
    if s.currentEvent < maxEvent then
      match w.next s.calls with
      | .failed =>
        -- `continue`
        eventLoop w maxEvent fuel { s with calls := s.calls + 1, trace := s.trace ++ [.next false] }
      | .throws what => .caught what { s with calls := s.calls + 1 }
      | .event ev =>
        -- pythia succeeded, so increment the event
        let currentEvent := (s.currentEvent + 1) % 2 ^ 32
        match eventBody w.lib (area_def w.pastEnd) (w.elapsed s.calls) ev s.bufs currentEvent with
        | .error f =>
          .undefined f { s with calls := s.calls + 1, currentEvent := currentEvent,
                                trace := s.trace ++ [.next true] }
        | .ok (bufs, effects) =>
          eventLoop w maxEvent fuel
            { calls := s.calls + 1, currentEvent := currentEvent, bufs := bufs,
              trace := s.trace ++ .next true :: effects }
    else .done s

/-- Lines 169-346: the announcement of the number of events, the set-up of the
generator, the call `pythia.next()` of line 187 (`first` is what it does) and
the construction of the histograms. -/
def startup (first : GenOutcome) (maxEvent : Nat) : List Effect :=
  let ok := match first with
    | .event _ => true
    | _ => false
  .cout (.setFor maxEvent) :: pythiaSetup ++ [.next ok] ++ booked.map .newHist

/-- Lines 628-727: the report of the number of processed events, the generator
statistics, and the output file with all histograms written to it. -/
def finish (cfg : Config) (maxEvent currentEvent : Nat) : List Effect :=
  [.cout (.processed currentEvent), .pythiaStat, .fileRecreate cfg.outFile] ++
    writeOrder.map (fun h => .write h.name) ++
    [.fileClose, .cout (.analysisOf maxEvent)]

/-- The function `main` of `jetFindAnalysis.cxx`, run on the command line
`argv` (the program name included) in the world `w`, the event loop being
followed for at most `fuel` passes. -/
def main (w : World) (fuel : Nat) (argv : List String) : Result :=
  match parseArgs w.atoi argv with
  | .error code => .exit code [.cerr msgInputs]
  | .ok cfg =>
    match maxEventOf cfg.exponent with
    | .error f => .undefined f []
    | .ok maxEvent =>
      -- line 187: `pythia.next()`, outside the `try` block
      match w.next 0 with
      | .throws what => .uncaught what (.cout (.setFor maxEvent) :: pythiaSetup)
      | first =>
        match eventLoop w maxEvent fuel ⟨1, 0, ⟨[], [], []⟩, startup first maxEvent⟩ with
        | .running s => .running s.trace
        | .undefined f s => .undefined f s.trace
        | .caught what s => .exit (-1) (s.trace ++ [.cerr ("Caught " ++ what)])
        | .done s => .exit 0 (s.trace ++ finish cfg maxEvent s.currentEvent)

/-! ## The program `generate_output` -/

namespace Renderer

/-- Line 88: `const unsigned nJetFinders = 4`. -/
def nJetFinders : Nat := 4

/-- Line 89: `jfNames`. -/
def jfNames : List String := ["antikt", "kt", "ca", "sis"]

/-- Line 93: `const unsigned nHistograms = 14`. -/
def nHistograms : Nat := 14

/-- Lines 94-95: `histNames`. -/
def histNames : List String :=
  ["njets", "deltaE", "deltaR", "npart", "npartlead",
   "clustertime", "area", "arealead", "ptlead", "elead", "eta", "phi", "etalead", "philead"]

/-- Line 110: the name `jfNames[j] + histNames[i]` that is looked up in the
file. -/
def histName (j i : Nat) : String := jfNames.getD j "" ++ histNames.getD i ""

/-- The names looked up by the loops of lines 108-112, in the order of the
calls of `rootFile.Get`. -/
def requested : List String :=
  (List.range nHistograms).flatMap fun i => (List.range nJetFinders).map fun j => histName j i

/-- Lines 63-76 of `generate_output.cxx`: the `switch ( argc )`; the value is
`inFile`, and `Except.error c` is `return c`. -/
def parseArgs (argv : List String) : Except Int String :=
  match argv.length with
  | 1 => .ok "out/addedpythia.root"
  | 2 => .ok (argv.getD 1 "")
  | _ => .error (-1)

/-- What the renderer does to the world around it. -/
inductive Effect
  /-- a line on `std::cerr` -/
  | cerr (line : String)
  /-- line 79: `TFile rootFile( inFile, "READ" )` -/
  | fileRead (inFile : String)
  /-- line 110: `rootFile.Get( name )` -/
  | get (name : String)
  /-- `c1->SaveAs( path )` -/
  | saveAs (path : String)
  deriving DecidableEq

/-- How an execution of the renderer ends. -/
inductive Result
  /-- `main` returns `code` -/
  | exit (code : Int) (trace : List Effect)
  /-- a null pointer, returned by `Get` for a name that is not in the file, is
  dereferenced (line 122) -/
  | nullDereference (name : String) (trace : List Effect)

/-- The images saved by the calls of `SaveAs` (lines 156-515), in order. -/
def images : List String :=
  ["tmp/njetbase.pdf", "tmp/njetrad.pdf", "tmp/npartleadbase.pdf", "tmp/npartleadrad.pdf",
   "tmp/deltaEbase.pdf", "tmp/deltaErad.pdf", "tmp/deltaRbase.pdf", "tmp/deltaRrad.pdf",
   "tmp/clusterbase.pdf", "tmp/clusterrad.pdf", "tmp/areabase.pdf", "tmp/arearad.pdf"]

/-- The function `main` of `generate_output.cxx` on the command line `argv`,
where `inFileHas name` tells whether the input file holds an object of that
name. -/
def main (inFileHas : String → Bool) (argv : List String) : Result :=
  match parseArgs argv with
  | .error code => .exit code [.cerr msgInputs]
  | .ok inFile =>
    let t := .fileRead inFile :: requested.map .get
    -- lines 118-129 visit `histograms[i][j]` for `i` over the jet finders first
    let visited := (List.range nJetFinders).flatMap fun i =>
      (List.range nHistograms).map fun j => histName i j
    match visited.find? fun n => !inFileHas n with
    | some n => .nullDereference n t
    | none => .exit 0 (t ++ images.map .saveAs)

end Renderer

/-! ## Definitions used to state the theorems -/

/-- The event `ev` with the stored status code of record `i` replaced by `s`, every
other accessor value of the record left as it is, `isFinal()` included (in a
record of the generator `isFinal()` follows the code: see `setStatusCode`). -/
def setStatus : List Particle → Nat → Int → List Particle
  | [], _, _ => []
  | p :: ps, 0, s => { p with status := s } :: ps
  | p :: ps, i + 1, s => p :: setStatus ps i s

/-- The parton that `convertToPseudoJet` builds from a record (lines 93-96). -/
def partonOf (p : Particle) : PseudoJet := ⟨p.px, p.py, p.pz, p.e, toInt (3 * p.charge)⟩

/-- The effects that a pass of the event loop can have. -/
def isLoopEffect : Effect → Bool
  | .cerr _ => true
  | .cout (.event _) => true
  | .next _ => true
  | .fill _ => true
  | _ => false

/-- The effects that the body of the event loop can have on an event. -/
def isBodyEffect : Effect → Bool
  | .cerr _ => true
  | .cout (.event _) => true
  | .fill _ => true
  | _ => false

/-- The state in which the event loop ends. -/
def LoopExit.state : LoopExit → LoopState
  | .done s => s
  | .caught _ s => s
  | .undefined _ s => s
  | .running s => s

/-- The nearer of the partons `p0`, `p1` to the jet `lead`, the first one on a
tie. -/
def nearest (lib : FastJet) (p0 p1 : PseudoJet) (lead : Jet) : PseudoJet :=
  if lib.delta_R p1 lead.mom < lib.delta_R p0 lead.mom then p1 else p0

/-- The fills of a list that go to the histogram `h`. -/
def fillsTo (h : Hist) (fs : List FillCall) : List FillCall :=
  fs.filter fun c => c.hist = h

/-- Whether a fill is a fill by label of a histogram of the radius sweep, with
the label `rb` and the weight 1. -/
def isSweepFill (rb : String) : FillCall → Bool
  | .fillLabel h namex _ w => decide (h ∈ labelled) && (namex == rb) && decide (w = 1)
  | _ => false

/-- The names under which a trace writes histograms to the output file, in
order. -/
def writtenNames (tr : List Effect) : List String :=
  tr.filterMap fun x =>
    match x with
    | .write n => some n
    | _ => none

/-- The position of an algorithm in the tables `jfNames`, `jfString` of the
renderer. -/
def Renderer.jfIndex : Algo → Nat
  | .antikt => 0
  | .kt => 1
  | .ca => 2
  | .sis => 3

/-- The position of an observable in the table `histNames` of the renderer. -/
def Renderer.histIndex : Obs → Nat
  | .njets => 0
  | .deltaE => 1
  | .deltaR => 2
  | .npart => 3
  | .npartlead => 4
  | .clustertime => 5
  | .area => 6
  | .arealead => 7
  | .ptlead => 8
  | .elead => 9
  | .eta => 10
  | .phi => 11
  | .etalead => 12
  | .philead => 13

/-! ### Concrete inputs -/

/-- A stand-in for the FastJet library in concrete runs: pT is `px`, rapidity and
pseudorapidity are `pz`, the azimuth is `py`, and every particle is a jet of
its own with area 1. -/
def demoLib : FastJet where
  eta p := p.pz
  rap p := p.pz
  phi_std p := p.py
  pt p := p.px
  delta_R p q := |p.pz - q.pz| + |p.py - q.py|
  inclusive_jets _ _ ps := ps.map fun p => ⟨p, 1, [p]⟩

/-- A record that is not in the final state. -/
def demoInner (status : Int) (px py pz : ℚ) : Particle :=
  ⟨status, px, py, pz, |px| + |py| + |pz|, 0, false, true⟩

/-- A visible record of the final state. -/
def demoFinal (px py pz charge : ℚ) : Particle :=
  ⟨1, px, py, pz, |px| + |py| + |pz|, charge, true, true⟩

/-- An event with the two outgoing partons in records 5 and 6, both inside the
acceptance, and three particles in the final state. -/
def demoEvent : List Particle :=
  [demoInner (-11) 0 0 0, demoInner (-12) 0 0 6500, demoInner (-12) 0 0 (-6500),
   demoInner (-21) 0 0 300, demoInner (-21) 0 0 (-300),
   demoInner (-23) 250 1 (1/2), demoInner (-23) (-250) (-2) (-1/4),
   demoFinal 240 1 (1/2) 1, demoFinal 200 (-2) (-1/4) 0, demoFinal 30 0 5 (-1)]

/-- The event `demoEvent` with the status code 21 in record 5. -/
def oddStatusEvent : List Particle := setStatus demoEvent 5 21

/-- An event whose partons are inside the acceptance and which has no visible
particle in the final state. -/
def emptyEvent : List Particle := demoEvent.take 7

/-- The containers before the first event. -/
def noBuffers : Buffers := ⟨[], [], []⟩

/-- A world for concrete runs: `atoi` gives 0, every call of `pythia.next()`
produces `demoEvent`, every clustering takes 3 ms. -/
def demoWorld : World where
  atoi _ := 0
  next _ := .event demoEvent
  lib := demoLib
  elapsed _ _ _ := 3
  pastEnd := 0

/-- A command line with the three arguments. -/
def demoArgv : List String := ["jetFindAnalysis", "xmldoc", "0", "out/demo.root"]

/-- The containers that `convertToPseudoJet` fills from `demoEvent`. -/
def demoBuffers : Buffers :=
  ((convertToPseudoJet demoLib demoEvent max_track_rap noBuffers).toOption.map
    Converted.bufs).getD noBuffers

/-- The containers that `convertToPseudoJet` fills from `emptyEvent`. -/
def emptyBuffers : Buffers :=
  ((convertToPseudoJet demoLib emptyEvent max_track_rap noBuffers).toOption.map
    Converted.bufs).getD noBuffers

/-- The fills of the pass of the radius sweep for the radius index 0 on
`demoEvent`. -/
def demoFills : List FillCall :=
  (sweepBody demoLib (area_def 0) (demoWorld.elapsed 1 0) demoBuffers.all demoBuffers.part
    0).toOption.getD []

/-- A world in which every call of `pythia.next()` produces `emptyEvent`. -/
def emptyWorld : World := { demoWorld with next := fun _ => .event emptyEvent }

/-- The trace of a result. -/
def Result.trace : Result → List Effect
  | .exit _ t => t
  | .undefined _ t => t
  | .uncaught _ t => t
  | .running t => t

/-- The exit code of a result, if `main` returns. -/
def Result.code : Result → Option Int
  | .exit c _ => some c
  | _ => none

/-! ### Definitions for the claims on `convertToPseudoJet` (C11, C12, C13) -/

/-- The `PseudoJet` that the particle loop of `convertToPseudoJet` builds from a
record (lines 105-106). -/
def particleOf (p : Particle) : PseudoJet := ⟨p.px, p.py, p.pz, p.e, toInt p.charge⟩

/-- A record that is final, visible and inside the acceptance
`|rapidity| <= max_rap`. -/
def accepted (lib : FastJet) (max_rap : ℚ) (p : Particle) : Bool :=
  p.isFinal && p.isVisible && decide (|lib.rap (particleOf p)| ≤ max_rap)

/-- The result of `convertToPseudoJet` on `demoEvent`. -/
def demoConverted : Converted :=
  (convertToPseudoJet demoLib demoEvent max_track_rap noBuffers).toOption.getD ⟨0, noBuffers, []⟩

/-- The effects on the output file. -/
def isFileEffect : Effect → Bool
  | .fileRecreate _ => true
  | .write _ => true
  | .fileClose => true
  | _ => false

/-- A world in which the second call of `pythia.next()` inside the event loop
raises an exception. -/
def throwWorld : World :=
  { demoWorld with next := fun n => if n = 2 then .throws "generator failure" else .event demoEvent }

/-- A world in which every call of `pythia.next()` fails. -/
def failWorld : World := { demoWorld with next := fun _ => .failed }

/-- The state of the event loop when it is entered, for a start-up trace `t`. -/
def loopEntry (t : List Effect) : LoopState := ⟨1, 0, ⟨[], [], []⟩, t⟩

/-! ### Definitions for the claims on the fills of the sweep (C14, C19, C20) -/

/-- The fills that the histogram of algorithm `a` for an observable is to
receive in one pass of the sweep, written in terms of the data of that
algorithm alone: the label `rb` of the radius, the duration `t` of its
clustering, its selected jets `jets`, its leading jet `lead`, and the parton
`p` selected for it. -/
def ownFills (lib : FastJet) (rb : String) (t : ℚ) (jets : List Jet) (lead : Jet)
    (p : PseudoJet) (a : Algo) : Obs → List FillCall
  | .njets => [.fillLabel (sweepHist a .njets) rb jets.length 1]
  | .deltaE => [.fillLabel (sweepHist a .deltaE) rb (p.E - lead.mom.E) 1]
  | .deltaR => [.fillLabel (sweepHist a .deltaR) rb (lib.delta_R p lead.mom) 1]
  | .npart => jets.map fun j => .fillLabel (sweepHist a .npart) rb j.constituents.length 1
  | .npartlead => [.fillLabel (sweepHist a .npartlead) rb lead.constituents.length 1]
  | .clustertime => [.fillLabel (sweepHist a .clustertime) rb t 1]
  | .area => jets.map fun j => .fillLabel (sweepHist a .area) rb j.area 1
  | .arealead => [.fillLabel (sweepHist a .arealead) rb lead.area 1]
  | .ptlead => [.fillLabel (sweepHist a .ptlead) rb (lib.pt lead.mom) 1]
  | .elead => [.fillLabel (sweepHist a .elead) rb lead.mom.E 1]
  | .eta => jets.map fun j => .fillLabel (sweepHist a .eta) rb (lib.eta j.mom) 1
  | .etalead => [.fillLabel (sweepHist a .etalead) rb (lib.eta lead.mom) 1]
  | .phi => jets.map fun j => .fillLabel (sweepHist a .phi) rb (lib.phi_std j.mom) 1
  | .philead => [.fillLabel (sweepHist a .philead) rb (lib.phi_std lead.mom) 1]

/-- The eight observables that are filled once per event and configuration. -/
def Obs.perEvent : List Obs :=
  [.njets, .npartlead, .arealead, .ptlead, .elead, .etalead, .philead, .clustertime]

/-- The four observables that are filled for every jet. -/
def Obs.perJet : List Obs := [.npart, .area, .eta, .phi]

/-- The value that a per-jet observable takes on a jet. -/
def Obs.ofJet (lib : FastJet) (j : Jet) : Obs → ℚ
  | .npart => j.constituents.length
  | .area => j.area
  | .eta => lib.eta j.mom
  | .phi => lib.phi_std j.mom
  | _ => 0

/-- The clusterings of one pass of the sweep, lines 494-509: the arguments of
the four constructions of a `fastjet::ClusterSequenceArea`, in order. -/
def passClusterings (adef : AreaDefinition) (allFinal : List PseudoJet) (i : Nat) :
    List (List PseudoJet × JetDefinition × AreaDefinition) :=
  [(allFinal, antiKtDefs i, adef), (allFinal, KtDefs i, adef),
   (allFinal, CaDefs i, adef), (allFinal, SISDefs i, adef)]

/-- The clusterings of one event: those of the passes for `i` = 0 .. `nRadii` - 1. -/
def eventClusterings (adef : AreaDefinition) (allFinal : List PseudoJet) :
    List (List PseudoJet × JetDefinition × AreaDefinition) :=
  (List.range nRadii).flatMap (passClusterings adef allFinal)

/-- The library `lib` with another clustering function. -/
def withClustering (lib : FastJet)
    (g : JetDefinition → AreaDefinition → List PseudoJet → List Jet) : FastJet :=
  { lib with inclusive_jets := g }

/-- Whether an effect is a fill of the histogram `h` that lands in the bin `bin`
of its labelled x axis. -/
def landsIn (h : Hist) (bin : Nat) : Effect → Bool
  | .fill (.fillLabel h' namex _ _) =>
    decide (h' = h) && ((labelledAxes h).FindBin namex == some bin)
  | _ => false

/-- The number of entries that a trace puts into the bin `bin` of the x axis of
the histogram `h`. -/
def entriesIn (h : Hist) (bin : Nat) (tr : List Effect) : Nat :=
  tr.countP (landsIn h bin)
/-- The value that an observable filled once per event takes, from the duration
`t` of the clustering, the selected jets and the leading jet. -/
def Obs.ofEvent (lib : FastJet) (t : ℚ) (jets : List Jet) (lead : Jet) : Obs → ℚ
  | .njets => jets.length
  | .npartlead => lead.constituents.length
  | .arealead => lead.area
  | .ptlead => lib.pt lead.mom
  | .elead => lead.mom.E
  | .etalead => lib.eta lead.mom
  | .philead => lib.phi_std lead.mom
  | .clustertime => t
  | _ => 0

/-! ### The slices and curves of the renderer (C17, C18) -/

namespace Renderer

/-- Line 98: `const unsigned nRadii = 10`. -/
def nRadii : Nat := 10

/-- Line 99: `rad`. -/
def rad : List ℚ := [1/10, 2/10, 3/10, 4/10, 5/10, 6/10, 7/10, 8/10, 9/10, 1]

/-- Line 100: `zeros`. -/
def zeros : List ℚ := [0, 0, 0, 0, 0, 0, 0, 0, 0, 0]

/-- Line 101: `radii`. -/
def radii : List String := ["0.1", "0.2", "0.3", "0.4", "0.5", "0.6", "0.7", "0.8", "0.9", "1.0"]

/-- Line 102: `unsigned baseRad = 7`. -/
def baseRad : Nat := 7

/-- A two-dimensional histogram as far as the renderer uses it (ROOT `TH2D`):
its name, the numbers of bins, the bin contents (`GetBinContent( binx, biny )`,
the bins 0 and n+1 being underflow and overflow) and the range of the x axis
(`first`, `last` and the bit that says that a range is set). -/
structure TH2D where
  name : String
  nbinsx : Nat
  nbinsy : Nat
  content : Nat → Nat → ℚ
  first : Nat
  last : Nat
  ranged : Bool

/-- A one-dimensional histogram (ROOT `TH1D`): name, number of bins, contents. -/
structure TH1D where
  name : String
  nbins : Nat
  content : Nat → ℚ

/-- ROOT `GetXaxis()->SetRange( first, last )`: an empty or void range resets
the axis to all its bins; otherwise the range is stored, cut at the overflow
bin, and the range bit is set. -/
def TH2D.SetRange (h : TH2D) (first last : Nat) : TH2D :=
  if last < first ∨ (h.nbinsx + 1 < first ∧ h.nbinsx + 1 < last) ∨ (first = 0 ∧ last = 0) then
    { h with first := 1, last := h.nbinsx, ranged := false }
  else
    { h with first := first, last := min last (h.nbinsx + 1), ranged := true }

/-- ROOT `ProjectionY()` without arguments: the sum over the x bins of the range
of the x axis when one is set, over all x bins with underflow and overflow
otherwise.  The result is a histogram of its own, named after the original. -/
def TH2D.ProjectionY (h : TH2D) : TH1D :=
  let f := if h.ranged then h.first else 0
  let l := if h.ranged then h.last else h.nbinsx + 1
  { name := h.name ++ "_py"
    nbins := h.nbinsy
    content := fun b => ((List.range (l + 1 - f)).map fun d => h.content (f + d) b).sum }

/-- Lines 122-125: the slice `hist1D[i][j][k]` made from `histograms[i][j]`: the
range of its x axis is set to the bin `k+1` alone, it is projected, and the
projection gets the name `jfNames[i] + histNames[j] + radii[k]`. -/
def hist1D (histograms : Nat → Nat → TH2D) (i j k : Nat) : TH1D :=
  { ((histograms i j).SetRange (k + 1) (k + 1)).ProjectionY with
    name := jfNames.getD i "" ++ histNames.getD j "" ++ radii.getD k "" }

/-- The statistics functions of ROOT that the renderer calls on a slice. -/
structure Root where
  GetMean : TH1D → ℚ
  GetRMS : TH1D → ℚ

/-- A `TGraphErrors( n, x, y, ex, ey )`. -/
structure TGraphErrors where
  n : Nat
  x : List ℚ
  y : List ℚ
  ex : List ℚ
  ey : List ℚ
  deriving DecidableEq

/-- Lines 170, 235, 300, 364, 428, 492: `shift`, the entries `rad[j] + 0.01*i`. -/
def shift (i : Nat) : List ℚ := rad.map fun r => r + 1 / 100 * (i : ℚ)

/-- Lines 165-166 (and 230-231, 295-296, 359-360, 423-424, 487-488): the array of
the means `hist1D[i][obs][j]->GetMean()` for `j` = 0 .. `nRadii` - 1. -/
def meanArray (root : Root) (slices : Nat → Nat → Nat → TH1D) (obs i : Nat) : List ℚ :=
  (List.range nRadii).map fun j => root.GetMean (slices i obs j)

/-- Lines 167 (and 232, 297, 361, 425, 489): the array of the values
`hist1D[i][obs][j]->GetRMS()` for `j` = 0 .. `nRadii` - 1. -/
def errorArray (root : Root) (slices : Nat → Nat → Nat → TH1D) (obs i : Nat) : List ℚ :=
  (List.range nRadii).map fun j => root.GetRMS (slices i obs j)

/-- Line 172: `njetGraph[i] = new TGraphErrors( nRadii, shift, njet[i], zeros,
zeros )`, where `njet[i]` holds the means of `hist1D[i][0][j]`. -/
def njetGraph (root : Root) (slices : Nat → Nat → Nat → TH1D) (i : Nat) : TGraphErrors :=
  ⟨nRadii, shift i, meanArray root slices 0 i, zeros, zeros⟩

/-- Line 237: `npartGraph[i]`, from the means of `hist1D[i][4][j]`. -/
def npartGraph (root : Root) (slices : Nat → Nat → Nat → TH1D) (i : Nat) : TGraphErrors :=
  ⟨nRadii, shift i, meanArray root slices 4 i, zeros, zeros⟩

/-- Line 302: `deltaEGraph[i]`, from the means of `hist1D[i][1][j]`. -/
def deltaEGraph (root : Root) (slices : Nat → Nat → Nat → TH1D) (i : Nat) : TGraphErrors :=
  ⟨nRadii, shift i, meanArray root slices 1 i, zeros, zeros⟩

/-- Line 366: `deltaRGraph[i]`, from the means of `hist1D[i][2][j]`. -/
def deltaRGraph (root : Root) (slices : Nat → Nat → Nat → TH1D) (i : Nat) : TGraphErrors :=
  ⟨nRadii, shift i, meanArray root slices 2 i, zeros, zeros⟩

/-- Line 430: `clusterGraph[i]`, from the means of `hist1D[i][5][j]`. -/
def clusterGraph (root : Root) (slices : Nat → Nat → Nat → TH1D) (i : Nat) : TGraphErrors :=
  ⟨nRadii, shift i, meanArray root slices 5 i, zeros, zeros⟩

/-- Line 494: `areaGraph[i]`, from the means of `hist1D[i][7][j]`. -/
def areaGraph (root : Root) (slices : Nat → Nat → Nat → TH1D) (i : Nat) : TGraphErrors :=
  ⟨nRadii, shift i, meanArray root slices 7 i, zeros, zeros⟩

/-- The six radius-dependence curves of algorithm `i`, each with the index of
its observable in `histNames`, in the order of the program. -/
def curves (root : Root) (slices : Nat → Nat → Nat → TH1D) (i : Nat) :
    List (Nat × TGraphErrors) :=
  [(0, njetGraph root slices i), (4, npartGraph root slices i), (1, deltaEGraph root slices i),
   (2, deltaRGraph root slices i), (5, clusterGraph root slices i),
   (7, areaGraph root slices i)]

/-- The six comparison plots at the fixed radius (lines 136-156, 201-221,
267-287, 331-351, 395-415, 459-479): the image and the index `j` of the
observable whose slices `hist1D[i][j][baseRad]` are drawn. -/
def basePlots : List (String × Nat) :=
  [("tmp/njetbase.pdf", 0), ("tmp/npartleadbase.pdf", 4), ("tmp/deltaEbase.pdf", 1),
   ("tmp/deltaRbase.pdf", 2), ("tmp/clusterbase.pdf", 5), ("tmp/areabase.pdf", 7)]

/-- The slices drawn in the comparison plot of the observable `j`, one for each
jet finder `i`. -/
def baseDrawn (slices : Nat → Nat → Nat → TH1D) (j : Nat) : List TH1D :=
  (List.range nJetFinders).map fun i => slices i j baseRad

/-- Histograms for concrete runs of the renderer: 10 x 3 bins, the content of
the bin `(x, y)` being `x * y`. -/
def demoHists (_i _j : Nat) : TH2D :=
  { name := "demo", nbinsx := 10, nbinsy := 3,
    content := fun x y => if 1 ≤ x ∧ x ≤ 10 ∧ 1 ≤ y ∧ y ≤ 3 then (x * y : ℚ) else 0,
    first := 1, last := 10, ranged := false }

/-- A stand-in for the statistics of ROOT with rational values: the mean of the
bin numbers 1 .. 3 weighted with the contents, and as spread the weighted mean
of the squared deviation of the bin number from 2. -/
def demoRoot : Root where
  GetMean h := (h.content 1 + 2 * h.content 2 + 3 * h.content 3) /
    (h.content 1 + h.content 2 + h.content 3)
  GetRMS h := (h.content 1 + h.content 3) / (h.content 1 + h.content 2 + h.content 3)

end Renderer

/-! ### Definitions for the claim on the xml directory (C25) -/

/-- Whether an effect is the construction of the generator with an xml
directory handed to the constructor. -/
def usesXmldir : Effect → Bool
  | .pythiaNew (some _) => true
  | _ => false

/-! ### Definitions for the claim on the reads of the partons (C24) -/

/-- An event whose outgoing parton of record 5 lies outside the acceptance
(pseudorapidity 5 in `demoLib`), with two particles in the final state. -/
def forwardEvent : List Particle :=
  [demoInner (-11) 0 0 0, demoInner (-12) 0 0 6500, demoInner (-12) 0 0 (-6500),
   demoInner (-21) 0 0 300, demoInner (-21) 0 0 (-300),
   demoInner (-23) 250 1 5, demoInner (-23) (-250) (-2) (-1/4),
   demoFinal 240 1 (1/2) 1, demoFinal 200 (-2) (-1/4) 0]

/-- A world in which the second call of `pythia.next()` inside the event loop
produces `forwardEvent`, and every other call `demoEvent`. -/
def forwardWorld : World :=
  { demoWorld with next := fun n => if n = 2 then .event forwardEvent else .event demoEvent }

/-- The state of the event loop in `forwardWorld` after its first pass, with an
empty trace: two calls of `pythia.next()` made, one event counted, the
containers filled from `demoEvent`. -/
def afterFirst : LoopState := ⟨2, 1, demoBuffers, []⟩

/-- The undefined behaviour in which a result ends, if it does. -/
def Result.fault : Result → Option Fault
  | .undefined f _ => some f
  | _ => none

/-! ### Definitions for the claim on the number of observables (C23) -/

/-- The name under which lines 284-346 group the sweep histograms of an
algorithm: every histogram of the group has a name that starts with it. -/
def Algo.tag : Algo → String
  | .antikt => "antikt"
  | .kt => "kt"
  | .ca => "ca"
  | .sis => "sis"

/-- The radius-sweep histograms of an algorithm, in the order of their
construction: the constructed histograms whose x axis gets the radius labels
(lines 348-410) and whose name starts with the name of the algorithm. -/
def sweepHistsOf (a : Algo) : List Hist :=
  booked.filter fun h => decide (h ∈ labelled) && a.tag.data.isPrefixOf h.name.data

/-- The number of observables per algorithm that section 4.3 of the
specification states. -/
def claimedObservables : Nat := 18

/-! ### Definitions for the claim on the status codes (C10) -/

/-- Whether an effect is the fill of the duration measured around a clustering
(lines 513-516: one such fill for every clustering that lines 492-510 make and
time). -/
def isDurationFill : Effect → Bool
  | .fill (.fillLabel h _ _ _) => decide (h ∈ [Hist.timeAntiKt, .timeKt, .timeCa, .timeSIS])
  | _ => false

/-- The clustering function that finds no jets at the arguments `x` and is `f`
at all other arguments. -/
def emptyAt (f : JetDefinition → AreaDefinition → List PseudoJet → List Jet)
    (x : List PseudoJet × JetDefinition × AreaDefinition) :
    JetDefinition → AreaDefinition → List PseudoJet → List Jet :=
  fun jd ad ps => if (ps, jd, ad) = x then [] else f jd ad ps

/-- What the body of the event loop does with `demoEvent` as the first event of
the loop: the containers and the effects. -/
def demoBody : Buffers × List Effect :=
  (eventBody demoLib (area_def 0) (demoWorld.elapsed 1) demoEvent noBuffers 1).toOption.getD
    (noBuffers, [])

/-! ## Theorems -/

/-! ### Auxiliary facts -/

theorem bind_eq_ok {ε α β : Type} (x : Except ε α) (f : α → Except ε β) (b : β) :
    (x >>= f) = .ok b ↔ ∃ a, x = .ok a ∧ f a = .ok b := by
  cases x <;> simp [bind, Except.bind]

theorem vecAt_eq_ok {α : Type} (v : List α) (i : Nat) (x : α) :
    vecAt v i = .ok x ↔ v[i]? = some x := by
  unfold vecAt
  cases h : v[i]? <;> simp

theorem vecAt_eq_error {α : Type} (v : List α) (i : Nat) (f : Fault) :
    vecAt v i = .error f → v[i]? = none := by
  unfold vecAt
  cases h : v[i]? <;> simp

theorem convertStep_status (lib : FastJet) (m : ℚ) (st : List PseudoJet × List PseudoJet)
    (p : Particle) (s : Int) :
    convertStep lib m st { p with status := s } = convertStep lib m st p := rfl

theorem parseArgs_error (atoi : String → Int) (argv : List String) (c : Int) :
    parseArgs atoi argv = .error c ↔ c = -1 ∧ argv.length ≠ 1 ∧ argv.length ≠ 4 := by
  unfold parseArgs
  split
  · rename_i h; simp [h]
  · rename_i h; simp [h]
  · rename_i h1 h4
    constructor
    · intro h
      injection h with h
      exact ⟨h.symm, h1, h4⟩
    · rintro ⟨h, -, -⟩
      rw [h]

theorem renderer_parseArgs_error (argv : List String) (c : Int) :
    Renderer.parseArgs argv = .error c ↔ c = -1 ∧ argv.length ≠ 1 ∧ argv.length ≠ 2 := by
  unfold Renderer.parseArgs
  split
  · rename_i h; simp [h]
  · rename_i h; simp [h]
  · rename_i h1 h2
    constructor
    · intro h
      injection h with h
      exact ⟨h.symm, h1, h2⟩
    · rintro ⟨h, -, -⟩
      rw [h]

/-! ### The event loop -/

theorem eventBody_effects {lib : FastJet} {adef : AreaDefinition} {time : Nat → Algo → ℚ}
    {ev : List Particle} {b b' : Buffers} {n : Nat} {effs : List Effect}
    (h : eventBody lib adef time ev b n = .ok (b', effs)) :
    ∀ x ∈ effs, isBodyEffect x = true := by
  unfold eventBody at h
  simp only [bind_eq_ok] at h
  obtain ⟨conv, -, p0, -, p1, -, sw, -, h⟩ := h
  simp only [pure, Except.pure, Except.ok.injEq, Prod.mk.injEq] at h
  obtain ⟨-, rfl⟩ := h
  intro x hx
  simp only [List.mem_append, List.mem_map] at hx
  rcases hx with (hx | ⟨s, -, rfl⟩) | ⟨c, -, rfl⟩
  · split at hx
    · simp only [List.mem_singleton] at hx
      subst hx
      rfl
    · simp at hx
  · rfl
  · rfl

theorem isLoopEffect_of_body {x : Effect} (h : isBodyEffect x = true) : isLoopEffect x = true := by
  cases x with
  | cout r => cases r <;> first | rfl | simp [isBodyEffect] at h
  | _ => first | rfl | simp [isBodyEffect] at h

theorem count_next_body {effs : List Effect} (h : ∀ x ∈ effs, isBodyEffect x = true) :
    effs.count (.next true) = 0 := by
  rw [List.count_eq_zero]
  intro hmem
  have := h _ hmem
  simp [isBodyEffect] at this

theorem eventLoop_spec (w : World) (m : Nat) (hm : m < 2 ^ 32) :
    ∀ (fuel : Nat) (s : LoopState), s.currentEvent ≤ m →
      ∃ effs, (eventLoop w m fuel s).state.trace = s.trace ++ effs ∧
        (∀ x ∈ effs, isLoopEffect x = true) ∧
        (eventLoop w m fuel s).state.currentEvent ≤ m ∧
        s.currentEvent + effs.count (.next true) = (eventLoop w m fuel s).state.currentEvent ∧
        (∀ s', eventLoop w m fuel s = .done s' → s'.currentEvent = m) := by
  intro fuel
  induction fuel with
  | zero =>
    intro s hs
    refine ⟨[], ?_⟩
    unfold eventLoop
    split
    · simp [LoopExit.state, hs]
    · rename_i h
      simp only [LoopExit.state, List.append_nil, List.not_mem_nil, false_implies, implies_true,
        List.count_nil, Nat.add_zero, LoopExit.done.injEq, true_and, hs]
      intro s' hs'
      subst hs'
      omega
  | succ fuel ih =>
    intro s hs
    rw [eventLoop]
    split
    · rename_i hlt
      split
      · -- `pythia.next()` failed
        obtain ⟨effs, h1, h2, h3, h4, h5⟩ :=
          ih { s with calls := s.calls + 1, trace := s.trace ++ [.next false] } hs
        refine ⟨.next false :: effs, ?_, ?_, h3, ?_, h5⟩
        · rw [h1]; simp
        · intro x hx
          rcases List.mem_cons.mp hx with rfl | hx
          · rfl
          · exact h2 x hx
        · rw [← h4]; simp
      · -- an exception
        refine ⟨[], ?_⟩
        simp [LoopExit.state, hs]
      · -- an event
        have hlt' : (s.currentEvent + 1) % 2 ^ 32 = s.currentEvent + 1 :=
          Nat.mod_eq_of_lt (by omega)
        simp only [hlt']
        split
        · refine ⟨[.next true], ?_⟩
          simp only [LoopExit.state]
          refine ⟨trivial, ?_, by omega, by simp, by simp⟩
          intro x hx
          rw [List.mem_singleton.mp hx]
          rfl
        · rename_i bufs effects hbody
          have hb := eventBody_effects hbody
          obtain ⟨effs, h1, h2, h3, h4, h5⟩ :=
            ih { calls := s.calls + 1, currentEvent := s.currentEvent + 1,
                 bufs := bufs, trace := s.trace ++ .next true :: effects }
              (by simp only; omega)
          refine ⟨.next true :: (effects ++ effs), ?_, ?_, h3, ?_, h5⟩
          · rw [h1]; simp
          · intro x hx
            rcases List.mem_cons.mp hx with rfl | hx
            · rfl
            · rcases List.mem_append.mp hx with hx | hx
              · exact isLoopEffect_of_body (hb x hx)
              · exact h2 x hx
          · rw [← h4]
            simp only [List.count_cons_self, List.count_append, count_next_body hb]
            omega
    · rename_i hge
      refine ⟨[], ?_⟩
      simp only [LoopExit.state, List.append_nil, List.not_mem_nil, false_implies, implies_true,
        List.count_nil, Nat.add_zero, LoopExit.done.injEq, true_and, hs]
      intro s' hs'
      subst hs'
      omega

theorem eventLoop_done_of_success (w : World) (m : Nat) (hm : m < 2 ^ 32)
    (hok : ∀ n, ∃ ev, w.next n = .event ev ∧
      ∀ b k, ∃ r, eventBody w.lib (area_def w.pastEnd) (w.elapsed n) ev b k = .ok r) :
    ∀ (fuel : Nat) (s : LoopState), s.currentEvent ≤ m → m ≤ s.currentEvent + fuel →
      ∃ s', eventLoop w m fuel s = .done s' := by
  intro fuel
  induction fuel with
  | zero =>
    intro s hs hfuel
    refine ⟨s, ?_⟩
    unfold eventLoop
    rw [if_neg (by omega)]
  | succ fuel ih =>
    intro s hs hfuel
    rw [eventLoop]
    split
    · rename_i hlt
      obtain ⟨ev, hev, hbody⟩ := hok s.calls
      have hlt' : (s.currentEvent + 1) % 2 ^ 32 = s.currentEvent + 1 :=
        Nat.mod_eq_of_lt (by omega)
      obtain ⟨⟨bufs, effects⟩, hr⟩ := hbody s.bufs (s.currentEvent + 1)
      simp only [hev, hlt', hr]
      exact ih _ (by simp only; omega) (by simp only; omega)
    · exact ⟨s, rfl⟩

theorem maxEventOf_eq_ok (e m : Nat) :
    maxEventOf e = .ok m ↔ 10 ^ e < 2 ^ 32 ∧ m = 10 ^ e := by
  unfold maxEventOf
  split
  · rename_i h
    constructor
    · intro h'
      injection h' with h'
      exact ⟨h, h'.symm⟩
    · rintro ⟨-, rfl⟩
      rfl
  · rename_i h
    constructor
    · intro h'
      cases h'
    · rintro ⟨h', -⟩
      exact absurd h' h

theorem main_exit_zero {w : World} {fuel : Nat} {argv : List String} {tr : List Effect}
    (h : main w fuel argv = .exit 0 tr) :
    ∃ cfg loop, parseArgs w.atoi argv = .ok cfg ∧ 10 ^ cfg.exponent < 2 ^ 32 ∧
      tr = startup (w.next 0) (10 ^ cfg.exponent) ++ loop ++
        finish cfg (10 ^ cfg.exponent) (10 ^ cfg.exponent) ∧
      (∀ x ∈ loop, isLoopEffect x = true) ∧
      loop.count (.next true) = 10 ^ cfg.exponent := by
  unfold main at h
  split at h
  · rename_i code hcode
    injection h with h1 h2
    have := (parseArgs_error _ _ _).mp hcode
    omega
  · rename_i cfg hcfg
    split at h
    · cases h
    · rename_i maxEvent hmax
      obtain ⟨hrep, rfl⟩ := (maxEventOf_eq_ok _ _).mp hmax
      split at h
      · cases h
      · rename_i first hfirst
        obtain ⟨effs, h1, h2, h3, h4, h5⟩ :=
          eventLoop_spec w (10 ^ cfg.exponent) hrep fuel
            ⟨1, 0, ⟨[], [], []⟩, startup (w.next 0) (10 ^ cfg.exponent)⟩ (Nat.zero_le _)
        split at h
        · cases h
        · cases h
        · injection h with hc
          omega
        · rename_i s hs
          injection h with _ htr
          have hcur := h5 s hs
          rw [hs] at h1 h4
          simp only [LoopExit.state] at h1 h4
          refine ⟨cfg, effs, hcfg, hrep, ?_, h2, ?_⟩
          · rw [← htr, h1, hcur]
          · omega

/-! ### The command line (C8) -/

/-- C8: each program returns the exit code -1 from its `switch ( argc )`, before
anything else happens (the trace consists of the error message alone: no
generator, no histogram, no file), exactly when the argument count is
unexpected: the pipeline if and only if `argc` is neither 1 nor 4, the
renderer if and only if `argc` is neither 1 nor 2.  For the accepted counts
the `switch` does not return. -/
theorem exit_on_argument_count (w : World) (fuel : Nat) (inFileHas : String → Bool)
    (argv : List String) :
    (∀ c, parseArgs w.atoi argv = .error c ↔ c = -1 ∧ argv.length ≠ 1 ∧ argv.length ≠ 4) ∧
    (main w fuel argv = .exit (-1) [.cerr msgInputs] ↔ argv.length ≠ 1 ∧ argv.length ≠ 4) ∧
    (∀ c, Renderer.parseArgs argv = .error c ↔ c = -1 ∧ argv.length ≠ 1 ∧ argv.length ≠ 2) ∧
    (Renderer.main inFileHas argv = .exit (-1) [.cerr msgInputs] ↔
      argv.length ≠ 1 ∧ argv.length ≠ 2) := by
  refine ⟨parseArgs_error _ _, ?_, renderer_parseArgs_error _, ?_⟩
  · constructor
    · intro h
      unfold main at h
      split at h
      · rename_i code hcode
        exact ((parseArgs_error _ _ _).mp hcode).2
      · rename_i cfg hcfg
        exfalso
        split at h
        · cases h
        · rename_i maxEvent hmax
          obtain ⟨hrep, rfl⟩ := (maxEventOf_eq_ok _ _).mp hmax
          split at h
          · cases h
          · obtain ⟨effs, h1, -⟩ :=
              eventLoop_spec w (10 ^ cfg.exponent) hrep fuel
                ⟨1, 0, ⟨[], [], []⟩, startup (w.next 0) (10 ^ cfg.exponent)⟩ (Nat.zero_le _)
            split at h
            · cases h
            · cases h
            · rename_i what s hs
              injection h with _ htr
              rw [hs] at h1
              simp only [LoopExit.state] at h1
              rw [h1] at htr
              have := congrArg List.length htr
              simp [startup] at this
            · injection h with hc
              omega
    · intro h
      have hp : parseArgs w.atoi argv = .error (-1) := (parseArgs_error _ _ _).mpr ⟨rfl, h⟩
      unfold main
      rw [hp]
  · constructor
    · intro h
      unfold Renderer.main at h
      split at h
      · rename_i code hcode
        exact ((renderer_parseArgs_error _ _).mp hcode).2
      · exfalso
        dsimp only at h
        split at h
        · cases h
        · injection h with hc
          omega
    · intro h
      have hp : Renderer.parseArgs argv = .error (-1) :=
        (renderer_parseArgs_error _ _).mpr ⟨rfl, h⟩
      unfold Renderer.main
      rw [hp]

/-! ### `convertToPseudoJet` and the status codes (C9) -/

/-- C9, as the claim states it, fails: in `oddStatusEvent` the status code of
record 5 is 21, not -23, and `convertToPseudoJet` returns 1, not 0. -/
theorem reject_on_status_fails :
    (oddStatusEvent[5]?).map Particle.status = some 21 ∧
    (convertToPseudoJet demoLib oddStatusEvent max_track_rap noBuffers).toOption.map
      Converted.ret = some 1 := by
  decide!

/-- C9, amended: on an event that has records 5 and 6, `convertToPseudoJet`
writes the diagnostic of a record to `std::cerr` exactly when the status code
of that record is not -23, and it does not reject on that account: it returns
0 exactly when the parton built from record 5 or the one built from record 6
has a pseudorapidity of absolute value above `max_rap`, and 1 otherwise. -/
theorem convert_return_value (lib : FastJet) (ev : List Particle) (max_rap : ℚ) (b : Buffers)
    (e5 e6 : Particle) (h5 : ev[5]? = some e5) (h6 : ev[6]? = some e6) :
    ∃ c, convertToPseudoJet lib ev max_rap b = .ok c ∧
      (c.ret = 0 ↔
        (|lib.eta (partonOf e5)| > max_rap ∨ |lib.eta (partonOf e6)| > max_rap)) ∧
      (c.ret = 1 ↔
        ¬ (|lib.eta (partonOf e5)| > max_rap ∨ |lib.eta (partonOf e6)| > max_rap)) ∧
      (msgParton5 ∈ c.cerr ↔ e5.status ≠ -23) ∧
      (msgParton6 ∈ c.cerr ↔ e6.status ≠ -23) := by
  have hne : msgParton5 ≠ msgParton6 := by decide
  unfold convertToPseudoJet vecAt
  simp only [h5, h6]
  by_cases hacc : |lib.eta (partonOf e5)| > max_rap ∨ |lib.eta (partonOf e6)| > max_rap
  · have hacc' := hacc
    unfold partonOf at hacc'
    rw [if_pos hacc']
    refine ⟨_, rfl, ?_, ?_, ?_, ?_⟩
    · simp [hacc]
    · simp [hacc]
    · by_cases hs5 : e5.status = -23 <;> by_cases hs6 : e6.status = -23 <;>
        simp [hs5, hs6, hne]
    · by_cases hs5 : e5.status = -23 <;> by_cases hs6 : e6.status = -23 <;>
        simp [hs5, hs6, hne.symm]
  · have hacc' := hacc
    unfold partonOf at hacc'
    rw [if_neg hacc']
    refine ⟨_, rfl, ?_, ?_, ?_, ?_⟩
    · simp [hacc]
    · simp [hacc]
    · by_cases hs5 : e5.status = -23 <;> by_cases hs6 : e6.status = -23 <;>
        simp [hs5, hs6, hne]
    · by_cases hs5 : e5.status = -23 <;> by_cases hs6 : e6.status = -23 <;>
        simp [hs5, hs6, hne.symm]

/-- The amended C9 at `oddStatusEvent`, whose record 5 has the status code 21. -/
theorem convert_return_value_witness :
    (oddStatusEvent[5]? = some (demoInner 21 250 1 (1/2)) ∧
      oddStatusEvent[6]? = some (demoInner (-23) (-250) (-2) (-1/4))) ∧
    ∃ c, convertToPseudoJet demoLib oddStatusEvent max_track_rap noBuffers = .ok c ∧
      (c.ret = 0 ↔
        (|demoLib.eta (partonOf (demoInner 21 250 1 (1/2)))| > max_track_rap ∨
          |demoLib.eta (partonOf (demoInner (-23) (-250) (-2) (-1/4)))| > max_track_rap)) ∧
      (c.ret = 1 ↔
        ¬ (|demoLib.eta (partonOf (demoInner 21 250 1 (1/2)))| > max_track_rap ∨
          |demoLib.eta (partonOf (demoInner (-23) (-250) (-2) (-1/4)))| > max_track_rap)) ∧
      (msgParton5 ∈ c.cerr ↔ (demoInner 21 250 1 (1/2)).status ≠ -23) ∧
      (msgParton6 ∈ c.cerr ↔ (demoInner (-23) (-250) (-2) (-1/4)).status ≠ -23) :=
  ⟨⟨rfl, rfl⟩,
    convert_return_value demoLib oddStatusEvent max_track_rap noBuffers _ _ rfl rfl⟩

/-! ### The output file (C5, C6, C7) -/

theorem exit_of_code {r : Result} {c : Int} (h : r.code = some c) : r = .exit c r.trace := by
  cases r <;> simp [Result.code] at h
  subst h
  rfl

theorem writtenNames_append (xs ys : List Effect) :
    writtenNames (xs ++ ys) = writtenNames xs ++ writtenNames ys := by
  simp [writtenNames, List.filterMap_append]

theorem writtenNames_loop {loop : List Effect} (h : ∀ x ∈ loop, isLoopEffect x = true) :
    writtenNames loop = [] := by
  induction loop with
  | nil => rfl
  | cons x xs ih =>
    have hx := h x (List.mem_cons_self _ _)
    have hxs := ih fun y hy => h y (List.mem_cons_of_mem _ hy)
    cases x <;> first
      | (simp only [writtenNames, List.filterMap_cons] at hxs ⊢; exact hxs)
      | simp [isLoopEffect] at hx

theorem writtenNames_startup (first : GenOutcome) (m : Nat) :
    writtenNames (startup first m) = [] := by
  cases first <;> rfl

theorem writtenNames_finish (cfg : Config) (m n : Nat) :
    writtenNames (finish cfg m n) = writeOrder.map Hist.name := by
  rfl

theorem processed_mem_loop {loop : List Effect} (h : ∀ x ∈ loop, isLoopEffect x = true)
    (n : Nat) : Effect.cout (.processed n) ∉ loop := by
  intro hmem
  have := h _ hmem
  simp [isLoopEffect] at this

theorem processed_mem_startup (first : GenOutcome) (m n : Nat) :
    Effect.cout (.processed n) ∉ startup first m := by
  cases first <;> simp [startup, pythiaSetup]

/-- C5: when the pipeline runs to its end, the trace is the start-up, the event
loop and the final part; the exponent `e` taken from the command line has
`10 ^ e` below `2 ^ 32`; the only report of processed events in the trace
gives `10 ^ e`, which is `maxEvent`; and `pythia.next()` has succeeded exactly
`10 ^ e` times inside the loop.  Without arguments the exponent is 1 and the
report gives 10. -/
theorem processed_events_eq_maxEvent (w : World) (fuel : Nat) (argv : List String)
    (tr : List Effect) (hrun : main w fuel argv = .exit 0 tr) :
    ∃ cfg loop, parseArgs w.atoi argv = .ok cfg ∧ 10 ^ cfg.exponent < 2 ^ 32 ∧
      maxEventOf cfg.exponent = .ok (10 ^ cfg.exponent) ∧
      tr = startup (w.next 0) (10 ^ cfg.exponent) ++ loop ++
        finish cfg (10 ^ cfg.exponent) (10 ^ cfg.exponent) ∧
      (∀ x ∈ loop, isLoopEffect x = true) ∧
      (∀ n, Effect.cout (.processed n) ∈ tr ↔ n = 10 ^ cfg.exponent) ∧
      loop.count (.next true) = 10 ^ cfg.exponent ∧
      (argv.length = 1 → cfg.exponent = 1 ∧ Effect.cout (.processed 10) ∈ tr) := by
  obtain ⟨cfg, loop, hcfg, hrep, htr, hloop, hcount⟩ := main_exit_zero hrun
  have hproc : ∀ n, Effect.cout (.processed n) ∈ tr ↔ n = 10 ^ cfg.exponent := by
    intro n
    rw [htr]
    simp only [List.mem_append]
    constructor
    · rintro ((h | h) | h)
      · exact absurd h (processed_mem_startup _ _ _)
      · exact absurd h (processed_mem_loop hloop _)
      · simpa [finish] using h
    · rintro rfl
      right
      simp [finish]
  refine ⟨cfg, loop, hcfg, hrep, (maxEventOf_eq_ok _ _).mpr ⟨hrep, rfl⟩, htr, hloop, hproc,
    hcount, ?_⟩
  intro hlen
  have hexp : cfg.exponent = 1 := by
    unfold parseArgs at hcfg
    rw [hlen] at hcfg
    injection hcfg with hcfg
    rw [← hcfg]
  refine ⟨hexp, ?_⟩
  rw [hproc, hexp]
  rfl

set_option maxRecDepth 100000 in
/-- C5 on a run of the pipeline without arguments in `demoWorld`: ten events are
processed. -/
theorem processed_events_eq_maxEvent_witness :
    main demoWorld 10 ["jetFindAnalysis"] =
        .exit 0 (main demoWorld 10 ["jetFindAnalysis"]).trace ∧
    ∃ cfg loop, parseArgs demoWorld.atoi ["jetFindAnalysis"] = .ok cfg ∧
      10 ^ cfg.exponent < 2 ^ 32 ∧
      maxEventOf cfg.exponent = .ok (10 ^ cfg.exponent) ∧
      (main demoWorld 10 ["jetFindAnalysis"]).trace =
        startup (demoWorld.next 0) (10 ^ cfg.exponent) ++ loop ++
          finish cfg (10 ^ cfg.exponent) (10 ^ cfg.exponent) ∧
      (∀ x ∈ loop, isLoopEffect x = true) ∧
      (∀ n, Effect.cout (.processed n) ∈ (main demoWorld 10 ["jetFindAnalysis"]).trace ↔
        n = 10 ^ cfg.exponent) ∧
      loop.count (.next true) = 10 ^ cfg.exponent ∧
      ((["jetFindAnalysis"] : List String).length = 1 → cfg.exponent = 1 ∧
        Effect.cout (.processed 10) ∈ (main demoWorld 10 ["jetFindAnalysis"]).trace) :=
  have h : main demoWorld 10 ["jetFindAnalysis"] =
      .exit 0 (main demoWorld 10 ["jetFindAnalysis"]).trace := exit_of_code (by decide!)
  ⟨h, processed_events_eq_maxEvent demoWorld 10 ["jetFindAnalysis"] _ h⟩

/-- C6: on a run that ends with exit code 0 the names written to the output
file are, in order, the names of the histograms of lines 637-720; they are
pairwise distinct; there are 67 of them; and they are, up to order, the names
of the 4 x 14 sweep histograms together with the eleven names `mult`,
`chargemult`, `partonetaphi`, `partonpt`, `parton_e`, `finalstatept`,
`finalstateE`, `finaletaphi`, `chargedfstatept`, `chargedfstateE`,
`chargedetaphi`.  Nothing else is written: the six histograms of lines 273-278
are constructed and left out. -/
theorem written_histograms (w : World) (fuel : Nat) (argv : List String) (tr : List Effect)
    (hrun : main w fuel argv = .exit 0 tr) :
    writtenNames tr = writeOrder.map Hist.name ∧
    (writtenNames tr).Nodup ∧
    (writtenNames tr).length = 67 ∧
    (writtenNames tr).Perm
      ((Algo.all.flatMap fun a => Obs.all.map fun o => (sweepHist a o).name) ++
        ["mult", "chargemult", "partonetaphi", "partonpt", "parton_e", "finalstatept",
         "finalstateE", "finaletaphi", "chargedfstatept", "chargedfstateE",
         "chargedetaphi"]) ∧
    (Algo.all.flatMap fun a => Obs.all.map fun o => (sweepHist a o).name).length = 56 ∧
    (booked.filter fun h => h.name ∉ writtenNames tr) =
      [.nJetsAntiKtBaseAll, .nJetsKtBaseAll, .nJetsCaBaseAll, .nJetsAntiKtBaseCharged,
       .nJetsKtBaseCharged, .nJetsCaBaseCharged] := by
  obtain ⟨cfg, loop, -, -, htr, hloop, -⟩ := main_exit_zero hrun
  have hw : writtenNames tr = writeOrder.map Hist.name := by
    rw [htr, writtenNames_append, writtenNames_append, writtenNames_startup,
      writtenNames_loop hloop, writtenNames_finish]
    rfl
  rw [hw]
  refine ⟨rfl, ?_, ?_, ?_, ?_, ?_⟩
  · decide!
  · decide!
  · decide!
  · decide!
  · decide!

set_option maxRecDepth 100000 in
/-- C6 on a run of the pipeline on one event in `demoWorld`. -/
theorem written_histograms_witness :
    main demoWorld 1 demoArgv = .exit 0 (main demoWorld 1 demoArgv).trace ∧
    (writtenNames (main demoWorld 1 demoArgv).trace = writeOrder.map Hist.name ∧
    (writtenNames (main demoWorld 1 demoArgv).trace).Nodup ∧
    (writtenNames (main demoWorld 1 demoArgv).trace).length = 67 ∧
    (writtenNames (main demoWorld 1 demoArgv).trace).Perm
      ((Algo.all.flatMap fun a => Obs.all.map fun o => (sweepHist a o).name) ++
        ["mult", "chargemult", "partonetaphi", "partonpt", "parton_e", "finalstatept",
         "finalstateE", "finaletaphi", "chargedfstatept", "chargedfstateE",
         "chargedetaphi"]) ∧
    (Algo.all.flatMap fun a => Obs.all.map fun o => (sweepHist a o).name).length = 56 ∧
    (booked.filter fun h => h.name ∉ writtenNames (main demoWorld 1 demoArgv).trace) =
      [.nJetsAntiKtBaseAll, .nJetsKtBaseAll, .nJetsCaBaseAll, .nJetsAntiKtBaseCharged,
       .nJetsKtBaseCharged, .nJetsCaBaseCharged]) :=
  have h : main demoWorld 1 demoArgv = .exit 0 (main demoWorld 1 demoArgv).trace :=
    exit_of_code (by decide!)
  ⟨h, written_histograms demoWorld 1 demoArgv _ h⟩

/-- C7: the name under which the renderer looks up a histogram is the
concatenation of an entry of `jfNames` and an entry of `histNames`; this map is
injective on the 4 x 14 table; the sweep histogram of every algorithm and
observable carries exactly that concatenation as its name; and the 56 names
the renderer asks for are, up to order, the names of the 56 sweep histograms
that the pipeline writes, so each side contains the other. -/
theorem renderer_names_match_pipeline :
    (∀ j ∈ List.range Renderer.nJetFinders, ∀ i ∈ List.range Renderer.nHistograms,
      ∀ j' ∈ List.range Renderer.nJetFinders, ∀ i' ∈ List.range Renderer.nHistograms,
        Renderer.histName j i = Renderer.histName j' i' → j = j' ∧ i = i') ∧
    (∀ a ∈ Algo.all, ∀ o ∈ Obs.all,
      (sweepHist a o).name = Renderer.histName (Renderer.jfIndex a) (Renderer.histIndex o) ∧
      Renderer.histName (Renderer.jfIndex a) (Renderer.histIndex o) =
        Renderer.jfNames.getD (Renderer.jfIndex a) "" ++
          Renderer.histNames.getD (Renderer.histIndex o) "") ∧
    Renderer.requested.length = 56 ∧
    Renderer.requested.Nodup ∧
    Renderer.requested.Perm ((writeOrder.filter fun h => h ∈ labelled).map Hist.name) ∧
    (writeOrder.filter fun h => h ∈ labelled).Perm labelled ∧
    (∀ n, n ∈ Renderer.requested ↔ n ∈ (writeOrder.filter fun h => h ∈ labelled).map Hist.name) := by
  have hperm : Renderer.requested.Perm
      ((writeOrder.filter fun h => h ∈ labelled).map Hist.name) := by decide!
  refine ⟨by decide!, by decide!, by decide!, by decide!, hperm, by decide!, ?_⟩
  intro n
  exact hperm.mem_iff

/-! ### One pass of the radius sweep -/

theorem partonIdx_eq_ok {lib : FastJet} {partons : List PseudoJet} {lead : Jet} {k : Nat}
    {p0 p1 : PseudoJet} (h0 : partons[0]? = some p0) (h1 : partons[1]? = some p1) :
    partonIdx lib partons lead = .ok k ↔
      k = if lib.delta_R p1 lead.mom < lib.delta_R p0 lead.mom then 1 else 0 := by
  unfold partonIdx
  simp only [bind_eq_ok, vecAt_eq_ok, h0, h1, Option.some.injEq, pure, Except.pure,
    exists_eq_left', Except.ok.injEq]
  exact eq_comm

theorem partonIdx_partons {lib : FastJet} {partons : List PseudoJet} {lead : Jet} {k : Nat}
    (h : partonIdx lib partons lead = .ok k) :
    ∃ p0 p1, partons[0]? = some p0 ∧ partons[1]? = some p1 := by
  unfold partonIdx at h
  simp only [bind_eq_ok, vecAt_eq_ok] at h
  obtain ⟨p0, h0, p1, h1, -⟩ := h
  exact ⟨p0, p1, h0, h1⟩

theorem vecAt_partonIdx {lib : FastJet} {partons : List PseudoJet} {lead : Jet} {k : Nat}
    {p0 p1 p : PseudoJet} (h0 : partons[0]? = some p0) (h1 : partons[1]? = some p1)
    (hk : partonIdx lib partons lead = .ok k) :
    vecAt partons k = .ok p ↔ p = nearest lib p0 p1 lead := by
  rw [partonIdx_eq_ok h0 h1] at hk
  rw [vecAt_eq_ok, hk]
  unfold nearest
  split
  · rw [h1]
    simp [eq_comm]
  · rw [h0]
    simp [eq_comm]

theorem sweepBody_eq_ok {lib : FastJet} {adef : AreaDefinition} {time : Algo → ℚ}
    {allFinal partons : List PseudoJet} {i : Nat} {tr : List FillCall} :
    sweepBody lib adef time allFinal partons i = .ok tr ↔
    ∃ aj kj cj sj p0 p1,
      (selectedJets lib adef allFinal (antiKtDefs i))[0]? = some aj ∧
      (selectedJets lib adef allFinal (KtDefs i))[0]? = some kj ∧
      (selectedJets lib adef allFinal (CaDefs i))[0]? = some cj ∧
      (selectedJets lib adef allFinal (SISDefs i))[0]? = some sj ∧
      partons[0]? = some p0 ∧ partons[1]? = some p1 ∧
      tr =
        headFills (radBin i) (time .antikt) (time .kt) (time .ca) (time .sis)
          (selectedJets lib adef allFinal (antiKtDefs i))
          (selectedJets lib adef allFinal (KtDefs i))
          (selectedJets lib adef allFinal (CaDefs i))
          (selectedJets lib adef allFinal (SISDefs i)) ++
        leadingFills lib (radBin i) aj kj cj sj ++
        perJetFills lib (radBin i)
          (selectedJets lib adef allFinal (antiKtDefs i))
          (selectedJets lib adef allFinal (KtDefs i))
          (selectedJets lib adef allFinal (CaDefs i))
          (selectedJets lib adef allFinal (SISDefs i)) ++
        matchedFills lib (radBin i) (nearest lib p0 p1 aj) (nearest lib p0 p1 kj)
          (nearest lib p0 p1 cj) (nearest lib p0 p1 sj) aj kj cj sj := by
  unfold sweepBody
  simp only [bind_eq_ok, vecAt_eq_ok, pure, Except.pure, Except.ok.injEq]
  constructor
  · rintro ⟨aj, haj, kj, hkj, cj, hcj, sj, hsj, iA, hiA, pA, hpA, iK, hiK, pK, hpK,
      iC, hiC, pC, hpC, iS, hiS, pS, hpS, rfl⟩
    obtain ⟨p0, p1, h0, h1⟩ := partonIdx_partons hiA
    rw [← vecAt_eq_ok, vecAt_partonIdx h0 h1 hiA] at hpA
    rw [← vecAt_eq_ok, vecAt_partonIdx h0 h1 hiK] at hpK
    rw [← vecAt_eq_ok, vecAt_partonIdx h0 h1 hiC] at hpC
    rw [← vecAt_eq_ok, vecAt_partonIdx h0 h1 hiS] at hpS
    subst hpA hpK hpC hpS
    exact ⟨aj, kj, cj, sj, p0, p1, haj, hkj, hcj, hsj, h0, h1, rfl⟩
  · rintro ⟨aj, kj, cj, sj, p0, p1, haj, hkj, hcj, hsj, h0, h1, rfl⟩
    refine ⟨aj, haj, kj, hkj, cj, hcj, sj, hsj,
      _, (partonIdx_eq_ok h0 h1).mpr rfl, nearest lib p0 p1 aj, ?_,
      _, (partonIdx_eq_ok h0 h1).mpr rfl, nearest lib p0 p1 kj, ?_,
      _, (partonIdx_eq_ok h0 h1).mpr rfl, nearest lib p0 p1 cj, ?_,
      _, (partonIdx_eq_ok h0 h1).mpr rfl, nearest lib p0 p1 sj, ?_, rfl⟩
    · rw [← vecAt_eq_ok, vecAt_partonIdx h0 h1 ((partonIdx_eq_ok h0 h1).mpr rfl)]
    · rw [← vecAt_eq_ok, vecAt_partonIdx h0 h1 ((partonIdx_eq_ok h0 h1).mpr rfl)]
    · rw [← vecAt_eq_ok, vecAt_partonIdx h0 h1 ((partonIdx_eq_ok h0 h1).mpr rfl)]
    · rw [← vecAt_eq_ok, vecAt_partonIdx h0 h1 ((partonIdx_eq_ok h0 h1).mpr rfl)]

theorem eq_ok_of_toOption {ε α : Type} {x : Except ε α} {a : α} (h : x.toOption = some a) :
    x = .ok a := by
  cases x <;> simp [Except.toOption] at h
  rw [h]

theorem fillsTo_append (h : Hist) (xs ys : List FillCall) :
    fillsTo h (xs ++ ys) = fillsTo h xs ++ fillsTo h ys := by
  simp [fillsTo]

theorem fillsTo_flatMap_nil {α : Type} (h : Hist) (l : List α) (f : α → List FillCall)
    (hf : ∀ x, fillsTo h (f x) = []) : fillsTo h (l.flatMap f) = [] := by
  induction l with
  | nil => rfl
  | cons x xs ih => rw [List.flatMap_cons, fillsTo_append, hf, ih]; rfl

theorem nearest_delta_R (lib : FastJet) (p0 p1 : PseudoJet) (lead : Jet) :
    lib.delta_R (nearest lib p0 p1 lead) lead.mom =
      min (lib.delta_R p0 lead.mom) (lib.delta_R p1 lead.mom) := by
  unfold nearest
  split
  · rename_i h
    rw [min_eq_right (le_of_lt h)]
  · rename_i h
    rw [min_eq_left (not_lt.mp h)]

theorem fillsTo_matched (lib : FastJet) (rb : String) (pA pK pC pS : PseudoJet)
    (aj kj cj sj : Jet) (a : Algo) :
    fillsTo (sweepHist a .deltaR) (matchedFills lib rb pA pK pC pS aj kj cj sj) =
      [.fillLabel (sweepHist a .deltaR) rb
        (lib.delta_R (match a with | .antikt => pA | .kt => pK | .ca => pC | .sis => pS)
          (match a with | .antikt => aj | .kt => kj | .ca => cj | .sis => sj).mom) 1] ∧
    fillsTo (sweepHist a .deltaE) (matchedFills lib rb pA pK pC pS aj kj cj sj) =
      [.fillLabel (sweepHist a .deltaE) rb
        ((match a with | .antikt => pA | .kt => pK | .ca => pC | .sis => pS).E -
          (match a with | .antikt => aj | .kt => kj | .ca => cj | .sis => sj).mom.E) 1] := by
  cases a <;> simp [fillsTo, matchedFills, sweepHist, FillCall.hist]

theorem fillsTo_unmatched (lib : FastJet) (rb : String) (t1 t2 t3 t4 : ℚ)
    (aj kj cj sj : Jet) (as ks cs ss : List Jet) (a : Algo) (o : Obs)
    (ho : o = .deltaR ∨ o = .deltaE) :
    fillsTo (sweepHist a o) (headFills rb t1 t2 t3 t4 as ks cs ss) = [] ∧
    fillsTo (sweepHist a o) (leadingFills lib rb aj kj cj sj) = [] ∧
    fillsTo (sweepHist a o) (perJetFills lib rb as ks cs ss) = [] := by
  refine ⟨?_, ?_, ?_⟩
  · rcases ho with rfl | rfl <;> cases a <;>
      simp [fillsTo, headFills, sweepHist, FillCall.hist]
  · rcases ho with rfl | rfl <;> cases a <;>
      simp [fillsTo, leadingFills, sweepHist, FillCall.hist]
  · unfold perJetFills
    simp only [fillsTo_append]
    rw [fillsTo_flatMap_nil, fillsTo_flatMap_nil, fillsTo_flatMap_nil, fillsTo_flatMap_nil]
    · rfl
    all_goals
      intro j
      rcases ho with rfl | rfl <;> cases a <;> simp [fillsTo, sweepHist, FillCall.hist]

theorem selected_of_algo {lib : FastJet} {adef : AreaDefinition} {allFinal : List PseudoJet}
    {i : Nat} {aj kj cj sj : Jet}
    (haj : (selectedJets lib adef allFinal (antiKtDefs i))[0]? = some aj)
    (hkj : (selectedJets lib adef allFinal (KtDefs i))[0]? = some kj)
    (hcj : (selectedJets lib adef allFinal (CaDefs i))[0]? = some cj)
    (hsj : (selectedJets lib adef allFinal (SISDefs i))[0]? = some sj) (a : Algo) :
    (selectedJets lib adef allFinal (jetDefOf a i))[0]? =
      some (match a with | .antikt => aj | .kt => kj | .ca => cj | .sis => sj) := by
  cases a <;> simp only [jetDefOf] <;> assumption

/-! ### The nearest parton (C1, C2) -/

/-- C1: in every pass of the radius sweep that executes, for every algorithm,
the partons `partons[0]`, `partons[1]` and the leading jet of the algorithm
exist, the selected parton index is 1 exactly when the distance of the second
parton to the leading jet is strictly below that of the first, and 0
otherwise (so on a tie), and the deltaR histogram of the algorithm receives
exactly one fill, at the label of the radius, with the minimum of the two
distances. -/
theorem deltaR_fill_is_minimum (lib : FastJet) (adef : AreaDefinition) (time : Algo → ℚ)
    (allFinal partons : List PseudoJet) (i : Nat) (tr : List FillCall) (a : Algo)
    (hrun : sweepBody lib adef time allFinal partons i = .ok tr) :
    ∃ p0 p1 lead k,
      partons[0]? = some p0 ∧ partons[1]? = some p1 ∧
      (selectedJets lib adef allFinal (jetDefOf a i))[0]? = some lead ∧
      partonIdx lib partons lead = .ok k ∧
      (k = 1 ↔ lib.delta_R p1 lead.mom < lib.delta_R p0 lead.mom) ∧
      (k = 0 ↔ ¬ lib.delta_R p1 lead.mom < lib.delta_R p0 lead.mom) ∧
      fillsTo (sweepHist a .deltaR) tr =
        [.fillLabel (sweepHist a .deltaR) (radBin i)
          (min (lib.delta_R p0 lead.mom) (lib.delta_R p1 lead.mom)) 1] := by
  obtain ⟨aj, kj, cj, sj, p0, p1, haj, hkj, hcj, hsj, h0, h1, rfl⟩ := sweepBody_eq_ok.mp hrun
  refine ⟨p0, p1, _, _, h0, h1, selected_of_algo haj hkj hcj hsj a,
    (partonIdx_eq_ok h0 h1).mpr rfl, ?_, ?_, ?_⟩
  · split <;> simp [*]
  · split <;> simp [*]
  · obtain ⟨e1, e2, e3⟩ := fillsTo_unmatched lib (radBin i) (time .antikt) (time .kt)
      (time .ca) (time .sis) aj kj cj sj
      (selectedJets lib adef allFinal (antiKtDefs i)) (selectedJets lib adef allFinal (KtDefs i))
      (selectedJets lib adef allFinal (CaDefs i)) (selectedJets lib adef allFinal (SISDefs i))
      a .deltaR (Or.inl rfl)
    rw [fillsTo_append, fillsTo_append, fillsTo_append, e1, e2, e3,
      (fillsTo_matched lib (radBin i) _ _ _ _ aj kj cj sj a).1]
    cases a <;> simp only [List.nil_append, nearest_delta_R]

/-- C1 on the pass for the radius index 0 on `demoEvent`, for SISCone. -/
theorem deltaR_fill_is_minimum_witness :
    sweepBody demoLib (area_def 0) (demoWorld.elapsed 1 0) demoBuffers.all demoBuffers.part 0 =
      .ok demoFills ∧
    ∃ p0 p1 lead k,
      demoBuffers.part[0]? = some p0 ∧ demoBuffers.part[1]? = some p1 ∧
      (selectedJets demoLib (area_def 0) demoBuffers.all (jetDefOf .sis 0))[0]? = some lead ∧
      partonIdx demoLib demoBuffers.part lead = .ok k ∧
      (k = 1 ↔ demoLib.delta_R p1 lead.mom < demoLib.delta_R p0 lead.mom) ∧
      (k = 0 ↔ ¬ demoLib.delta_R p1 lead.mom < demoLib.delta_R p0 lead.mom) ∧
      fillsTo (sweepHist .sis .deltaR) demoFills =
        [.fillLabel (sweepHist .sis .deltaR) (radBin 0)
          (min (demoLib.delta_R p0 lead.mom) (demoLib.delta_R p1 lead.mom)) 1] :=
  have h : sweepBody demoLib (area_def 0) (demoWorld.elapsed 1 0) demoBuffers.all
      demoBuffers.part 0 = .ok demoFills := eq_ok_of_toOption (by decide!)
  ⟨h, deltaR_fill_is_minimum demoLib (area_def 0) (demoWorld.elapsed 1 0) demoBuffers.all
    demoBuffers.part 0 demoFills .sis h⟩

/-- C2: in every pass of the radius sweep that executes, for every algorithm,
the deltaE histogram of the algorithm receives exactly one fill, at the label
of the radius, with the energy of the parton `partons[k]` minus the energy of
the leading jet of that algorithm, where `k` is the parton index selected for
that algorithm; the deltaR histogram of the algorithm is filled with the
distance of the same parton to the same jet. -/
theorem deltaE_fill_uses_nearest (lib : FastJet) (adef : AreaDefinition) (time : Algo → ℚ)
    (allFinal partons : List PseudoJet) (i : Nat) (tr : List FillCall) (a : Algo)
    (hrun : sweepBody lib adef time allFinal partons i = .ok tr) :
    ∃ lead k pk,
      (selectedJets lib adef allFinal (jetDefOf a i))[0]? = some lead ∧
      partonIdx lib partons lead = .ok k ∧
      partons[k]? = some pk ∧
      fillsTo (sweepHist a .deltaE) tr =
        [.fillLabel (sweepHist a .deltaE) (radBin i) (pk.E - lead.mom.E) 1] ∧
      fillsTo (sweepHist a .deltaR) tr =
        [.fillLabel (sweepHist a .deltaR) (radBin i) (lib.delta_R pk lead.mom) 1] := by
  obtain ⟨aj, kj, cj, sj, p0, p1, haj, hkj, hcj, hsj, h0, h1, rfl⟩ := sweepBody_eq_ok.mp hrun
  have hk : ∀ lead : Jet, partonIdx lib partons lead =
      .ok (if lib.delta_R p1 lead.mom < lib.delta_R p0 lead.mom then 1 else 0) :=
    fun lead => (partonIdx_eq_ok h0 h1).mpr rfl
  have hp : ∀ lead : Jet,
      partons[if lib.delta_R p1 lead.mom < lib.delta_R p0 lead.mom then 1 else 0]? =
        some (nearest lib p0 p1 lead) := fun lead =>
    (vecAt_eq_ok _ _ _).mp ((vecAt_partonIdx h0 h1 (hk lead)).mpr rfl)
  obtain ⟨e1, e2, e3⟩ := fillsTo_unmatched lib (radBin i) (time .antikt) (time .kt)
    (time .ca) (time .sis) aj kj cj sj
    (selectedJets lib adef allFinal (antiKtDefs i)) (selectedJets lib adef allFinal (KtDefs i))
    (selectedJets lib adef allFinal (CaDefs i)) (selectedJets lib adef allFinal (SISDefs i))
    a .deltaE (Or.inr rfl)
  obtain ⟨r1, r2, r3⟩ := fillsTo_unmatched lib (radBin i) (time .antikt) (time .kt)
    (time .ca) (time .sis) aj kj cj sj
    (selectedJets lib adef allFinal (antiKtDefs i)) (selectedJets lib adef allFinal (KtDefs i))
    (selectedJets lib adef allFinal (CaDefs i)) (selectedJets lib adef allFinal (SISDefs i))
    a .deltaR (Or.inl rfl)
  refine ⟨_, _, _, selected_of_algo haj hkj hcj hsj a, hk _, hp _, ?_, ?_⟩
  · rw [fillsTo_append, fillsTo_append, fillsTo_append, e1, e2, e3,
      (fillsTo_matched lib (radBin i) _ _ _ _ aj kj cj sj a).2]
    cases a <;> rfl
  · rw [fillsTo_append, fillsTo_append, fillsTo_append, r1, r2, r3,
      (fillsTo_matched lib (radBin i) _ _ _ _ aj kj cj sj a).1]
    cases a <;> rfl

/-- C2 on the pass for the radius index 0 on `demoEvent`, for kt. -/
theorem deltaE_fill_uses_nearest_witness :
    sweepBody demoLib (area_def 0) (demoWorld.elapsed 1 0) demoBuffers.all demoBuffers.part 0 =
      .ok demoFills ∧
    ∃ lead k pk,
      (selectedJets demoLib (area_def 0) demoBuffers.all (jetDefOf .kt 0))[0]? = some lead ∧
      partonIdx demoLib demoBuffers.part lead = .ok k ∧
      demoBuffers.part[k]? = some pk ∧
      fillsTo (sweepHist .kt .deltaE) demoFills =
        [.fillLabel (sweepHist .kt .deltaE) (radBin 0) (pk.E - lead.mom.E) 1] ∧
      fillsTo (sweepHist .kt .deltaR) demoFills =
        [.fillLabel (sweepHist .kt .deltaR) (radBin 0) (demoLib.delta_R pk lead.mom) 1] :=
  have h : sweepBody demoLib (area_def 0) (demoWorld.elapsed 1 0) demoBuffers.all
      demoBuffers.part 0 = .ok demoFills := eq_ok_of_toOption (by decide!)
  ⟨h, deltaE_fill_uses_nearest demoLib (area_def 0) (demoWorld.elapsed 1 0) demoBuffers.all
    demoBuffers.part 0 demoFills .kt h⟩

/-! ### Empty jet lists (C4) -/

theorem bind_eq_error {ε α β : Type} (x : Except ε α) (g : α → Except ε β) (e : ε) :
    (x >>= g) = .error e ↔ x = .error e ∨ ∃ a, x = .ok a ∧ g a = .error e := by
  cases x <;> simp [bind, Except.bind]

theorem vecAt_fault {α : Type} {v : List α} {i : Nat} {f : Fault}
    (h : vecAt v i = .error f) : f = .outOfRange := by
  unfold vecAt at h
  split at h
  · cases h
  · injection h with h
    exact h.symm

theorem partonIdx_fault {lib : FastJet} {partons : List PseudoJet} {lead : Jet} {f : Fault}
    (h : partonIdx lib partons lead = .error f) : f = .outOfRange := by
  unfold partonIdx at h
  simp only [bind_eq_error] at h
  rcases h with h | ⟨_, -, h | ⟨_, -, h⟩⟩
  · exact vecAt_fault h
  · exact vecAt_fault h
  · cases h

theorem sweepBody_fault {lib : FastJet} {adef : AreaDefinition} {time : Algo → ℚ}
    {allFinal partons : List PseudoJet} {i : Nat} {f : Fault}
    (h : sweepBody lib adef time allFinal partons i = .error f) : f = .outOfRange := by
  unfold sweepBody at h
  simp only [bind_eq_error] at h
  rcases h with h | ⟨_, -, h | ⟨_, -, h | ⟨_, -, h | ⟨_, -, h | ⟨_, -, h | ⟨_, -, h |
    ⟨_, -, h | ⟨_, -, h | ⟨_, -, h | ⟨_, -, h | ⟨_, -, h | ⟨_, -, h⟩⟩⟩⟩⟩⟩⟩⟩⟩⟩⟩⟩
  all_goals first
    | exact vecAt_fault h
    | exact partonIdx_fault h
    | cases h

/-- C4, what the code does: whenever the selected jet list of some algorithm is
empty in a pass of the radius sweep, the pass reads element 0 of an empty
list, which is undefined behaviour; the pass has no guard and no counter of
skipped events. -/
theorem leading_jet_unguarded (lib : FastJet) (adef : AreaDefinition) (time : Algo → ℚ)
    (allFinal partons : List PseudoJet) (i : Nat) (a : Algo)
    (hempty : selectedJets lib adef allFinal (jetDefOf a i) = []) :
    sweepBody lib adef time allFinal partons i = .error .outOfRange := by
  cases h : sweepBody lib adef time allFinal partons i with
  | error f => rw [sweepBody_fault h]
  | ok tr =>
    obtain ⟨aj, kj, cj, sj, p0, p1, haj, hkj, hcj, hsj, -, -, -⟩ := sweepBody_eq_ok.mp h
    have := selected_of_algo haj hkj hcj hsj a
    rw [hempty] at this
    simp at this

/-- C4 at the failing input: `emptyEvent` has its partons inside the acceptance
and no visible particle in the final state; the clustering gives no jet, the
pass for the radius index 0 reads `antiKtJets[0]`, and the pipeline run on
such events ends in undefined behaviour after the first successful call of
`pythia.next()` of the event loop. -/
theorem leading_jet_unguarded_witness :
    selectedJets demoLib (area_def 0) emptyBuffers.all (jetDefOf .antikt 0) = [] ∧
    sweepBody demoLib (area_def 0) (demoWorld.elapsed 1 0) emptyBuffers.all emptyBuffers.part 0 =
      .error .outOfRange ∧
    emptyBuffers.part.length = 2 ∧
    main emptyWorld 1 demoArgv =
      .undefined .outOfRange (startup (emptyWorld.next 0) 1 ++ [.next true]) :=
  ⟨by decide!,
    leading_jet_unguarded demoLib (area_def 0) (demoWorld.elapsed 1 0) emptyBuffers.all
      emptyBuffers.part 0 .antikt (by decide!),
    by decide!, by decide!⟩

/-! ### The radius axis (C3) -/

theorem all_flatMap {α β : Type} (l : List α) (f : α → List β) (p : β → Bool) :
    (l.flatMap f).all p = l.all fun x => (f x).all p := by
  induction l with
  | nil => rfl
  | cons x xs ih => simp [List.flatMap_cons, List.all_append, ih]

theorem sweepBody_fills {lib : FastJet} {adef : AreaDefinition} {time : Algo → ℚ}
    {allFinal partons : List PseudoJet} {i : Nat} {tr : List FillCall}
    (h : sweepBody lib adef time allFinal partons i = .ok tr) :
    tr.all (isSweepFill (radBin i)) = true := by
  obtain ⟨aj, kj, cj, sj, p0, p1, -, -, -, -, -, -, rfl⟩ := sweepBody_eq_ok.mp h
  simp only [List.all_append, Bool.and_eq_true]
  refine ⟨⟨⟨?_, ?_⟩, ?_⟩, ?_⟩
  · simp [headFills, isSweepFill, labelled]
  · simp [leadingFills, isSweepFill, labelled]
  · simp [perJetFills, all_flatMap, isSweepFill, labelled]
  · simp [matchedFills, isSweepFill, labelled]

set_option maxRecDepth 100000 in
/-- C3: the x axis of every histogram of the radius sweep (the histogram of
every algorithm and observable is one) has `nRadii` = 10 bins and 10 labels;
bin `i` of `1..10` carries the label `patch::to_string( radii[i-1] )`; the ten
labels are pairwise distinct; the label `radBin` used in the pass for the
radius index `i` is the label of bin `i+1` and is found in bin `i+1`; and
every fill of a pass that executes is a fill by that label into a histogram
of the sweep, so it lands in bin `i+1`. -/
theorem radius_axis_labels :
    nRadii = 10 ∧
    (∀ a ∈ Algo.all, ∀ o ∈ Obs.all, sweepHist a o ∈ labelled) ∧
    (∀ h ∈ labelled,
      (labelledAxes h).nbins = nRadii ∧
      (labelledAxes h).labels.length = nRadii ∧
      (∀ i ∈ List.range' 1 nRadii,
        (labelledAxes h).GetBinLabel i = some (patch.to_string (radiiAt (i - 1)))) ∧
      ((labelledAxes h).labels.map Prod.snd).Nodup ∧
      (∀ i ∈ List.range nRadii,
        (labelledAxes h).GetBinLabel (i + 1) = some (radBin i) ∧
        (labelledAxes h).FindBin (radBin i) = some (i + 1))) ∧
    (∀ (lib : FastJet) (adef : AreaDefinition) (time : Algo → ℚ)
        (allFinal partons : List PseudoJet) (i : Nat) (tr : List FillCall),
      i < nRadii → sweepBody lib adef time allFinal partons i = .ok tr →
      ∀ c ∈ tr, ∃ h y, c = .fillLabel h (radBin i) y 1 ∧ h ∈ labelled ∧
        (labelledAxes h).FindBin (radBin i) = some (i + 1)) := by
  have hax : ∀ h ∈ labelled,
      (labelledAxes h).nbins = nRadii ∧
      (labelledAxes h).labels.length = nRadii ∧
      (∀ i ∈ List.range' 1 nRadii,
        (labelledAxes h).GetBinLabel i = some (patch.to_string (radiiAt (i - 1)))) ∧
      ((labelledAxes h).labels.map Prod.snd).Nodup ∧
      (∀ i ∈ List.range nRadii,
        (labelledAxes h).GetBinLabel (i + 1) = some (radBin i) ∧
        (labelledAxes h).FindBin (radBin i) = some (i + 1)) := by decide!
  refine ⟨rfl, by decide!, hax, ?_⟩
  intro lib adef time allFinal partons i tr hi hrun c hc
  have hall := List.all_eq_true.mp (sweepBody_fills hrun) c hc
  cases c with
  | fill1 h x => simp [isSweepFill] at hall
  | fill2 h x y => simp [isSweepFill] at hall
  | fillLabel h namex y w =>
    simp only [isSweepFill, Bool.and_eq_true, decide_eq_true_eq, beq_iff_eq] at hall
    obtain ⟨⟨hl, hn⟩, hw⟩ := hall
    subst hn hw
    exact ⟨h, y, rfl, hl, ((hax h hl).2.2.2.2 i (List.mem_range.mpr hi)).2⟩

/-! ### The containers filled by `convertToPseudoJet` (C11, C12, C13) -/

theorem convertStep_accepted {lib : FastJet} {m : ℚ} {p : Particle}
    (st : List PseudoJet × List PseudoJet) (h : accepted lib m p = true) :
    convertStep lib m st p =
      (st.1 ++ [particleOf p], if p.charge ≠ 0 then st.2 ++ [particleOf p] else st.2) := by
  unfold accepted at h
  simp only [Bool.and_eq_true, decide_eq_true_eq] at h
  have hfv : (p.isFinal && p.isVisible) = true := by simp [h.1.1, h.1.2]
  have hr : ¬ (|lib.rap ⟨p.px, p.py, p.pz, p.e, toInt p.charge⟩| > m) := not_lt.mpr h.2
  unfold convertStep
  rw [if_pos hfv]
  simp only [if_neg hr]
  split <;> rfl

theorem convertStep_rejected {lib : FastJet} {m : ℚ} {p : Particle}
    (st : List PseudoJet × List PseudoJet) (h : ¬ accepted lib m p = true) :
    convertStep lib m st p = st := by
  unfold convertStep
  by_cases hfv : (p.isFinal && p.isVisible) = true
  · rw [if_pos hfv]
    have hr : |lib.rap ⟨p.px, p.py, p.pz, p.e, toInt p.charge⟩| > m := by
      by_contra hn
      apply h
      unfold accepted
      simp only [Bool.and_eq_true, decide_eq_true_eq]
      simp only [Bool.and_eq_true] at hfv
      exact ⟨hfv, not_lt.mp hn⟩
    simp only [if_pos hr]
  · rw [if_neg hfv]

theorem foldl_convertStep (lib : FastJet) (m : ℚ) (ev : List Particle) :
    ∀ st : List PseudoJet × List PseudoJet,
      ev.foldl (convertStep lib m) st =
        (st.1 ++ (ev.filter (accepted lib m)).map particleOf,
         st.2 ++ ((ev.filter (accepted lib m)).filter fun p =>
            decide (p.charge ≠ 0)).map particleOf) := by
  induction ev with
  | nil => intro st; simp
  | cons p ps ih =>
    intro st
    rw [List.foldl_cons, ih]
    by_cases hacc : accepted lib m p = true
    · rw [convertStep_accepted st hacc, List.filter_cons_of_pos hacc]
      by_cases hc : p.charge = 0
      · rw [List.filter_cons_of_neg (by simp [hc]), if_neg (by simp [hc])]
        simp
      · rw [List.filter_cons_of_pos (by simp [hc]), if_pos hc]
        simp
    · rw [convertStep_rejected st hacc, List.filter_cons_of_neg hacc]

theorem convert_ok_one {lib : FastJet} {ev : List Particle} {m : ℚ} {b : Buffers}
    {c : Converted} (h : convertToPseudoJet lib ev m b = .ok c) (hret : c.ret = 1) :
    ∃ e5 e6, ev[5]? = some e5 ∧ ev[6]? = some e6 ∧
      ¬ (|lib.eta (partonOf e5)| > m ∨ |lib.eta (partonOf e6)| > m) ∧
      c.bufs.all = (ev.filter (accepted lib m)).map particleOf ∧
      c.bufs.charged =
        ((ev.filter (accepted lib m)).filter fun p => decide (p.charge ≠ 0)).map particleOf ∧
      c.bufs.part = [partonOf e5, partonOf e6] := by
  unfold convertToPseudoJet vecAt at h
  cases h5 : ev[5]? <;> cases h6 : ev[6]? <;> simp only [h5, h6] at h <;>
    first | cases h | skip
  rename_i e5 e6
  refine ⟨e5, e6, rfl, rfl, ?_⟩
  split at h
  · injection h with h
    subst h
    simp at hret
  · rename_i hacc
    injection h with h
    subst h
    refine ⟨hacc, ?_, ?_, ?_⟩
    · simp [foldl_convertStep]
    · simp [foldl_convertStep]
    · simp [partonOf]

/-- C11: on every event on which `convertToPseudoJet` returns 1, `all` holds, in
record order, the particles built from exactly the records that are final,
visible and inside `|rapidity| <= max_rap`, and `charged` holds those of them
whose record has a non-zero charge; so `charged` is a sub-list of `all`, it is
not longer than `all`, and no record with zero charge contributes to it. -/
theorem all_and_charged (lib : FastJet) (ev : List Particle) (max_rap : ℚ) (b : Buffers)
    (c : Converted) (hrun : convertToPseudoJet lib ev max_rap b = .ok c) (hret : c.ret = 1) :
    c.bufs.all = (ev.filter (accepted lib max_rap)).map particleOf ∧
    c.bufs.charged =
      ((ev.filter (accepted lib max_rap)).filter fun p =>
        decide (p.charge ≠ 0)).map particleOf ∧
    (∀ p ∈ (ev.filter (accepted lib max_rap)).filter fun p => decide (p.charge ≠ 0),
      p ∈ ev ∧ p.isFinal = true ∧ p.isVisible = true ∧
      |lib.rap (particleOf p)| ≤ max_rap ∧ p.charge ≠ 0) ∧
    (∀ p ∈ ev, p.isFinal = true → p.isVisible = true → |lib.rap (particleOf p)| ≤ max_rap →
      particleOf p ∈ c.bufs.all ∧ (p.charge ≠ 0 → particleOf p ∈ c.bufs.charged)) ∧
    c.bufs.charged.Sublist c.bufs.all ∧
    c.bufs.charged.length ≤ c.bufs.all.length := by
  obtain ⟨e5, e6, -, -, -, hall, hch, -⟩ := convert_ok_one hrun hret
  have hsub : c.bufs.charged.Sublist c.bufs.all := by
    rw [hall, hch]
    exact (List.filter_sublist _).map _
  refine ⟨hall, hch, ?_, ?_, hsub, hsub.length_le⟩
  · intro p hp
    simp only [List.mem_filter, accepted, Bool.and_eq_true, decide_eq_true_eq] at hp
    exact ⟨hp.1.1, hp.1.2.1.1, hp.1.2.1.2, hp.1.2.2, hp.2⟩
  · intro p hp hf hv hr
    have hacc : p ∈ ev.filter (accepted lib max_rap) := by
      simp [List.mem_filter, accepted, hp, hf, hv, hr]
    refine ⟨?_, ?_⟩
    · rw [hall]
      exact List.mem_map_of_mem _ hacc
    · intro hc
      rw [hch]
      exact List.mem_map_of_mem _ (List.mem_filter.mpr ⟨hacc, by simp [hc]⟩)

/-- C11 on `demoEvent`: two of its three final particles are inside the
acceptance, one of them is charged. -/
theorem all_and_charged_witness :
    (convertToPseudoJet demoLib demoEvent max_track_rap noBuffers = .ok demoConverted ∧
      demoConverted.ret = 1) ∧
    (demoConverted.bufs.all = (demoEvent.filter (accepted demoLib max_track_rap)).map particleOf ∧
    demoConverted.bufs.charged =
      ((demoEvent.filter (accepted demoLib max_track_rap)).filter fun p =>
        decide (p.charge ≠ 0)).map particleOf ∧
    (∀ p ∈ (demoEvent.filter (accepted demoLib max_track_rap)).filter fun p =>
        decide (p.charge ≠ 0),
      p ∈ demoEvent ∧ p.isFinal = true ∧ p.isVisible = true ∧
      |demoLib.rap (particleOf p)| ≤ max_track_rap ∧ p.charge ≠ 0) ∧
    (∀ p ∈ demoEvent, p.isFinal = true → p.isVisible = true →
      |demoLib.rap (particleOf p)| ≤ max_track_rap →
      particleOf p ∈ demoConverted.bufs.all ∧
        (p.charge ≠ 0 → particleOf p ∈ demoConverted.bufs.charged)) ∧
    demoConverted.bufs.charged.Sublist demoConverted.bufs.all ∧
    demoConverted.bufs.charged.length ≤ demoConverted.bufs.all.length) :=
  have h : convertToPseudoJet demoLib demoEvent max_track_rap noBuffers = .ok demoConverted :=
    eq_ok_of_toOption (by decide!)
  have hret : demoConverted.ret = 1 := by decide!
  ⟨⟨h, hret⟩, all_and_charged demoLib demoEvent max_track_rap noBuffers demoConverted h hret⟩

/-- C13: the result of `convertToPseudoJet` (the returned value, the three
containers and the diagnostics) is the same whatever the containers held
before the call, and when it returns 0 all three containers are empty. -/
theorem convert_ignores_old_buffers (lib : FastJet) (ev : List Particle) (max_rap : ℚ)
    (b b' : Buffers) :
    convertToPseudoJet lib ev max_rap b = convertToPseudoJet lib ev max_rap b' ∧
    ∀ c, convertToPseudoJet lib ev max_rap b = .ok c → c.ret = 0 →
      c.bufs.all = [] ∧ c.bufs.charged = [] ∧ c.bufs.part = [] := by
  refine ⟨rfl, ?_⟩
  intro c hc hret
  unfold convertToPseudoJet vecAt at hc
  cases h5 : ev[5]? <;> cases h6 : ev[6]? <;> simp only [h5, h6] at hc <;>
    first | cases hc | skip
  split at hc
  · injection hc with hc
    subst hc
    exact ⟨rfl, rfl, rfl⟩
  · injection hc with hc
    subst hc
    simp at hret

theorem noFile_of_loop {x : Effect} (h : isLoopEffect x = true) : isFileEffect x = false := by
  cases x <;> first | rfl | simp [isLoopEffect] at h

theorem noFile_startup (first : GenOutcome) (m : Nat) :
    ∀ x ∈ startup first m, isFileEffect x = false := by
  have h : (startup first m).all (fun x => !isFileEffect x) = true := by
    cases first <;> rfl
  intro x hx
  have := List.all_eq_true.mp h x hx
  simpa using this

theorem main_exit_fail {w : World} {fuel : Nat} {argv : List String} {tr : List Effect}
    (h : main w fuel argv = .exit (-1) tr) :
    (tr = [.cerr msgInputs] ∧ argv.length ≠ 1 ∧ argv.length ≠ 4) ∨
    ∃ cfg loop what s, parseArgs w.atoi argv = .ok cfg ∧
      eventLoop w (10 ^ cfg.exponent) fuel (loopEntry (startup (w.next 0) (10 ^ cfg.exponent))) =
        .caught what s ∧
      tr = startup (w.next 0) (10 ^ cfg.exponent) ++ loop ++ [.cerr ("Caught " ++ what)] ∧
      (∀ x ∈ loop, isLoopEffect x = true) := by
  unfold main at h
  split at h
  · rename_i code hcode
    injection h with h1 h2
    left
    exact ⟨h2.symm, ((parseArgs_error _ _ _).mp hcode).2⟩
  · rename_i cfg hcfg
    right
    split at h
    · cases h
    · rename_i maxEvent hmax
      obtain ⟨hrep, rfl⟩ := (maxEventOf_eq_ok _ _).mp hmax
      split at h
      · cases h
      · obtain ⟨effs, h1, h2, -⟩ :=
          eventLoop_spec w (10 ^ cfg.exponent) hrep fuel
            ⟨1, 0, ⟨[], [], []⟩, startup (w.next 0) (10 ^ cfg.exponent)⟩ (Nat.zero_le _)
        split at h
        · cases h
        · cases h
        · rename_i what s hs
          injection h with _ htr
          rw [hs] at h1
          simp only [LoopExit.state] at h1
          exact ⟨cfg, effs, what, s, hcfg, hs, by rw [← htr, h1], h2⟩
        · injection h with hc
          omega

theorem file_effects_only_on_success (w : World) (fuel : Nat) (argv : List String) :
    ∀ x ∈ (main w fuel argv).trace, isFileEffect x = true → (main w fuel argv).code = some 0 := by
  intro x hx hfile
  generalize hr : main w fuel argv = r at hx ⊢
  unfold main at hr
  split at hr
  · subst hr
    simp only [Result.trace, List.mem_singleton] at hx
    subst hx
    simp [isFileEffect] at hfile
  · rename_i cfg hcfg
    split at hr
    · subst hr
      simp [Result.trace] at hx
    · rename_i maxEvent hmax
      obtain ⟨hrep, rfl⟩ := (maxEventOf_eq_ok _ _).mp hmax
      split at hr
      · subst hr
        exfalso
        have h : (Effect.cout (.setFor (10 ^ cfg.exponent)) :: pythiaSetup).all
            (fun x => !isFileEffect x) = true := rfl
        have := List.all_eq_true.mp h x hx
        simp [hfile] at this
      · obtain ⟨effs, h1, h2, -⟩ :=
          eventLoop_spec w (10 ^ cfg.exponent) hrep fuel
            ⟨1, 0, ⟨[], [], []⟩, startup (w.next 0) (10 ^ cfg.exponent)⟩ (Nat.zero_le _)
        have hno : ∀ y ∈ startup (w.next 0) (10 ^ cfg.exponent) ++ effs,
            isFileEffect y = false := by
          intro y hy
          rcases List.mem_append.mp hy with hy | hy
          · exact noFile_startup _ _ y hy
          · exact noFile_of_loop (h2 y hy)
        split at hr <;> rename_i s hs <;> rw [hs] at h1 <;>
          simp only [LoopExit.state] at h1 <;> subst hr
        · exfalso
          simp only [Result.trace, h1] at hx
          have := hno x hx
          simp [hfile] at this
        · exfalso
          simp only [Result.trace, h1] at hx
          have := hno x hx
          simp [hfile] at this
        · exfalso
          simp only [Result.trace, h1] at hx
          rcases List.mem_append.mp hx with hx | hx
          · have := hno x hx
            simp [hfile] at this
          · simp only [List.mem_singleton] at hx
            subst hx
            simp [isFileEffect] at hfile
        · rfl

/-- C15: when the pipeline returns -1, the trace holds no effect on the output
file (it is not opened, nothing is written, it is not closed); the trace is
either the error message for the argument count alone, or the start-up, what
the event loop did until an exception reached the `catch`, and the message of
the `catch`.  On any run, an effect on the output file occurs only when
`main` returns 0, which it does only after the event loop has ended with its
condition false. -/
theorem no_output_on_failure (w : World) (fuel : Nat) (argv : List String) (tr : List Effect)
    (hrun : main w fuel argv = .exit (-1) tr) :
    (∀ x ∈ tr, isFileEffect x = false) ∧
    (∀ f, Effect.fileRecreate f ∉ tr) ∧
    (∀ n, Effect.write n ∉ tr) ∧
    writtenNames tr = [] ∧
    ((tr = [.cerr msgInputs] ∧ argv.length ≠ 1 ∧ argv.length ≠ 4) ∨
      ∃ cfg loop what s, parseArgs w.atoi argv = .ok cfg ∧
        eventLoop w (10 ^ cfg.exponent) fuel
            (loopEntry (startup (w.next 0) (10 ^ cfg.exponent))) = .caught what s ∧
        tr = startup (w.next 0) (10 ^ cfg.exponent) ++ loop ++ [.cerr ("Caught " ++ what)] ∧
        (∀ x ∈ loop, isLoopEffect x = true)) ∧
    (∀ (fuel' : Nat) (argv' : List String), ∀ x ∈ (main w fuel' argv').trace,
      isFileEffect x = true → (main w fuel' argv').code = some 0) := by
  have hno : ∀ x ∈ tr, isFileEffect x = false := by
    intro x hx
    by_contra hf
    have hf' : isFileEffect x = true := by simpa using hf
    have := file_effects_only_on_success w fuel argv x (by rw [hrun]; exact hx) hf'
    rw [hrun] at this
    simp [Result.code] at this
  refine ⟨hno, ?_, ?_, ?_, main_exit_fail hrun, file_effects_only_on_success w⟩
  · intro f hf
    have := hno _ hf
    simp [isFileEffect] at this
  · intro n hn
    have := hno _ hn
    simp [isFileEffect] at this
  · unfold writtenNames
    rw [List.filterMap_eq_nil_iff]
    intro x hx
    have := hno x hx
    cases x <;> first | rfl | simp [isFileEffect] at this

set_option maxRecDepth 100000 in
/-- C15 on a run in `throwWorld`: the first event is processed, the next call of
`pythia.next()` raises an exception, `main` returns -1. -/
theorem no_output_on_failure_witness :
    main throwWorld 5 ["jetFindAnalysis"] =
        .exit (-1) (main throwWorld 5 ["jetFindAnalysis"]).trace ∧
    ((∀ x ∈ (main throwWorld 5 ["jetFindAnalysis"]).trace, isFileEffect x = false) ∧
    (∀ f, Effect.fileRecreate f ∉ (main throwWorld 5 ["jetFindAnalysis"]).trace) ∧
    (∀ n, Effect.write n ∉ (main throwWorld 5 ["jetFindAnalysis"]).trace) ∧
    writtenNames (main throwWorld 5 ["jetFindAnalysis"]).trace = [] ∧
    (((main throwWorld 5 ["jetFindAnalysis"]).trace = [.cerr msgInputs] ∧
        (["jetFindAnalysis"] : List String).length ≠ 1 ∧
        (["jetFindAnalysis"] : List String).length ≠ 4) ∨
      ∃ cfg loop what s, parseArgs throwWorld.atoi ["jetFindAnalysis"] = .ok cfg ∧
        eventLoop throwWorld (10 ^ cfg.exponent) 5
            (loopEntry (startup (throwWorld.next 0) (10 ^ cfg.exponent))) = .caught what s ∧
        (main throwWorld 5 ["jetFindAnalysis"]).trace =
          startup (throwWorld.next 0) (10 ^ cfg.exponent) ++ loop ++
            [.cerr ("Caught " ++ what)] ∧
        (∀ x ∈ loop, isLoopEffect x = true)) ∧
    (∀ (fuel' : Nat) (argv' : List String), ∀ x ∈ (main throwWorld fuel' argv').trace,
      isFileEffect x = true → (main throwWorld fuel' argv').code = some 0)) :=
  have h : main throwWorld 5 ["jetFindAnalysis"] =
      .exit (-1) (main throwWorld 5 ["jetFindAnalysis"]).trace := exit_of_code (by decide!)
  ⟨h, no_output_on_failure throwWorld 5 ["jetFindAnalysis"] _ h⟩

theorem eventLoop_failed {w : World} {m : Nat} (fuel : Nat) {s : LoopState}
    (hlt : s.currentEvent < m) (hfail : w.next s.calls = .failed) :
    eventLoop w m (fuel + 1) s =
      eventLoop w m fuel { s with calls := s.calls + 1, trace := s.trace ++ [.next false] } := by
  rw [eventLoop, if_pos hlt]
  simp only [hfail]

theorem eventLoop_failed_many {w : World} {m : Nat} (fuel : Nat) :
    ∀ (k : Nat) (s : LoopState), s.currentEvent < m →
      (∀ j < k, w.next (s.calls + j) = .failed) →
      eventLoop w m (fuel + k) s =
        eventLoop w m fuel
          { s with calls := s.calls + k, trace := s.trace ++ List.replicate k (.next false) } := by
  intro k
  induction k with
  | zero =>
    intro s _ _
    simp
  | succ k ih =>
    intro s hlt hfail
    have h0 : w.next s.calls = .failed := by simpa using hfail 0 (Nat.succ_pos k)
    rw [← Nat.add_assoc, eventLoop_failed (fuel + k) hlt h0,
      ih { s with calls := s.calls + 1, trace := s.trace ++ [.next false] } hlt
        (fun j hj => by
          have := hfail (j + 1) (Nat.succ_lt_succ hj)
          simpa [Nat.add_assoc, Nat.add_comm 1 j] using this)]
    congr 1
    simp [Nat.add_assoc, Nat.add_comm 1 k, List.replicate_succ]

/-- C16: a pass of the event loop in which `pythia.next()` fails changes nothing
but the number of calls made: the counter `currentEvent` and the three
containers stay as they are and the only effect is the failed call itself (no
diagnostic of the conversion, no fill), and the loop goes on from there.  This
repeats for any number `k` of consecutive failures: after them the loop is in
the same state but for the `k` calls, and a loop that is given `k` passes and
meets `k` failures is still running, with the same counter value. -/
theorem failed_next_retries (w : World) (m fuel : Nat) (s : LoopState)
    (hlt : s.currentEvent < m) (hfail : w.next s.calls = .failed) :
    eventLoop w m (fuel + 1) s =
      eventLoop w m fuel
        { calls := s.calls + 1, currentEvent := s.currentEvent, bufs := s.bufs,
          trace := s.trace ++ [.next false] } ∧
    (∀ k, (∀ j < k, w.next (s.calls + j) = .failed) →
      eventLoop w m (fuel + k) s =
        eventLoop w m fuel
          { calls := s.calls + k, currentEvent := s.currentEvent, bufs := s.bufs,
            trace := s.trace ++ List.replicate k (.next false) }) ∧
    (∀ k, (∀ j < k, w.next (s.calls + j) = .failed) →
      eventLoop w m k s =
        .running
          { calls := s.calls + k, currentEvent := s.currentEvent, bufs := s.bufs,
            trace := s.trace ++ List.replicate k (.next false) }) := by
  refine ⟨eventLoop_failed fuel hlt hfail, fun k hk => eventLoop_failed_many fuel k s hlt hk, ?_⟩
  intro k hk
  have := eventLoop_failed_many (w := w) (m := m) 0 k s hlt hk
  rw [Nat.zero_add] at this
  rw [this, eventLoop, if_pos hlt]

/-- C16 in `failWorld`, at the entry of the event loop for ten events. -/
theorem failed_next_retries_witness :
    ((loopEntry []).currentEvent < 10 ∧ failWorld.next (loopEntry []).calls = .failed) ∧
    (eventLoop failWorld 10 (3 + 1) (loopEntry []) =
      eventLoop failWorld 10 3
        { calls := (loopEntry []).calls + 1, currentEvent := (loopEntry []).currentEvent,
          bufs := (loopEntry []).bufs, trace := (loopEntry []).trace ++ [.next false] } ∧
    (∀ k, (∀ j < k, failWorld.next ((loopEntry []).calls + j) = .failed) →
      eventLoop failWorld 10 (3 + k) (loopEntry []) =
        eventLoop failWorld 10 3
          { calls := (loopEntry []).calls + k, currentEvent := (loopEntry []).currentEvent,
            bufs := (loopEntry []).bufs,
            trace := (loopEntry []).trace ++ List.replicate k (.next false) }) ∧
    (∀ k, (∀ j < k, failWorld.next ((loopEntry []).calls + j) = .failed) →
      eventLoop failWorld 10 k (loopEntry []) =
        .running
          { calls := (loopEntry []).calls + k, currentEvent := (loopEntry []).currentEvent,
            bufs := (loopEntry []).bufs,
            trace := (loopEntry []).trace ++ List.replicate k (.next false) })) :=
  ⟨⟨by decide, rfl⟩, failed_next_retries failWorld 10 3 (loopEntry []) (by decide) rfl⟩

/-! ### The fills of one pass, histogram by histogram (C14, C19, C20) -/

theorem fillsTo_flatMap {α : Type} (h : Hist) (l : List α) (f : α → List FillCall) :
    fillsTo h (l.flatMap f) = l.flatMap fun x => fillsTo h (f x) := by
  unfold fillsTo
  rw [List.filter_flatMap]

theorem flatMap_nil_fun {α β : Type} (l : List α) : (l.flatMap fun _ => ([] : List β)) = [] := by
  induction l with
  | nil => rfl
  | cons x xs ih => simp [List.flatMap_cons, ih]

theorem flatMap_singleton_fun {α β : Type} (l : List α) (g : α → β) :
    (l.flatMap fun x => [g x]) = l.map g :=
  (List.map_eq_flatMap g l).symm

theorem fillsTo_head (rb : String) (t : Algo → ℚ) (js : Algo → List Jet) (a : Algo) (o : Obs) :
    fillsTo (sweepHist a o)
        (headFills rb (t .antikt) (t .kt) (t .ca) (t .sis)
          (js .antikt) (js .kt) (js .ca) (js .sis)) =
      match o with
      | .clustertime => [.fillLabel (sweepHist a .clustertime) rb (t a) 1]
      | .njets => [.fillLabel (sweepHist a .njets) rb (js a).length 1]
      | _ => [] := by
  cases a <;> cases o <;> simp [fillsTo, headFills, sweepHist, FillCall.hist]

theorem fillsTo_leading (lib : FastJet) (rb : String) (l : Algo → Jet) (a : Algo) (o : Obs) :
    fillsTo (sweepHist a o) (leadingFills lib rb (l .antikt) (l .kt) (l .ca) (l .sis)) =
      match o with
      | .npartlead => [.fillLabel (sweepHist a .npartlead) rb (l a).constituents.length 1]
      | .arealead => [.fillLabel (sweepHist a .arealead) rb (l a).area 1]
      | .ptlead => [.fillLabel (sweepHist a .ptlead) rb (lib.pt (l a).mom) 1]
      | .elead => [.fillLabel (sweepHist a .elead) rb (l a).mom.E 1]
      | .etalead => [.fillLabel (sweepHist a .etalead) rb (lib.eta (l a).mom) 1]
      | .philead => [.fillLabel (sweepHist a .philead) rb (lib.phi_std (l a).mom) 1]
      | _ => [] := by
  cases a <;> cases o <;> simp [fillsTo, leadingFills, sweepHist, FillCall.hist]

theorem fillsTo_perJet (lib : FastJet) (rb : String) (js : Algo → List Jet) (a : Algo)
    (o : Obs) :
    fillsTo (sweepHist a o) (perJetFills lib rb (js .antikt) (js .kt) (js .ca) (js .sis)) =
      match o with
      | .npart => (js a).map fun j =>
          .fillLabel (sweepHist a .npart) rb j.constituents.length 1
      | .area => (js a).map fun j => .fillLabel (sweepHist a .area) rb j.area 1
      | .eta => (js a).map fun j => .fillLabel (sweepHist a .eta) rb (lib.eta j.mom) 1
      | .phi => (js a).map fun j => .fillLabel (sweepHist a .phi) rb (lib.phi_std j.mom) 1
      | _ => [] := by
  unfold perJetFills
  simp only [fillsTo_append, fillsTo_flatMap]
  cases a <;> cases o <;>
    simp [fillsTo, sweepHist, FillCall.hist, flatMap_nil_fun, flatMap_singleton_fun]

theorem fillsTo_matchedFills (lib : FastJet) (rb : String) (p : Algo → PseudoJet)
    (l : Algo → Jet) (a : Algo) (o : Obs) :
    fillsTo (sweepHist a o)
        (matchedFills lib rb (p .antikt) (p .kt) (p .ca) (p .sis)
          (l .antikt) (l .kt) (l .ca) (l .sis)) =
      match o with
      | .deltaR => [.fillLabel (sweepHist a .deltaR) rb (lib.delta_R (p a) (l a).mom) 1]
      | .deltaE => [.fillLabel (sweepHist a .deltaE) rb ((p a).E - (l a).mom.E) 1]
      | _ => [] := by
  cases a <;> cases o <;> simp [fillsTo, matchedFills, sweepHist, FillCall.hist]

theorem fillsTo_pass (lib : FastJet) (rb : String) (t : Algo → ℚ) (js : Algo → List Jet)
    (l : Algo → Jet) (p : Algo → PseudoJet) (a : Algo) (o : Obs) :
    fillsTo (sweepHist a o)
        (headFills rb (t .antikt) (t .kt) (t .ca) (t .sis)
            (js .antikt) (js .kt) (js .ca) (js .sis) ++
          leadingFills lib rb (l .antikt) (l .kt) (l .ca) (l .sis) ++
          perJetFills lib rb (js .antikt) (js .kt) (js .ca) (js .sis) ++
          matchedFills lib rb (p .antikt) (p .kt) (p .ca) (p .sis)
            (l .antikt) (l .kt) (l .ca) (l .sis)) =
      ownFills lib rb (t a) (js a) (l a) (p a) a o := by
  rw [fillsTo_append, fillsTo_append, fillsTo_append, fillsTo_head, fillsTo_leading,
    fillsTo_perJet, fillsTo_matchedFills]
  cases o <;> simp [ownFills]

theorem fillsTo_sweepBody {lib : FastJet} {adef : AreaDefinition} {time : Algo → ℚ}
    {allFinal partons : List PseudoJet} {i : Nat} {tr : List FillCall}
    (h : sweepBody lib adef time allFinal partons i = .ok tr) :
    ∃ p0 p1, partons[0]? = some p0 ∧ partons[1]? = some p1 ∧
      ∀ a, ∃ lead, (selectedJets lib adef allFinal (jetDefOf a i))[0]? = some lead ∧
        ∀ o, fillsTo (sweepHist a o) tr =
          ownFills lib (radBin i) (time a) (selectedJets lib adef allFinal (jetDefOf a i))
            lead (nearest lib p0 p1 lead) a o := by
  obtain ⟨aj, kj, cj, sj, p0, p1, haj, hkj, hcj, hsj, h0, h1, rfl⟩ := sweepBody_eq_ok.mp h
  refine ⟨p0, p1, h0, h1, fun a => ?_⟩
  refine ⟨match a with | .antikt => aj | .kt => kj | .ca => cj | .sis => sj,
    selected_of_algo haj hkj hcj hsj a, fun o => ?_⟩
  exact fillsTo_pass lib (radBin i) time
    (fun a => selectedJets lib adef allFinal (jetDefOf a i))
    (fun a => match a with | .antikt => aj | .kt => kj | .ca => cj | .sis => sj)
    (fun a => nearest lib p0 p1 (match a with | .antikt => aj | .kt => kj | .ca => cj | .sis => sj))
    a o

/-! ### Entries per radius bin over a run (C19) -/

theorem findBin_radBin :
    ∀ h ∈ labelled, ∀ j ∈ List.range nRadii,
      (labelledAxes h).FindBin (radBin j) = some (j + 1) := by
  decide!

theorem sweepHist_mem_labelled (a : Algo) (o : Obs) : sweepHist a o ∈ labelled := by
  cases a <;> cases o <;> decide

theorem landsIn_fill_hist {h : Hist} {bin : Nat} {c : FillCall}
    (hc : landsIn h bin (.fill c) = true) : c.hist = h := by
  cases c with
  | fill1 h' x => simp [landsIn] at hc
  | fill2 h' x y => simp [landsIn] at hc
  | fillLabel h' namex y w =>
    simp only [landsIn, Bool.and_eq_true, decide_eq_true_eq] at hc
    exact hc.1

theorem countP_landsIn_fillsTo (h : Hist) (bin : Nat) (fs : List FillCall) :
    fs.countP (fun c => landsIn h bin (.fill c)) =
      (fillsTo h fs).countP (fun c => landsIn h bin (.fill c)) := by
  unfold fillsTo
  rw [List.countP_filter]
  apply List.countP_congr
  intro c _
  constructor
  · intro hc
    simp only [Bool.and_eq_true, decide_eq_true_eq]
    exact ⟨hc, landsIn_fill_hist hc⟩
  · intro hc
    simp only [Bool.and_eq_true] at hc
    exact hc.1

theorem ownFills_perEvent (lib : FastJet) (rb : String) (t : ℚ) (jets : List Jet) (lead : Jet)
    (p : PseudoJet) (a : Algo) (o : Obs) (ho : o ∈ Obs.perEvent) :
    ownFills lib rb t jets lead p a o =
      [.fillLabel (sweepHist a o) rb (o.ofEvent lib t jets lead) 1] := by
  simp only [Obs.perEvent, List.mem_cons, List.mem_singleton, List.not_mem_nil, or_false] at ho
  rcases ho with rfl | rfl | rfl | rfl | rfl | rfl | rfl | rfl <;> rfl

theorem ownFills_perJet (lib : FastJet) (rb : String) (t : ℚ) (jets : List Jet) (lead : Jet)
    (p : PseudoJet) (a : Algo) (o : Obs) (ho : o ∈ Obs.perJet) :
    ownFills lib rb t jets lead p a o =
      jets.map fun j => .fillLabel (sweepHist a o) rb (o.ofJet lib j) 1 := by
  simp only [Obs.perJet, List.mem_cons, List.mem_singleton, List.not_mem_nil, or_false] at ho
  rcases ho with rfl | rfl | rfl | rfl <;> rfl

theorem entries_pass {lib : FastJet} {adef : AreaDefinition} {time : Algo → ℚ}
    {allFinal partons : List PseudoJet} {i j : Nat} {tr : List FillCall}
    (h : sweepBody lib adef time allFinal partons j = .ok tr) (hj : j < nRadii)
    (a : Algo) (o : Obs) (ho : o ∈ Obs.perEvent) :
    tr.countP (fun c => landsIn (sweepHist a o) (i + 1) (.fill c)) = if j = i then 1 else 0 := by
  obtain ⟨p0, p1, -, -, hfills⟩ := fillsTo_sweepBody h
  obtain ⟨lead, -, hfill⟩ := hfills a
  rw [countP_landsIn_fillsTo, hfill o, ownFills_perEvent _ _ _ _ _ _ _ _ ho,
    List.countP_singleton]
  simp only [landsIn, decide_True, Bool.true_and,
    findBin_radBin _ (sweepHist_mem_labelled a o) j (List.mem_range.mpr hj)]
  by_cases hji : j = i
  · simp [hji]
  · simp [hji]

theorem entries_sweepLoop {lib : FastJet} {adef : AreaDefinition} {time : Nat → Algo → ℚ}
    {allFinal partons : List PseudoJet} (i : Nat) (a : Algo) (o : Obs)
    (ho : o ∈ Obs.perEvent) :
    ∀ (is : List Nat) (tr : List FillCall), (∀ j ∈ is, j < nRadii) →
      sweepLoop lib adef time allFinal partons is = .ok tr →
      tr.countP (fun c => landsIn (sweepHist a o) (i + 1) (.fill c)) = is.count i := by
  intro is
  induction is with
  | nil =>
    intro tr _ h
    simp only [sweepLoop, pure, Except.pure, Except.ok.injEq] at h
    subst h
    rfl
  | cons j js ih =>
    intro tr hlt h
    simp only [sweepLoop, bind_eq_ok, pure, Except.pure, Except.ok.injEq] at h
    obtain ⟨fs, hfs, gs, hgs, rfl⟩ := h
    rw [List.countP_append, entries_pass hfs (hlt j (List.mem_cons_self _ _)) a o ho,
      ih gs (fun k hk => hlt k (List.mem_cons_of_mem _ hk)) hgs, List.count_cons]
    by_cases hji : j = i
    · simp [hji, Nat.add_comm]
    · simp [hji]

theorem entries_eventBody {lib : FastJet} {adef : AreaDefinition} {time : Nat → Algo → ℚ}
    {ev : List Particle} {b b' : Buffers} {n : Nat} {effs : List Effect}
    (h : eventBody lib adef time ev b n = .ok (b', effs)) (i : Nat) (hi : i < nRadii)
    (a : Algo) (o : Obs) (ho : o ∈ Obs.perEvent) :
    entriesIn (sweepHist a o) (i + 1) effs = 1 := by
  unfold eventBody at h
  simp only [bind_eq_ok] at h
  obtain ⟨conv, -, p0, -, p1, -, sw, hsw, h⟩ := h
  simp only [pure, Except.pure, Except.ok.injEq, Prod.mk.injEq] at h
  obtain ⟨-, rfl⟩ := h
  have hsweep := entries_sweepLoop i a o ho (List.range nRadii) sw
    (fun j hj => List.mem_range.mp hj) hsw
  have hcount : (List.range nRadii).count i = 1 :=
    List.count_eq_one_of_mem (List.nodup_range _) (List.mem_range.mpr hi)
  unfold entriesIn
  simp only [List.countP_append, List.map_append, List.countP_map]
  have hsw' : List.countP (landsIn (sweepHist a o) (i + 1) ∘ Effect.fill) sw = 1 := by
    rw [hcount] at hsweep
    exact hsweep
  rw [hsw']
  have h1 : List.countP (landsIn (sweepHist a o) (i + 1))
      (if n % 50 = 0 then [Effect.cout (Report.event n)] else []) = 0 := by
    split <;> rfl
  have h2 : List.countP (landsIn (sweepHist a o) (i + 1) ∘ Effect.cerr) conv.cerr = 0 := by
    rw [List.countP_eq_zero]
    intro x _
    simp [landsIn]
  have hflat : ∀ (l : List PseudoJet) (f : PseudoJet → List FillCall),
      (∀ p, ∀ c ∈ f p, landsIn (sweepHist a o) (i + 1) (.fill c) = false) →
      List.countP (landsIn (sweepHist a o) (i + 1) ∘ Effect.fill) (l.flatMap f) = 0 := by
    intro l f hf
    rw [List.countP_eq_zero]
    intro c hc
    obtain ⟨p, -, hcp⟩ := List.mem_flatMap.mp hc
    simp [hf p c hcp]
  rw [h1, h2, hflat, hflat]
  · simp [landsIn]
  · intro p c hc
    simp only [List.mem_cons, List.mem_singleton, List.not_mem_nil, or_false] at hc
    rcases hc with rfl | rfl | rfl <;> rfl
  · intro p c hc
    simp only [List.mem_cons, List.mem_singleton, List.not_mem_nil, or_false] at hc
    rcases hc with rfl | rfl | rfl <;> rfl

theorem eventLoop_countP (w : World) (m : Nat) (hm : m < 2 ^ 32) (P : Effect → Bool) (c : Nat)
    (hnext : ∀ b, P (.next b) = false)
    (hbody : ∀ n ev b k b' effs,
      eventBody w.lib (area_def w.pastEnd) (w.elapsed n) ev b k = .ok (b', effs) →
      effs.countP P = c) :
    ∀ (fuel : Nat) (s s' : LoopState), s.currentEvent ≤ m →
      eventLoop w m fuel s = .done s' →
      ∀ effs, s'.trace = s.trace ++ effs →
        effs.countP P = c * effs.count (.next true) := by
  intro fuel
  induction fuel with
  | zero =>
    intro s s' hs hdone effs h
    unfold eventLoop at hdone
    split at hdone
    · cases hdone
    · injection hdone with hdone
      subst hdone
      have : effs = [] := by simpa using h
      subst this
      simp
  | succ fuel ih =>
    intro s s' hs hdone effs h
    rw [eventLoop] at hdone
    split at hdone
    · rename_i hlt
      split at hdone
      · -- `pythia.next()` failed
        obtain ⟨effs', h1, -⟩ :=
          eventLoop_spec w m hm fuel
            { s with calls := s.calls + 1, trace := s.trace ++ [.next false] } hs
        rw [hdone] at h1
        simp only [LoopExit.state] at h1
        have heq : effs = .next false :: effs' := by
          rw [h1] at h
          simpa using h.symm
        subst heq
        have := ih { s with calls := s.calls + 1, trace := s.trace ++ [.next false] } s' hs
          hdone effs' h1
        rw [List.countP_cons, hnext, this]
        simp
      · cases hdone
      · -- an event
        have hlt' : (s.currentEvent + 1) % 2 ^ 32 = s.currentEvent + 1 :=
          Nat.mod_eq_of_lt (by omega)
        simp only [hlt'] at hdone
        split at hdone
        · cases hdone
        · rename_i bufs effects hb
          have hs' : s.currentEvent + 1 ≤ m := by omega
          obtain ⟨effs', h1, -⟩ :=
            eventLoop_spec w m hm fuel
              { calls := s.calls + 1, currentEvent := s.currentEvent + 1, bufs := bufs,
                trace := s.trace ++ .next true :: effects } hs'
          rw [hdone] at h1
          simp only [LoopExit.state] at h1
          have heq : effs = .next true :: (effects ++ effs') := by
            rw [h1] at h
            simpa using h.symm
          subst heq
          have := ih { calls := s.calls + 1, currentEvent := s.currentEvent + 1, bufs := bufs,
                       trace := s.trace ++ .next true :: effects } s' hs' hdone effs' h1
          rw [List.countP_cons, hnext, List.countP_append, this,
            hbody _ _ _ _ _ _ hb, List.count_cons_self, List.count_append,
            count_next_body (eventBody_effects hb)]
          simp [Nat.mul_add, Nat.add_comm]
    · injection hdone with hdone
      subst hdone
      have : effs = [] := by simpa using h
      subst this
      simp

theorem main_exit_zero_loop {w : World} {fuel : Nat} {argv : List String} {tr : List Effect}
    (h : main w fuel argv = .exit 0 tr) :
    ∃ cfg s loop, parseArgs w.atoi argv = .ok cfg ∧ 10 ^ cfg.exponent < 2 ^ 32 ∧
      eventLoop w (10 ^ cfg.exponent) fuel
        (loopEntry (startup (w.next 0) (10 ^ cfg.exponent))) = .done s ∧
      s.trace = startup (w.next 0) (10 ^ cfg.exponent) ++ loop ∧
      s.currentEvent = 10 ^ cfg.exponent ∧
      loop.count (.next true) = 10 ^ cfg.exponent ∧
      tr = startup (w.next 0) (10 ^ cfg.exponent) ++ loop ++
        finish cfg (10 ^ cfg.exponent) (10 ^ cfg.exponent) := by
  unfold main at h
  split at h
  · rename_i code hcode
    injection h with h1 h2
    have := (parseArgs_error _ _ _).mp hcode
    omega
  · rename_i cfg hcfg
    split at h
    · cases h
    · rename_i maxEvent hmax
      obtain ⟨hrep, rfl⟩ := (maxEventOf_eq_ok _ _).mp hmax
      split at h
      · cases h
      · obtain ⟨effs, h1, h2, h3, h4, h5⟩ :=
          eventLoop_spec w (10 ^ cfg.exponent) hrep fuel
            ⟨1, 0, ⟨[], [], []⟩, startup (w.next 0) (10 ^ cfg.exponent)⟩ (Nat.zero_le _)
        split at h
        · cases h
        · cases h
        · injection h with hc
          omega
        · rename_i s hs
          injection h with _ htr
          have hcur := h5 s hs
          rw [hs] at h1 h4
          simp only [LoopExit.state] at h1 h4
          refine ⟨cfg, s, effs, hcfg, hrep, hs, h1, hcur, by omega, ?_⟩
          rw [← htr, h1, hcur]

theorem entries_startup (h : Hist) (bin : Nat) (first : GenOutcome) (m : Nat) :
    entriesIn h bin (startup first m) = 0 := by
  cases first <;> rfl

theorem entries_finish (h : Hist) (bin : Nat) (cfg : Config) (m n : Nat) :
    entriesIn h bin (finish cfg m n) = 0 := by
  rfl

theorem entries_run {w : World} {fuel : Nat} {argv : List String} {tr : List Effect}
    (hrun : main w fuel argv = .exit 0 tr) :
    ∃ cfg, parseArgs w.atoi argv = .ok cfg ∧
      ∀ a, ∀ o ∈ Obs.perEvent, ∀ i, i < nRadii →
        entriesIn (sweepHist a o) (i + 1) tr = 10 ^ cfg.exponent := by
  obtain ⟨cfg, s, loop, hcfg, hrep, hdone, htrace, -, hcount, rfl⟩ := main_exit_zero_loop hrun
  refine ⟨cfg, hcfg, ?_⟩
  intro a o ho i hi
  have hloop := eventLoop_countP w (10 ^ cfg.exponent) hrep (landsIn (sweepHist a o) (i + 1)) 1
    (fun _ => rfl)
    (fun n ev b k b' effs hb => entries_eventBody hb i hi a o ho)
    fuel _ s (Nat.zero_le _) hdone loop htrace
  have e1 := entries_startup (sweepHist a o) (i + 1) (w.next 0) (10 ^ cfg.exponent)
  have e2 := entries_finish (sweepHist a o) (i + 1) cfg (10 ^ cfg.exponent) (10 ^ cfg.exponent)
  unfold entriesIn at e1 e2 ⊢
  rw [List.countP_append, List.countP_append, e1, e2, hloop, hcount]
  simp

/-- C19: in every pass of the radius sweep that executes, each of the eight
observables filled once per event (jet count, leading-jet constituent count,
area, pT, energy, eta and phi, clustering duration) of every algorithm
receives exactly one fill, with weight 1 and at the label of the radius, with
the value of that observable for the algorithm.  On a run that ends with exit
code 0, after the `10 ^ e` processed events each of these histograms holds
exactly `10 ^ e` entries in every radius bin `1 .. nRadii`. -/
theorem one_fill_per_event (w : World) (fuel : Nat) (argv : List String) (tr : List Effect)
    (hrun : main w fuel argv = .exit 0 tr) :
    (∃ cfg, parseArgs w.atoi argv = .ok cfg ∧
      (Effect.cout (.processed (10 ^ cfg.exponent))) ∈ tr ∧
      ∀ a, ∀ o ∈ Obs.perEvent, ∀ i, i < nRadii →
        entriesIn (sweepHist a o) (i + 1) tr = 10 ^ cfg.exponent) ∧
    (∀ (lib : FastJet) (adef : AreaDefinition) (time : Algo → ℚ)
        (allFinal partons : List PseudoJet) (i : Nat) (pass : List FillCall),
      sweepBody lib adef time allFinal partons i = .ok pass →
      ∀ a, ∃ lead, (selectedJets lib adef allFinal (jetDefOf a i))[0]? = some lead ∧
        ∀ o ∈ Obs.perEvent,
          fillsTo (sweepHist a o) pass =
            [.fillLabel (sweepHist a o) (radBin i)
              (o.ofEvent lib (time a) (selectedJets lib adef allFinal (jetDefOf a i)) lead) 1]) := by
  constructor
  · obtain ⟨cfg, hcfg, hent⟩ := entries_run hrun
    obtain ⟨cfg', loop, hcfg', -, htr, -⟩ := main_exit_zero hrun
    rw [hcfg] at hcfg'
    injection hcfg' with hcfg'
    subst hcfg'
    refine ⟨cfg, hcfg, ?_, hent⟩
    rw [htr]
    simp [finish]
  · intro lib adef time allFinal partons i pass hpass a
    obtain ⟨p0, p1, -, -, hfills⟩ := fillsTo_sweepBody hpass
    obtain ⟨lead, hlead, hfill⟩ := hfills a
    refine ⟨lead, hlead, fun o ho => ?_⟩
    rw [hfill o, ownFills_perEvent _ _ _ _ _ _ _ _ ho]

set_option maxRecDepth 100000 in
/-- C19 on the run of the pipeline without arguments in `demoWorld`: ten events,
ten entries in every radius bin. -/
theorem one_fill_per_event_witness :
    main demoWorld 10 ["jetFindAnalysis"] =
        .exit 0 (main demoWorld 10 ["jetFindAnalysis"]).trace ∧
    ((∃ cfg, parseArgs demoWorld.atoi ["jetFindAnalysis"] = .ok cfg ∧
      (Effect.cout (.processed (10 ^ cfg.exponent))) ∈
        (main demoWorld 10 ["jetFindAnalysis"]).trace ∧
      ∀ a, ∀ o ∈ Obs.perEvent, ∀ i, i < nRadii →
        entriesIn (sweepHist a o) (i + 1) (main demoWorld 10 ["jetFindAnalysis"]).trace =
          10 ^ cfg.exponent) ∧
    (∀ (lib : FastJet) (adef : AreaDefinition) (time : Algo → ℚ)
        (allFinal partons : List PseudoJet) (i : Nat) (pass : List FillCall),
      sweepBody lib adef time allFinal partons i = .ok pass →
      ∀ a, ∃ lead, (selectedJets lib adef allFinal (jetDefOf a i))[0]? = some lead ∧
        ∀ o ∈ Obs.perEvent,
          fillsTo (sweepHist a o) pass =
            [.fillLabel (sweepHist a o) (radBin i)
              (o.ofEvent lib (time a) (selectedJets lib adef allFinal (jetDefOf a i)) lead)
              1])) :=
  have h : main demoWorld 10 ["jetFindAnalysis"] =
      .exit 0 (main demoWorld 10 ["jetFindAnalysis"]).trace := exit_of_code (by decide!)
  ⟨h, one_fill_per_event demoWorld 10 ["jetFindAnalysis"] _ h⟩

/-! ### Fills for every jet (C20) -/

/-- C20: in every pass of the radius sweep that executes, each of the four
per-jet histograms (constituent count, area, eta, phi) of every algorithm
receives exactly one fill for each jet of the selected and sorted list of that
algorithm, in the order of the list, with the value taken from that jet; so
the number of fills of each equals the length of the list, which is the value
filled into the jet-count histogram of the same algorithm in that pass. -/
theorem per_jet_fills (lib : FastJet) (adef : AreaDefinition) (time : Algo → ℚ)
    (allFinal partons : List PseudoJet) (i : Nat) (tr : List FillCall) (a : Algo)
    (hrun : sweepBody lib adef time allFinal partons i = .ok tr) :
    (∀ o ∈ Obs.perJet,
      fillsTo (sweepHist a o) tr =
        (selectedJets lib adef allFinal (jetDefOf a i)).map fun j =>
          .fillLabel (sweepHist a o) (radBin i) (o.ofJet lib j) 1) ∧
    (∀ o ∈ Obs.perJet,
      (fillsTo (sweepHist a o) tr).length =
        (selectedJets lib adef allFinal (jetDefOf a i)).length) ∧
    fillsTo (sweepHist a .njets) tr =
      [.fillLabel (sweepHist a .njets) (radBin i)
        ((selectedJets lib adef allFinal (jetDefOf a i)).length : ℚ) 1] := by
  obtain ⟨p0, p1, -, -, hfills⟩ := fillsTo_sweepBody hrun
  obtain ⟨lead, -, hfill⟩ := hfills a
  have h1 : ∀ o ∈ Obs.perJet,
      fillsTo (sweepHist a o) tr =
        (selectedJets lib adef allFinal (jetDefOf a i)).map fun j =>
          .fillLabel (sweepHist a o) (radBin i) (o.ofJet lib j) 1 := by
    intro o ho
    rw [hfill o, ownFills_perJet _ _ _ _ _ _ _ _ ho]
  refine ⟨h1, ?_, ?_⟩
  · intro o ho
    rw [h1 o ho, List.length_map]
  · rw [hfill .njets]
    rfl

/-- C20 on the pass for the radius index 0 on `demoEvent`, for Cambridge/Aachen:
two jets, two fills of each per-jet histogram. -/
theorem per_jet_fills_witness :
    sweepBody demoLib (area_def 0) (demoWorld.elapsed 1 0) demoBuffers.all demoBuffers.part 0 =
      .ok demoFills ∧
    ((∀ o ∈ Obs.perJet,
      fillsTo (sweepHist .ca o) demoFills =
        (selectedJets demoLib (area_def 0) demoBuffers.all (jetDefOf .ca 0)).map fun j =>
          .fillLabel (sweepHist .ca o) (radBin 0) (o.ofJet demoLib j) 1) ∧
    (∀ o ∈ Obs.perJet,
      (fillsTo (sweepHist .ca o) demoFills).length =
        (selectedJets demoLib (area_def 0) demoBuffers.all (jetDefOf .ca 0)).length) ∧
    fillsTo (sweepHist .ca .njets) demoFills =
      [.fillLabel (sweepHist .ca .njets) (radBin 0)
        ((selectedJets demoLib (area_def 0) demoBuffers.all (jetDefOf .ca 0)).length : ℚ) 1]) :=
  have h : sweepBody demoLib (area_def 0) (demoWorld.elapsed 1 0) demoBuffers.all
      demoBuffers.part 0 = .ok demoFills := eq_ok_of_toOption (by decide!)
  ⟨h, per_jet_fills demoLib (area_def 0) (demoWorld.elapsed 1 0) demoBuffers.all
    demoBuffers.part 0 demoFills .ca h⟩

/-! ### The clusterings of an event (C14) -/

theorem selectedJets_withClustering {lib : FastJet}
    {g : JetDefinition → AreaDefinition → List PseudoJet → List Jet} {adef : AreaDefinition}
    {allFinal : List PseudoJet} {jd : JetDefinition}
    (h : g jd adef allFinal = lib.inclusive_jets jd adef allFinal) :
    selectedJets (withClustering lib g) adef allFinal jd = selectedJets lib adef allFinal jd := by
  show sorted_by_pt lib (SelectorPtMin lib 1 (g jd adef allFinal)) = _
  rw [h]
  rfl

theorem sweepBody_withClustering {lib : FastJet}
    {g : JetDefinition → AreaDefinition → List PseudoJet → List Jet} {adef : AreaDefinition}
    {time : Algo → ℚ} {allFinal partons : List PseudoJet} {i : Nat}
    (h : ∀ c ∈ passClusterings adef allFinal i,
      g c.2.1 c.2.2 c.1 = lib.inclusive_jets c.2.1 c.2.2 c.1) :
    sweepBody (withClustering lib g) adef time allFinal partons i =
      sweepBody lib adef time allFinal partons i := by
  have h1 := selectedJets_withClustering (h (allFinal, antiKtDefs i, adef) (by simp [passClusterings]))
  have h2 := selectedJets_withClustering (h (allFinal, KtDefs i, adef) (by simp [passClusterings]))
  have h3 := selectedJets_withClustering (h (allFinal, CaDefs i, adef) (by simp [passClusterings]))
  have h4 := selectedJets_withClustering (h (allFinal, SISDefs i, adef) (by simp [passClusterings]))
  simp only at h1 h2 h3 h4
  unfold sweepBody
  rw [h1, h2, h3, h4]
  rfl

theorem sweepLoop_withClustering {lib : FastJet}
    {g : JetDefinition → AreaDefinition → List PseudoJet → List Jet} {adef : AreaDefinition}
    {time : Nat → Algo → ℚ} {allFinal partons : List PseudoJet} :
    ∀ is : List Nat,
      (∀ i ∈ is, ∀ c ∈ passClusterings adef allFinal i,
        g c.2.1 c.2.2 c.1 = lib.inclusive_jets c.2.1 c.2.2 c.1) →
      sweepLoop (withClustering lib g) adef time allFinal partons is =
        sweepLoop lib adef time allFinal partons is := by
  intro is
  induction is with
  | nil => intro _; rfl
  | cons i is ih =>
    intro h
    simp only [sweepLoop]
    rw [sweepBody_withClustering (h i (List.mem_cons_self _ _)),
      ih fun j hj => h j (List.mem_cons_of_mem _ hj)]

/-! ### The slices of the renderer (C18) -/

theorem setRange_single (h : Renderer.TH2D) (k : Nat) (hk : k ≤ h.nbinsx) :
    (h.SetRange (k + 1) (k + 1)).ranged = true ∧
    (h.SetRange (k + 1) (k + 1)).first = k + 1 ∧
    (h.SetRange (k + 1) (k + 1)).last = k + 1 ∧
    (h.SetRange (k + 1) (k + 1)).content = h.content := by
  unfold Renderer.TH2D.SetRange
  rw [if_neg (by omega)]
  refine ⟨rfl, rfl, ?_, rfl⟩
  simp only
  omega

/-- C18: for a histogram that has the ten radius bins, the slice
`hist1D[i][j][k]` with `k` in `0 .. 9` is the projection with the range of the
x axis set to first = last = `k+1`: the content of every value bin `b` of the
slice is the content of the bin `(k+1, b)` of the two-dimensional histogram.
`baseRad` is 7, every comparison plot at the fixed radius draws the slices
`hist1D[i][j][baseRad]`, and these hold the contents of the radius bin 8. -/
theorem slice_is_single_bin (histograms : Nat → Nat → Renderer.TH2D) (i j k : Nat)
    (hk : k < Renderer.nRadii) (hn : (histograms i j).nbinsx = Renderer.nRadii) :
    ((histograms i j).SetRange (k + 1) (k + 1)).ranged = true ∧
    ((histograms i j).SetRange (k + 1) (k + 1)).first = k + 1 ∧
    ((histograms i j).SetRange (k + 1) (k + 1)).last = k + 1 ∧
    (∀ b, (Renderer.hist1D histograms i j k).content b = (histograms i j).content (k + 1) b) ∧
    Renderer.baseRad = 7 ∧
    (∀ plot ∈ Renderer.basePlots,
      Renderer.baseDrawn (Renderer.hist1D histograms) plot.2 =
        (List.range Renderer.nJetFinders).map fun i' =>
          Renderer.hist1D histograms i' plot.2 Renderer.baseRad) ∧
    (Renderer.baseRad < Renderer.nRadii ∧
      (k = Renderer.baseRad →
        ∀ b, (Renderer.hist1D histograms i j k).content b = (histograms i j).content 8 b)) := by
  have hk' : k ≤ (histograms i j).nbinsx := by
    rw [hn]
    exact Nat.le_of_lt hk
  obtain ⟨h1, h2, h3, h4⟩ := setRange_single (histograms i j) k hk'
  have hslice : ∀ b, (Renderer.hist1D histograms i j k).content b =
      (histograms i j).content (k + 1) b := by
    intro b
    simp only [Renderer.hist1D, Renderer.TH2D.ProjectionY, h1, h2, h3, h4, if_true]
    simp [List.range_succ]
  refine ⟨h1, h2, h3, hslice, rfl, ?_, by decide, ?_⟩
  · intro plot _
    rfl
  · intro hbase b
    rw [hslice b, hbase]
    rfl

/-- C18 on `demoHists`, for the slice of the radius index 7 of the first
histogram. -/
theorem slice_is_single_bin_witness :
    ((7 : Nat) < Renderer.nRadii ∧ (Renderer.demoHists 0 0).nbinsx = Renderer.nRadii) ∧
    (((Renderer.demoHists 0 0).SetRange (7 + 1) (7 + 1)).ranged = true ∧
    ((Renderer.demoHists 0 0).SetRange (7 + 1) (7 + 1)).first = 7 + 1 ∧
    ((Renderer.demoHists 0 0).SetRange (7 + 1) (7 + 1)).last = 7 + 1 ∧
    (∀ b, (Renderer.hist1D Renderer.demoHists 0 0 7).content b =
      (Renderer.demoHists 0 0).content (7 + 1) b) ∧
    Renderer.baseRad = 7 ∧
    (∀ plot ∈ Renderer.basePlots,
      Renderer.baseDrawn (Renderer.hist1D Renderer.demoHists) plot.2 =
        (List.range Renderer.nJetFinders).map fun i' =>
          Renderer.hist1D Renderer.demoHists i' plot.2 Renderer.baseRad) ∧
    (Renderer.baseRad < Renderer.nRadii ∧
      (7 = Renderer.baseRad →
        ∀ b, (Renderer.hist1D Renderer.demoHists 0 0 7).content b =
          (Renderer.demoHists 0 0).content 8 b))) :=
  ⟨⟨by decide, rfl⟩, slice_is_single_bin Renderer.demoHists 0 0 7 (by decide) rfl⟩

/-! ### The radius-dependence curves (C17) -/

/-- C17, what the code does: every one of the six radius-dependence curves of an
algorithm has as y values the means of the slices of its observable, point `j`
from the slice of the radius index `j`, and as y errors (and x errors) the
array `zeros`; the array of the RMS values is computed and handed to no
curve.  On `demoHists` with `demoRoot` the slice of the radius index 7 of the
jet-count histogram has the spread 2/3 and the point 7 of the curve has the
y error 0. -/
theorem curve_errors_are_zeros (root : Renderer.Root)
    (slices : Nat → Nat → Nat → Renderer.TH1D) (i : Nat) :
    (∀ c ∈ Renderer.curves root slices i,
      c.2.n = Renderer.nRadii ∧
      c.2.x = Renderer.shift i ∧
      c.2.y = Renderer.meanArray root slices c.1 i ∧
      (∀ j ∈ List.range Renderer.nRadii, c.2.y[j]? = some (root.GetMean (slices i c.1 j))) ∧
      c.2.ex = Renderer.zeros ∧
      c.2.ey = Renderer.zeros ∧
      (∀ j ∈ List.range Renderer.nRadii, c.2.ey[j]? = some 0) ∧
      (∀ j ∈ List.range Renderer.nRadii,
        (Renderer.errorArray root slices c.1 i)[j]? = some (root.GetRMS (slices i c.1 j)))) ∧
    (Renderer.curves root slices i).map Prod.fst = [0, 4, 1, 2, 5, 7] ∧
    ([0, 4, 1, 2, 5, 7].map fun j => Renderer.histNames.getD j "") =
      ["njets", "npartlead", "deltaE", "deltaR", "clustertime", "arealead"] ∧
    (Renderer.demoRoot.GetRMS (Renderer.hist1D Renderer.demoHists 0 0 7) = 2 / 3 ∧
      (Renderer.errorArray Renderer.demoRoot (Renderer.hist1D Renderer.demoHists) 0 0)[7]? =
        some (2 / 3) ∧
      (Renderer.njetGraph Renderer.demoRoot (Renderer.hist1D Renderer.demoHists) 0).ey[7]? =
        some 0 ∧
      (Renderer.njetGraph Renderer.demoRoot (Renderer.hist1D Renderer.demoHists) 0).y[7]? =
        some (Renderer.demoRoot.GetMean (Renderer.hist1D Renderer.demoHists 0 0 7))) := by
  have hmean : ∀ obs, ∀ j ∈ List.range Renderer.nRadii,
      (Renderer.meanArray root slices obs i)[j]? = some (root.GetMean (slices i obs j)) := by
    intro obs j hj
    have hj' := List.mem_range.mp hj
    simp [Renderer.meanArray, List.getElem?_map, List.getElem?_range hj']
  have herr : ∀ obs, ∀ j ∈ List.range Renderer.nRadii,
      (Renderer.errorArray root slices obs i)[j]? = some (root.GetRMS (slices i obs j)) := by
    intro obs j hj
    have hj' := List.mem_range.mp hj
    simp [Renderer.errorArray, List.getElem?_map, List.getElem?_range hj']
  have hzero : ∀ j ∈ List.range Renderer.nRadii, Renderer.zeros[j]? = some 0 := by decide!
  refine ⟨?_, rfl, by decide, by decide!⟩
  intro c hc
  simp only [Renderer.curves, List.mem_cons, List.mem_singleton, List.not_mem_nil,
    or_false] at hc
  rcases hc with rfl | rfl | rfl | rfl | rfl | rfl <;>
    exact ⟨rfl, rfl, rfl, hmean _, rfl, rfl, hzero, herr _⟩

/-! ### The ghost rapidity of the area definition (C21) -/

/-- C21: line 251 reads the array `radii` with the index `nRadii`, which is not
an index of the array (its indices are 0 .. `nRadii` - 1): the read is past the
end.  The largest radius, `radii[nRadii-1]`, is 1 and would give the ghost
rapidity 6, but the value the program computes is `max_rap` plus twice whatever
lies behind the array: it is 6 only if that happens to be 1, and it is this
value that the shared area definition of every run carries. -/
theorem ghost_radius_index_past_end :
    ghostRadiusIndex = nRadii ∧
    radii.length = nRadii ∧
    ¬ ghostRadiusIndex < radii.length ∧
    radii[ghostRadiusIndex]? = none ∧
    vecAt radii ghostRadiusIndex = .error .outOfRange ∧
    radii[nRadii - 1]? = some 1 ∧
    max_rap + 2 * radiiAt (nRadii - 1) = 6 ∧
    (∀ pastEnd : ℚ, ghost_max_rap pastEnd = max_rap + 2 * pastEnd) ∧
    (∀ pastEnd : ℚ, ghost_max_rap pastEnd = 6 ↔ pastEnd = 1) ∧
    ghost_max_rap 0 = 4 ∧
    (∀ w : World, (area_def w.pastEnd).ghost_max_rap = 4 + 2 * w.pastEnd) := by
  have hnone : radii[ghostRadiusIndex]? = none := by decide!
  have hval : ∀ pastEnd : ℚ, ghost_max_rap pastEnd = max_rap + 2 * pastEnd := by
    intro pastEnd
    simp [ghost_max_rap, hnone]
  have h4 : max_rap = 4 := rfl
  refine ⟨rfl, by decide!, by decide!, hnone, by simp [vecAt, hnone], by decide!, by decide!, hval,
    ?_, ?_, ?_⟩
  · intro pastEnd
    rw [hval, h4]
    constructor
    · intro h
      linarith
    · intro h
      rw [h]
      norm_num
  · rw [hval, h4]
    norm_num
  · intro w
    show ghost_max_rap w.pastEnd = 4 + 2 * w.pastEnd
    rw [hval, h4]

/-! ### The horizontal offset of the curves (C22) -/

theorem shift_getElem (i : Nat) :
    ∀ j ∈ List.range Renderer.nRadii,
      (Renderer.shift i)[j]? = some (Renderer.rad.getD j 0 + 1 / 100 * (i : ℚ)) := by
  intro j hj
  have hj' : j < 10 := List.mem_range.mp hj
  interval_cases j <;> simp [Renderer.shift, Renderer.rad]

/-- C22: in each of the six radius-dependence curves of the algorithm `i` the x
coordinate of the point `j` is `rad[j] + 0.01*i`, and the y values are the means
of the slices, in which the offset does not occur.  For the four algorithms the
offset is at most 0.03, the radii are 0.1 apart, and so the x coordinate of a
point of a smaller radius index is strictly smaller than that of a point of a
larger one, whatever the two algorithms; two points have the same x coordinate
only if they are the same point of the same algorithm. -/
theorem shift_keeps_radius_order (root : Renderer.Root)
    (slices : Nat → Nat → Nat → Renderer.TH1D) :
    (∀ i : Nat, ∀ j ∈ List.range Renderer.nRadii,
      (Renderer.shift i)[j]? = some (Renderer.rad.getD j 0 + 1 / 100 * (i : ℚ))) ∧
    (∀ i : Nat, ∀ c ∈ Renderer.curves root slices i,
      c.2.n = Renderer.nRadii ∧
      c.2.x = Renderer.shift i ∧
      c.2.y = (List.range Renderer.nRadii).map fun j => root.GetMean (slices i c.1 j)) ∧
    (∀ i ∈ List.range Renderer.nJetFinders, 1 / 100 * (i : ℚ) ≤ 3 / 100) ∧
    (∀ j ∈ List.range (Renderer.nRadii - 1),
      Renderer.rad.getD (j + 1) 0 - Renderer.rad.getD j 0 = 1 / 10) ∧
    (∀ i ∈ List.range Renderer.nJetFinders, ∀ i' ∈ List.range Renderer.nJetFinders,
      ∀ j' ∈ List.range Renderer.nRadii, ∀ j ∈ List.range j',
        (Renderer.shift i).getD j 0 < (Renderer.shift i').getD j' 0) ∧
    (∀ i ∈ List.range Renderer.nJetFinders, ∀ i' ∈ List.range Renderer.nJetFinders,
      ∀ j ∈ List.range Renderer.nRadii, ∀ j' ∈ List.range Renderer.nRadii,
        (Renderer.shift i).getD j 0 = (Renderer.shift i').getD j' 0 → i = i' ∧ j = j') := by
  refine ⟨shift_getElem, ?_, by decide!, by decide!, by decide!, by decide!⟩
  intro i c hc
  simp only [Renderer.curves, List.mem_cons, List.mem_singleton, List.not_mem_nil,
    or_false] at hc
  rcases hc with rfl | rfl | rfl | rfl | rfl | rfl <;> exact ⟨rfl, rfl, rfl⟩

/-! ### The radius grid of the two programs (C26) -/

theorem getBinLabel_radBin :
    ∀ h ∈ labelled, ∀ k ∈ List.range nRadii,
      (labelledAxes h).GetBinLabel (k + 1) = some (patch.to_string (radiiAt k)) := by
  decide!

theorem radii_eq_rad : radii = Renderer.rad := by
  decide!

/-- C26: both programs have `nRadii` = 10, and the array `radii` of the pipeline,
whose entry `k` is `deltaRad * (k+1)` with `deltaRad` = 1/10, is the array `rad`
of the renderer.  For `k` in 0 .. 9: the pipeline labels the bin `k+1` of the
radius axis of every sweep histogram with the radius `radii[k]`, and a fill
made with the label of that radius is found in the bin `k+1`; the renderer
makes its slice `k` from the bin `k+1` of a histogram with the ten radius bins
and puts its mean at the x coordinate `rad[k] + 0.01*i`, which for the first
algorithm is `radii[k]`, the radius that produced the bin. -/
theorem radius_grids_agree (histograms : Nat → Nat → Renderer.TH2D) (root : Renderer.Root)
    (i j k : Nat) (hk : k < nRadii) (hn : (histograms i j).nbinsx = Renderer.nRadii) :
    nRadii = 10 ∧ Renderer.nRadii = 10 ∧ deltaRad = 1 / 10 ∧
    radii = Renderer.rad ∧
    radii[k]? = some (deltaRad * ((k + 1 : Nat) : ℚ)) ∧
    Renderer.rad[k]? = some (deltaRad * ((k + 1 : Nat) : ℚ)) ∧
    radiiAt k = Renderer.rad.getD k 0 ∧
    (∀ h ∈ labelled,
      (labelledAxes h).GetBinLabel (k + 1) = some (patch.to_string (radiiAt k)) ∧
      (labelledAxes h).FindBin (radBin k) = some (k + 1)) ∧
    (∀ b, (Renderer.hist1D histograms i j k).content b = (histograms i j).content (k + 1) b) ∧
    (∀ c ∈ Renderer.curves root (Renderer.hist1D histograms) i,
      c.2.x[k]? = some (radiiAt k + 1 / 100 * (i : ℚ)) ∧
      c.2.y[k]? = some (root.GetMean (Renderer.hist1D histograms i c.1 k))) ∧
    (Renderer.shift 0)[k]? = some (radiiAt k) := by
  have hmem : k ∈ List.range nRadii := List.mem_range.mpr hk
  have hmem' : k ∈ List.range Renderer.nRadii := List.mem_range.mpr hk
  have hrad : radii[k]? = some (deltaRad * ((k + 1 : Nat) : ℚ)) := by
    simp [radii, List.getElem?_map, List.getElem?_range hk]
  have hat : radiiAt k = Renderer.rad.getD k 0 := by
    rw [radiiAt, radii_eq_rad]
  have hk' : k ≤ (histograms i j).nbinsx := by
    rw [hn]
    exact Nat.le_of_lt hk
  obtain ⟨h1, h2, h3, h4⟩ := setRange_single (histograms i j) k hk'
  have hx : ∀ i' : Nat, (Renderer.shift i')[k]? = some (radiiAt k + 1 / 100 * (i' : ℚ)) := by
    intro i'
    rw [hat]
    exact shift_getElem i' k hmem'
  have hmean : ∀ obs, (Renderer.meanArray root (Renderer.hist1D histograms) obs i)[k]? =
      some (root.GetMean (Renderer.hist1D histograms i obs k)) := by
    intro obs
    have hk2 : k < Renderer.nRadii := hk
    simp [Renderer.meanArray, List.getElem?_map, List.getElem?_range hk2]
  refine ⟨rfl, rfl, rfl, radii_eq_rad, hrad, ?_, hat, ?_, ?_, ?_, ?_⟩
  · rw [← radii_eq_rad]
    exact hrad
  · intro h hh
    exact ⟨getBinLabel_radBin h hh k hmem, findBin_radBin h hh k hmem⟩
  · intro b
    simp only [Renderer.hist1D, Renderer.TH2D.ProjectionY, h1, h2, h3, h4, if_true]
    simp [List.range_succ]
  · intro c hc
    simp only [Renderer.curves, List.mem_cons, List.mem_singleton, List.not_mem_nil,
      or_false] at hc
    rcases hc with rfl | rfl | rfl | rfl | rfl | rfl <;> exact ⟨hx i, hmean _⟩
  · have h0 := hx 0
    simpa using h0

/-- C26 on `demoHists`, for the radius index 7 of the first histogram. -/
theorem radius_grids_agree_witness :
    ((7 : Nat) < nRadii ∧ (Renderer.demoHists 0 0).nbinsx = Renderer.nRadii) ∧
    (nRadii = 10 ∧ Renderer.nRadii = 10 ∧ deltaRad = 1 / 10 ∧
    radii = Renderer.rad ∧
    radii[7]? = some (deltaRad * ((7 + 1 : Nat) : ℚ)) ∧
    Renderer.rad[7]? = some (deltaRad * ((7 + 1 : Nat) : ℚ)) ∧
    radiiAt 7 = Renderer.rad.getD 7 0 ∧
    (∀ h ∈ labelled,
      (labelledAxes h).GetBinLabel (7 + 1) = some (patch.to_string (radiiAt 7)) ∧
      (labelledAxes h).FindBin (radBin 7) = some (7 + 1)) ∧
    (∀ b, (Renderer.hist1D Renderer.demoHists 0 0 7).content b =
      (Renderer.demoHists 0 0).content (7 + 1) b) ∧
    (∀ c ∈ Renderer.curves Renderer.demoRoot (Renderer.hist1D Renderer.demoHists) 0,
      c.2.x[7]? = some (radiiAt 7 + 1 / 100 * ((0 : Nat) : ℚ)) ∧
      c.2.y[7]? = some (Renderer.demoRoot.GetMean (Renderer.hist1D Renderer.demoHists 0 c.1 7))) ∧
    (Renderer.shift 0)[7]? = some (radiiAt 7)) :=
  ⟨⟨by decide, rfl⟩, radius_grids_agree Renderer.demoHists Renderer.demoRoot 0 0 7 (by decide) rfl⟩

/-! ### The xml directory (C25) -/

theorem usesXmldir_of_loop {x : Effect} (h : isLoopEffect x = true) : usesXmldir x = false := by
  cases x <;> first | rfl | simp [isLoopEffect] at h

theorem usesXmldir_startup (first : GenOutcome) (m : Nat) :
    ∀ x ∈ startup first m, usesXmldir x = false := by
  have h : (startup first m).all (fun x => !usesXmldir x) = true := by
    cases first <;> rfl
  intro x hx
  have := List.all_eq_true.mp h x hx
  simpa using this

theorem usesXmldir_finish (cfg : Config) (m n : Nat) :
    ∀ x ∈ finish cfg m n, usesXmldir x = false := by
  intro x hx
  simp only [finish, List.mem_append, List.mem_cons, List.mem_singleton, List.not_mem_nil,
    or_false, List.mem_map] at hx
  rcases hx with (((rfl | rfl | rfl) | ⟨h, _, rfl⟩) | rfl | rfl) <;> rfl

theorem usesXmldir_main (w : World) (fuel : Nat) (argv : List String) :
    ∀ x ∈ (main w fuel argv).trace, usesXmldir x = false := by
  intro x hx
  generalize hr : main w fuel argv = r at hx
  unfold main at hr
  split at hr
  · subst hr
    simp only [Result.trace, List.mem_singleton] at hx
    subst hx
    rfl
  · rename_i cfg hcfg
    split at hr
    · subst hr
      simp [Result.trace] at hx
    · rename_i maxEvent hmax
      obtain ⟨hrep, rfl⟩ := (maxEventOf_eq_ok _ _).mp hmax
      split at hr
      · subst hr
        have h : (Effect.cout (.setFor (10 ^ cfg.exponent)) :: pythiaSetup).all
            (fun x => !usesXmldir x) = true := rfl
        have := List.all_eq_true.mp h x hx
        simpa using this
      · obtain ⟨effs, h1, h2, -⟩ :=
          eventLoop_spec w (10 ^ cfg.exponent) hrep fuel
            ⟨1, 0, ⟨[], [], []⟩, startup (w.next 0) (10 ^ cfg.exponent)⟩ (Nat.zero_le _)
        have hno : ∀ y ∈ startup (w.next 0) (10 ^ cfg.exponent) ++ effs,
            usesXmldir y = false := by
          intro y hy
          rcases List.mem_append.mp hy with hy | hy
          · exact usesXmldir_startup _ _ y hy
          · exact usesXmldir_of_loop (h2 y hy)
        split at hr <;> rename_i s hs <;> rw [hs] at h1 <;>
          simp only [LoopExit.state] at h1 <;> subst hr <;>
          simp only [Result.trace, h1] at hx
        · exact hno x hx
        · exact hno x hx
        · rcases List.mem_append.mp hx with hx | hx
          · exact hno x hx
          · simp only [List.mem_singleton] at hx
            subst hx
            rfl
        · rcases List.mem_append.mp hx with hx | hx
          · exact hno x hx
          · exact usesXmldir_finish _ _ _ x hx

/-- C25: on a command line with three arguments the first one, the xml
directory, is stored in `xmldir` and never used.  Two such command lines that
differ only in it give configurations with the same exponent and output file,
and the same execution: the same result with the same trace, hence the same
set-up of the generator, the same number of events, the same fills and the same
output file.  On every run the generator is constructed without a directory. -/
theorem xmldir_has_no_effect (w : World) (fuel : Nat)
    (prog xmldir xmldir' exponent outFile : String) :
    parseArgs w.atoi [prog, xmldir, exponent, outFile] =
      .ok ⟨toUnsigned (w.atoi exponent), outFile, xmldir⟩ ∧
    parseArgs w.atoi [prog, xmldir', exponent, outFile] =
      .ok ⟨toUnsigned (w.atoi exponent), outFile, xmldir'⟩ ∧
    main w fuel [prog, xmldir, exponent, outFile] =
      main w fuel [prog, xmldir', exponent, outFile] ∧
    (∀ argv : List String, ∀ d, Effect.pythiaNew d ∈ (main w fuel argv).trace → d = none) ∧
    pythiaSetup.head? = some (.pythiaNew none) ∧
    (∀ d, Effect.pythiaNew d ∈ pythiaSetup → d = none) := by
  refine ⟨rfl, rfl, rfl, ?_, rfl, ?_⟩
  · intro argv d hd
    have h := usesXmldir_main w fuel argv _ hd
    cases d with
    | none => rfl
    | some s => simp [usesXmldir] at h
  · intro d hd
    simp [pythiaSetup] at hd
    exact hd

/-! ### The reads of the partons after a rejected event (C24) -/

theorem convert_ret_zero {lib : FastJet} {ev : List Particle} {m : ℚ} {b : Buffers}
    {c : Converted} (h : convertToPseudoJet lib ev m b = .ok c) (hret : c.ret = 0) :
    c.bufs = ⟨[], [], []⟩ := by
  unfold convertToPseudoJet at h
  split at h
  · dsimp only at h
    split_ifs at h <;> injection h with h <;> subst h <;> first | rfl | simp at hret
  · cases h

theorem eventBody_ret_zero {lib : FastJet} {adef : AreaDefinition} {time : Nat → Algo → ℚ}
    {ev : List Particle} {b : Buffers} {n : Nat} {c : Converted}
    (h : convertToPseudoJet lib ev max_track_rap b = .ok c) (hret : c.ret = 0) :
    eventBody lib adef time ev b n = .error .outOfRange := by
  have hb := convert_ret_zero h hret
  unfold eventBody
  rw [h]
  simp [bind, Except.bind, hb, vecAt]

/-- C24, what the code does: when `convertToPseudoJet` returns 0 for an event of
the loop it leaves the parton container empty, and the caller, which does not
look at the returned value, goes on to `partons[0]` (line 443): the pass reads
the empty container, which is undefined behaviour, whatever the containers held
before the call.  In `forwardWorld`, where the second event of the loop has a
parton outside the acceptance, the run ends in this way. -/
theorem partons_read_after_rejection (w : World) (m fuel : Nat) (s : LoopState)
    (ev : List Particle) (c : Converted)
    (hlt : s.currentEvent < m) (hnext : w.next s.calls = .event ev)
    (hc : convertToPseudoJet w.lib ev max_track_rap s.bufs = .ok c) (hret : c.ret = 0) :
    c.bufs.part = [] ∧
    vecAt c.bufs.part 0 = .error .outOfRange ∧
    vecAt c.bufs.part 1 = .error .outOfRange ∧
    (∀ (adef : AreaDefinition) (time : Nat → Algo → ℚ) (n : Nat),
      eventBody w.lib adef time ev s.bufs n = .error .outOfRange) ∧
    eventLoop w m (fuel + 1) s =
      .undefined .outOfRange
        { s with calls := s.calls + 1, currentEvent := (s.currentEvent + 1) % 2 ^ 32,
                 trace := s.trace ++ [.next true] } ∧
    (main forwardWorld 5 ["jetFindAnalysis"]).fault = some .outOfRange := by
  have hb := convert_ret_zero hc hret
  have hbody : ∀ (adef : AreaDefinition) (time : Nat → Algo → ℚ) (n : Nat),
      eventBody w.lib adef time ev s.bufs n = .error .outOfRange :=
    fun _ _ _ => eventBody_ret_zero hc hret
  refine ⟨by rw [hb], by rw [hb]; rfl, by rw [hb]; rfl, hbody, ?_, by decide!⟩
  rw [eventLoop, if_pos hlt]
  simp only [hnext, hbody]

/-- C24 in `forwardWorld`, at the second pass of the event loop: the containers
hold the partons of the first event when `convertToPseudoJet` is called. -/
theorem partons_read_after_rejection_witness :
    (afterFirst.currentEvent < 10 ∧
      forwardWorld.next afterFirst.calls = .event forwardEvent ∧
      convertToPseudoJet forwardWorld.lib forwardEvent max_track_rap afterFirst.bufs =
        .ok ⟨0, ⟨[], [], []⟩, []⟩ ∧
      (⟨0, ⟨[], [], []⟩, []⟩ : Converted).ret = 0) ∧
    ((⟨0, ⟨[], [], []⟩, []⟩ : Converted).bufs.part = [] ∧
    vecAt (⟨0, ⟨[], [], []⟩, []⟩ : Converted).bufs.part 0 = .error .outOfRange ∧
    vecAt (⟨0, ⟨[], [], []⟩, []⟩ : Converted).bufs.part 1 = .error .outOfRange ∧
    (∀ (adef : AreaDefinition) (time : Nat → Algo → ℚ) (n : Nat),
      eventBody forwardWorld.lib adef time forwardEvent afterFirst.bufs n =
        .error .outOfRange) ∧
    eventLoop forwardWorld 10 (0 + 1) afterFirst =
      .undefined .outOfRange
        { afterFirst with calls := afterFirst.calls + 1,
                          currentEvent := (afterFirst.currentEvent + 1) % 2 ^ 32,
                          trace := afterFirst.trace ++ [.next true] } ∧
    (main forwardWorld 5 ["jetFindAnalysis"]).fault = some .outOfRange) :=
  ⟨⟨by decide, rfl, eq_ok_of_toOption (by decide!), rfl⟩,
    partons_read_after_rejection forwardWorld 10 0 afterFirst forwardEvent ⟨0, ⟨[], [], []⟩, []⟩
      (by decide) rfl (eq_ok_of_toOption (by decide!)) rfl⟩

/-! ### The observables of the sweep (C23) -/

theorem sweepHistsOf_eq (a : Algo) : sweepHistsOf a = Obs.all.map (sweepHist a) := by
  cases a <;> decide!

theorem writtenNames_run {w : World} {fuel : Nat} {argv : List String} {tr : List Effect}
    (hrun : main w fuel argv = .exit 0 tr) : writtenNames tr = writeOrder.map Hist.name := by
  obtain ⟨cfg, loop, -, -, htr, hloop, -⟩ := main_exit_zero hrun
  rw [htr, writtenNames_append, writtenNames_append, writtenNames_startup,
    writtenNames_loop hloop, writtenNames_finish]
  rfl

theorem ownFills_ne_nil (lib : FastJet) (rb : String) (t : ℚ) (jets : List Jet) (lead : Jet)
    (p : PseudoJet) (a : Algo) (o : Obs) (hjets : jets ≠ []) :
    ownFills lib rb t jets lead p a o ≠ [] := by
  cases o <;> simp [ownFills, hjets]

/-- The statement of C23 fails: no algorithm has 18 radius-sweep histograms.
The anti-kt group has 14 of them, and a list of pairwise distinct sweep
histograms of one algorithm never has the length 18. -/
theorem eighteen_observables_fails :
    (sweepHistsOf .antikt).length = 14 ∧
    (sweepHistsOf .antikt).length ≠ claimedObservables ∧
    ¬ ∃ a : Algo, ∃ hs : List Hist,
      hs.Nodup ∧ hs.length = claimedObservables ∧ ∀ h ∈ hs, h ∈ sweepHistsOf a := by
  refine ⟨by decide!, by decide!, ?_⟩
  rintro ⟨a, hs, hnd, hlen, hsub⟩
  have hle : hs.length ≤ (sweepHistsOf a).length :=
    (List.subperm_of_subset hnd hsub).length_le
  have h14 : (sweepHistsOf a).length = 14 := by
    rw [sweepHistsOf_eq]
    rfl
  rw [hlen, h14] at hle
  exact absurd hle (by decide)

/-- C23, amended: the pipeline has 14 radius-sweep histograms for each of the
four algorithms, one for each of the 14 observables, 56 in all, and these are
all the histograms with a radius axis.  Each of them is constructed once, with
`nRadii` bins on the x axis, and written once by a run that returns 0, under a
name of its own; in a pass of the sweep that executes each of them is filled,
and no other histogram is.  The renderer reads 14 histograms per algorithm. -/
theorem fourteen_observables (lib : FastJet) (adef : AreaDefinition) (time : Algo → ℚ)
    (allFinal partons : List PseudoJet) (i : Nat) (tr : List FillCall)
    (hrun : sweepBody lib adef time allFinal partons i = .ok tr) :
    Obs.all.length = 14 ∧ Obs.all.Nodup ∧ (∀ o : Obs, o ∈ Obs.all) ∧
    Renderer.nHistograms = 14 ∧ Renderer.histNames.length = 14 ∧
    labelled.length = 4 * 14 ∧
    labelled.Perm (Algo.all.flatMap sweepHistsOf) ∧
    (∀ a : Algo,
      sweepHistsOf a = Obs.all.map (sweepHist a) ∧
      (sweepHistsOf a).length = 14 ∧
      (sweepHistsOf a).Nodup ∧
      ∀ h ∈ sweepHistsOf a,
        booked.count h = 1 ∧ h.nbinsx = nRadii ∧
        writeOrder.count h = 1 ∧ (writeOrder.map Hist.name).count h.name = 1 ∧
        fillsTo h tr ≠ []) ∧
    (∀ c ∈ tr, ∃ a : Algo, c.hist ∈ sweepHistsOf a) ∧
    (∀ (w : World) (fuel : Nat) (argv : List String) (out : List Effect),
      main w fuel argv = .exit 0 out →
      ∀ a : Algo, ∀ h ∈ sweepHistsOf a, (writtenNames out).count h.name = 1) := by
  have hstatic : ∀ a ∈ Algo.all, ∀ h ∈ sweepHistsOf a,
      booked.count h = 1 ∧ h.nbinsx = nRadii ∧
      writeOrder.count h = 1 ∧ (writeOrder.map Hist.name).count h.name = 1 := by decide!
  have hall : ∀ a : Algo, a ∈ Algo.all := by
    intro a
    cases a <;> decide
  have hcover : ∀ h ∈ labelled, ∃ a ∈ Algo.all, h ∈ sweepHistsOf a := by decide!
  obtain ⟨p0, p1, -, -, hfills⟩ := fillsTo_sweepBody hrun
  refine ⟨rfl, by decide, ?_, rfl, rfl, rfl, by decide!, ?_, ?_, ?_⟩
  · intro o
    cases o <;> decide
  · intro a
    refine ⟨sweepHistsOf_eq a, ?_, ?_, ?_⟩
    · rw [sweepHistsOf_eq]
      rfl
    · rw [sweepHistsOf_eq]
      cases a <;> decide
    · intro h hh
      obtain ⟨h1, h2, h3, h4⟩ := hstatic a (hall a) h hh
      refine ⟨h1, h2, h3, h4, ?_⟩
      rw [sweepHistsOf_eq] at hh
      obtain ⟨o, -, rfl⟩ := List.mem_map.mp hh
      obtain ⟨lead, hlead, hown⟩ := hfills a
      rw [hown o]
      apply ownFills_ne_nil
      intro hnil
      rw [hnil] at hlead
      simp at hlead
  · intro c hc
    have hsf := List.all_eq_true.mp (sweepBody_fills hrun) c hc
    cases c with
    | fill1 h x => simp [isSweepFill] at hsf
    | fill2 h x y => simp [isSweepFill] at hsf
    | fillLabel h namex y w =>
      simp only [isSweepFill, Bool.and_eq_true, decide_eq_true_eq, beq_iff_eq] at hsf
      obtain ⟨a, -, ha⟩ := hcover h hsf.1.1
      exact ⟨a, ha⟩
  · intro w fuel argv out hout a h hh
    rw [writtenNames_run hout]
    exact (hstatic a (hall a) h hh).2.2.2

/-- The amended C23 on the pass for the radius index 0 on `demoEvent`. -/
theorem fourteen_observables_witness :
    sweepBody demoLib (area_def 0) (demoWorld.elapsed 1 0) demoBuffers.all demoBuffers.part 0 =
      .ok demoFills ∧
    (Obs.all.length = 14 ∧ Obs.all.Nodup ∧ (∀ o : Obs, o ∈ Obs.all) ∧
    Renderer.nHistograms = 14 ∧ Renderer.histNames.length = 14 ∧
    labelled.length = 4 * 14 ∧
    labelled.Perm (Algo.all.flatMap sweepHistsOf) ∧
    (∀ a : Algo,
      sweepHistsOf a = Obs.all.map (sweepHist a) ∧
      (sweepHistsOf a).length = 14 ∧
      (sweepHistsOf a).Nodup ∧
      ∀ h ∈ sweepHistsOf a,
        booked.count h = 1 ∧ h.nbinsx = nRadii ∧
        writeOrder.count h = 1 ∧ (writeOrder.map Hist.name).count h.name = 1 ∧
        fillsTo h demoFills ≠ []) ∧
    (∀ c ∈ demoFills, ∃ a : Algo, c.hist ∈ sweepHistsOf a) ∧
    (∀ (w : World) (fuel : Nat) (argv : List String) (out : List Effect),
      main w fuel argv = .exit 0 out →
      ∀ a : Algo, ∀ h ∈ sweepHistsOf a, (writtenNames out).count h.name = 1)) :=
  have h : sweepBody demoLib (area_def 0) (demoWorld.elapsed 1 0) demoBuffers.all
      demoBuffers.part 0 = .ok demoFills := eq_ok_of_toOption (by decide!)
  ⟨h, fourteen_observables demoLib (area_def 0) (demoWorld.elapsed 1 0) demoBuffers.all
    demoBuffers.part 0 demoFills h⟩

/-! ### The status codes of records 5 and 6 (C10) -/

theorem eq_ok_getD {ε α : Type} {x : Except ε α} (d : α) (h : x.toOption.isSome = true) :
    x = .ok (x.toOption.getD d) := by
  cases x <;> simp [Except.toOption] at h ⊢

theorem convert_withClustering (lib : FastJet)
    (g : JetDefinition → AreaDefinition → List PseudoJet → List Jet) (ev : List Particle)
    (m : ℚ) (b : Buffers) :
    convertToPseudoJet (withClustering lib g) ev m b = convertToPseudoJet lib ev m b := rfl

theorem eventBody_eq_ok {lib : FastJet} {adef : AreaDefinition} {time : Nat → Algo → ℚ}
    {ev : List Particle} {b b' : Buffers} {n : Nat} {effs : List Effect} :
    eventBody lib adef time ev b n = .ok (b', effs) ↔
    ∃ conv p0 p1 sweep,
      convertToPseudoJet lib ev max_track_rap b = .ok conv ∧ b' = conv.bufs ∧
      conv.bufs.part[0]? = some p0 ∧ conv.bufs.part[1]? = some p1 ∧
      sweepLoop lib adef time conv.bufs.all conv.bufs.part (List.range nRadii) = .ok sweep ∧
      effs =
        (if n % 50 = 0 then [Effect.cout (.event n)] else []) ++ conv.cerr.map .cerr ++
          (([.fill1 .multiplicity conv.bufs.all.length,
            .fill1 .chargedMultiplicity conv.bufs.charged.length] : List FillCall) ++
           ([.fill2 .partonEtaPhi (lib.eta p0) (lib.phi_std p0), .fill1 .partonPt (lib.pt p0),
            .fill1 .partonE p0.E,
            .fill2 .partonEtaPhi (lib.eta p1) (lib.phi_std p1), .fill1 .partonPt (lib.pt p1),
            .fill1 .partonE p1.E] : List FillCall) ++
           (conv.bufs.all.flatMap fun p =>
            ([.fill1 .visiblePt (lib.pt p), .fill1 .visibleE p.E,
             .fill2 .visibleEtaPhi (lib.eta p) (lib.phi_std p)] : List FillCall)) ++
           (conv.bufs.charged.flatMap fun p =>
            ([.fill1 .chargedPt (lib.pt p), .fill1 .chargedE p.E,
             .fill2 .chargedEtaPhi (lib.eta p) (lib.phi_std p)] : List FillCall)) ++
           sweep).map .fill := by
  unfold eventBody
  simp only [bind_eq_ok, vecAt_eq_ok, pure, Except.pure, Except.ok.injEq, Prod.mk.injEq]
  constructor
  · rintro ⟨conv, hconv, p0, hp0, p1, hp1, sw, hsw, hb, heff⟩
    exact ⟨conv, p0, p1, sw, hconv, hb.symm, hp0, hp1, hsw, heff.symm⟩
  · rintro ⟨conv, p0, p1, sw, hconv, hb, hp0, hp1, hsw, heff⟩
    exact ⟨conv, hconv, p0, hp0, p1, hp1, sw, hsw, hb.symm, heff.symm⟩

theorem sweepLoop_mem {lib : FastJet} {adef : AreaDefinition} {time : Nat → Algo → ℚ}
    {allFinal partons : List PseudoJet} :
    ∀ (is : List Nat) (tr : List FillCall),
      sweepLoop lib adef time allFinal partons is = .ok tr →
      ∀ i ∈ is, ∃ p, sweepBody lib adef (time i) allFinal partons i = .ok p ∧ ∀ c ∈ p, c ∈ tr := by
  intro is
  induction is with
  | nil => intro tr _ i hi; simp at hi
  | cons j js ih =>
    intro tr h i hi
    simp only [sweepLoop, bind_eq_ok, pure, Except.pure, Except.ok.injEq] at h
    obtain ⟨fs, hfs, gs, hgs, rfl⟩ := h
    rcases List.mem_cons.mp hi with rfl | hi
    · exact ⟨fs, hfs, fun c hc => List.mem_append_left _ hc⟩
    · obtain ⟨p, hp, hsub⟩ := ih gs hgs i hi
      exact ⟨p, hp, fun c hc => List.mem_append_right _ (hsub c hc)⟩

theorem duration_fills_pass {lib : FastJet} {adef : AreaDefinition} {time : Algo → ℚ}
    {allFinal partons : List PseudoJet} {i : Nat} {tr : List FillCall}
    (h : sweepBody lib adef time allFinal partons i = .ok tr) :
    tr.countP (fun c => isDurationFill (.fill c)) = 4 := by
  obtain ⟨aj, kj, cj, sj, p0, p1, -, -, -, -, -, -, rfl⟩ := sweepBody_eq_ok.mp h
  have hflat : ∀ (l : List Jet) (f : Jet → List FillCall),
      (∀ j, ∀ c ∈ f j, isDurationFill (.fill c) = false) →
      List.countP (fun c => isDurationFill (.fill c)) (l.flatMap f) = 0 := by
    intro l f hf
    rw [List.countP_eq_zero]
    intro c hc
    obtain ⟨j, -, hcj⟩ := List.mem_flatMap.mp hc
    simp [hf j c hcj]
  have hfour : ∀ (j : Jet) (c1 c2 c3 c4 : FillCall),
      isDurationFill (.fill c1) = false → isDurationFill (.fill c2) = false →
      isDurationFill (.fill c3) = false → isDurationFill (.fill c4) = false →
      ∀ c ∈ [c1, c2, c3, c4], isDurationFill (.fill c) = false := by
    intro j c1 c2 c3 c4 h1 h2 h3 h4 c hc
    simp only [List.mem_cons, List.mem_singleton, List.not_mem_nil, or_false] at hc
    rcases hc with rfl | rfl | rfl | rfl <;> assumption
  simp only [List.countP_append, perJetFills]
  rw [hflat, hflat, hflat, hflat]
  · rfl
  · exact fun j => hfour j _ _ _ _ rfl rfl rfl rfl
  · exact fun j => hfour j _ _ _ _ rfl rfl rfl rfl
  · exact fun j => hfour j _ _ _ _ rfl rfl rfl rfl
  · exact fun j => hfour j _ _ _ _ rfl rfl rfl rfl

theorem duration_fills_sweepLoop {lib : FastJet} {adef : AreaDefinition}
    {time : Nat → Algo → ℚ} {allFinal partons : List PseudoJet} :
    ∀ (is : List Nat) (tr : List FillCall),
      sweepLoop lib adef time allFinal partons is = .ok tr →
      tr.countP (fun c => isDurationFill (.fill c)) = 4 * is.length := by
  intro is
  induction is with
  | nil =>
    intro tr h
    simp only [sweepLoop, pure, Except.pure, Except.ok.injEq] at h
    subst h
    rfl
  | cons j js ih =>
    intro tr h
    simp only [sweepLoop, bind_eq_ok, pure, Except.pure, Except.ok.injEq] at h
    obtain ⟨fs, hfs, gs, hgs, rfl⟩ := h
    rw [List.countP_append, duration_fills_pass hfs, ih gs hgs, List.length_cons]
    omega

theorem duration_fills_eventBody {lib : FastJet} {adef : AreaDefinition}
    {time : Nat → Algo → ℚ} {ev : List Particle} {b b' : Buffers} {n : Nat}
    {effs : List Effect} (h : eventBody lib adef time ev b n = .ok (b', effs)) :
    effs.countP isDurationFill = 40 := by
  obtain ⟨conv, p0, p1, sw, -, -, -, -, hsw, rfl⟩ := eventBody_eq_ok.mp h
  have hsweep := duration_fills_sweepLoop (List.range nRadii) sw hsw
  simp only [List.countP_append, List.map_append, List.countP_map]
  have hsw' : List.countP (isDurationFill ∘ Effect.fill) sw = 40 := hsweep
  rw [hsw']
  have h1 : List.countP isDurationFill
      (if n % 50 = 0 then [Effect.cout (Report.event n)] else []) = 0 := by
    split <;> rfl
  have h2 : List.countP (isDurationFill ∘ Effect.cerr) conv.cerr = 0 := by
    rw [List.countP_eq_zero]
    intro x _
    simp [isDurationFill]
  have hflat : ∀ (l : List PseudoJet) (f : PseudoJet → List FillCall),
      (∀ p, ∀ c ∈ f p, isDurationFill (.fill c) = false) →
      List.countP (isDurationFill ∘ Effect.fill) (l.flatMap f) = 0 := by
    intro l f hf
    rw [List.countP_eq_zero]
    intro c hc
    obtain ⟨p, -, hcp⟩ := List.mem_flatMap.mp hc
    simp [hf p c hcp]
  rw [h1, h2, hflat, hflat]
  · simp [isDurationFill]
  · intro p c hc
    simp only [List.mem_cons, List.mem_singleton, List.not_mem_nil, or_false] at hc
    rcases hc with rfl | rfl | rfl <;> rfl
  · intro p c hc
    simp only [List.mem_cons, List.mem_singleton, List.not_mem_nil, or_false] at hc
    rcases hc with rfl | rfl | rfl <;> rfl

/-- C14: in an event that the loop processes without failure the durations of
exactly 40 clusterings are filled, one into each of the 4 x 10 cells of an
algorithm and a radius bin, and the cell of the algorithm `a` and the radius
index `i` receives the duration measured for that pair and, as the number of
jets, the length of the list selected from the jets that the library finds
for `allFinal`, the jet definition of `(a, i)` and the shared area definition.
These 40 triples of arguments are pairwise different, and they are exactly the
arguments at which the event consults the clustering function of the library:
another clustering function that agrees with it at the 40 triples gives the
same containers and effects, and for each of the 40 triples a clustering
function that differs from it at that triple alone gives another outcome.
What the histograms of an algorithm receive in a pass is a function of the
selected jets of that algorithm, the duration measured for it, the partons and
the radius label: replacing the clustering function and the durations by
others that agree for this algorithm leaves the fills of all its histograms as
they are, whatever the other algorithms find. -/
theorem forty_clusterings_per_event (lib : FastJet) (adef : AreaDefinition)
    (time : Nat → Algo → ℚ) (ev : List Particle) (b b' : Buffers) (n : Nat)
    (effs : List Effect) (hrun : eventBody lib adef time ev b n = .ok (b', effs)) :
    (eventClusterings adef b'.all).length = 40 ∧
    (eventClusterings adef b'.all).Nodup ∧
    (∀ c, c ∈ eventClusterings adef b'.all ↔
      ∃ a i, i < nRadii ∧ c = (b'.all, jetDefOf a i, adef)) ∧
    List.countP isDurationFill effs = 40 ∧
    (∀ a i, i < nRadii →
      entriesIn (sweepHist a .clustertime) (i + 1) effs = 1 ∧
      entriesIn (sweepHist a .njets) (i + 1) effs = 1 ∧
      Effect.fill (.fillLabel (sweepHist a .clustertime) (radBin i) (time i a) 1) ∈ effs ∧
      Effect.fill (.fillLabel (sweepHist a .njets) (radBin i)
        ((selectedJets lib adef b'.all (jetDefOf a i)).length : ℚ) 1) ∈ effs ∧
      selectedJets lib adef b'.all (jetDefOf a i) =
        sorted_by_pt lib
          (SelectorPtMin lib 1 (lib.inclusive_jets (jetDefOf a i) adef b'.all))) ∧
    (∀ g : JetDefinition → AreaDefinition → List PseudoJet → List Jet,
      (∀ c ∈ eventClusterings adef b'.all,
        g c.2.1 c.2.2 c.1 = lib.inclusive_jets c.2.1 c.2.2 c.1) →
      eventBody (withClustering lib g) adef time ev b n = .ok (b', effs)) ∧
    (∀ c ∈ eventClusterings adef b'.all,
      (∀ jd ad ps, (ps, jd, ad) ≠ c →
        emptyAt lib.inclusive_jets c jd ad ps = lib.inclusive_jets jd ad ps) ∧
      eventBody (withClustering lib (emptyAt lib.inclusive_jets c)) adef time ev b n ≠
        .ok (b', effs)) ∧
    (∀ allFinal : List PseudoJet,
      (eventClusterings adef allFinal).length = 40 ∧
      (eventClusterings adef allFinal).map (fun c => c.2.1) =
        (List.range nRadii).flatMap (fun i => Algo.all.map fun a => jetDefOf a i) ∧
      ((List.range nRadii).flatMap (fun i => Algo.all.map fun a => jetDefOf a i)).Nodup ∧
      (∀ c ∈ eventClusterings adef allFinal, c.1 = allFinal ∧ c.2.2 = adef) ∧
      (∀ (g : JetDefinition → AreaDefinition → List PseudoJet → List Jet)
          (time : Nat → Algo → ℚ) (partons : List PseudoJet),
        (∀ c ∈ eventClusterings adef allFinal,
          g c.2.1 c.2.2 c.1 = lib.inclusive_jets c.2.1 c.2.2 c.1) →
        sweepLoop (withClustering lib g) adef time allFinal partons (List.range nRadii) =
          sweepLoop lib adef time allFinal partons (List.range nRadii)) ∧
      (∀ (g : JetDefinition → AreaDefinition → List PseudoJet → List Jet)
          (time time' : Algo → ℚ) (partons : List PseudoJet) (i : Nat) (a : Algo)
          (tr tr' : List FillCall),
        g (jetDefOf a i) adef allFinal = lib.inclusive_jets (jetDefOf a i) adef allFinal →
        time' a = time a →
        sweepBody lib adef time allFinal partons i = .ok tr →
        sweepBody (withClustering lib g) adef time' allFinal partons i = .ok tr' →
        ∀ o, fillsTo (sweepHist a o) tr' = fillsTo (sweepHist a o) tr)) ∧
    (∃ conv sweep, convertToPseudoJet lib ev max_track_rap b = .ok conv ∧ b' = conv.bufs ∧
      sweepLoop lib adef time conv.bufs.all conv.bufs.part (List.range nRadii) = .ok sweep ∧
      ∃ before, effs = before ++ sweep.map .fill) := by
  obtain ⟨conv, p0, p1, sw, hconv, hb, hp0, hp1, hsw, heff⟩ := eventBody_eq_ok.mp hrun
  have hmap : ∀ allFinal : List PseudoJet,
      (eventClusterings adef allFinal).map (fun c => c.2.1) =
        (List.range nRadii).flatMap (fun i => Algo.all.map fun a => jetDefOf a i) :=
    fun _ => rfl
  have hnd : ((List.range nRadii).flatMap (fun i => Algo.all.map fun a => jetDefOf a i)).Nodup := by
    decide!
  have hmem : ∀ (allFinal : List PseudoJet) c, c ∈ eventClusterings adef allFinal ↔
      ∃ a i, i < nRadii ∧ c = (allFinal, jetDefOf a i, adef) := by
    intro allFinal c
    simp only [eventClusterings, passClusterings, List.mem_flatMap, List.mem_range,
      List.mem_cons, List.mem_singleton, List.not_mem_nil, or_false]
    constructor
    · rintro ⟨i, hi, rfl | rfl | rfl | rfl⟩
      · exact ⟨.antikt, i, hi, rfl⟩
      · exact ⟨.kt, i, hi, rfl⟩
      · exact ⟨.ca, i, hi, rfl⟩
      · exact ⟨.sis, i, hi, rfl⟩
    · rintro ⟨a, i, hi, rfl⟩
      refine ⟨i, hi, ?_⟩
      cases a <;> simp [jetDefOf]
  have hpass : ∀ (lib' : FastJet) (sw' : List FillCall),
      sweepLoop lib' adef time b'.all b'.part (List.range nRadii) = .ok sw' →
      ∀ i, i < nRadii → ∃ p, sweepBody lib' adef (time i) b'.all b'.part i = .ok p ∧
        ∀ c ∈ p, c ∈ sw' :=
    fun lib' sw' h i hi => sweepLoop_mem (List.range nRadii) sw' h i (List.mem_range.mpr hi)
  subst hb
  refine ⟨rfl, List.Nodup.of_map _ (by rw [hmap]; exact hnd), hmem _, duration_fills_eventBody hrun,
    ?_, ?_, ?_, ?_, ⟨conv, sw, hconv, rfl, hsw, ?_⟩⟩
  · intro a i hi
    obtain ⟨p, hp, hsub⟩ := hpass lib sw hsw i hi
    obtain ⟨aj, kj, cj, sj, q0, q1, -, -, -, -, -, -, rfl⟩ := sweepBody_eq_ok.mp hp
    have hin : ∀ c, c ∈ headFills (radBin i) (time i .antikt) (time i .kt) (time i .ca)
          (time i .sis)
          (selectedJets lib adef conv.bufs.all (antiKtDefs i))
          (selectedJets lib adef conv.bufs.all (KtDefs i))
          (selectedJets lib adef conv.bufs.all (CaDefs i))
          (selectedJets lib adef conv.bufs.all (SISDefs i)) → Effect.fill c ∈ effs := by
      intro c hc
      rw [heff]
      refine List.mem_append_right _ (List.mem_map_of_mem _ (List.mem_append_right _ ?_))
      apply hsub
      simp only [List.append_assoc]
      exact List.mem_append_left _ hc
    refine ⟨entries_eventBody hrun i hi a .clustertime (by decide),
      entries_eventBody hrun i hi a .njets (by decide), ?_, ?_, rfl⟩
    · apply hin
      cases a <;> simp [headFills, sweepHist]
    · apply hin
      cases a <;> simp [headFills, sweepHist, jetDefOf]
  · intro g hg
    refine eventBody_eq_ok.mpr ⟨conv, p0, p1, sw, hconv, rfl, hp0, hp1, ?_, heff⟩
    rw [← hsw]
    apply sweepLoop_withClustering
    intro i hi c hc
    exact hg c (List.mem_flatMap.mpr ⟨i, hi, hc⟩)
  · intro c hc
    obtain ⟨a, i, hi, rfl⟩ := (hmem _ c).mp hc
    constructor
    · intro jd ad ps hne
      simp [emptyAt, hne]
    · intro hrun'
      obtain ⟨conv', -, -, sw', -, hb', -, -, hsw', -⟩ := eventBody_eq_ok.mp hrun'
      rw [← hb'] at hsw'
      obtain ⟨p, hp, -⟩ := hpass _ sw' hsw' i hi
      obtain ⟨_, _, _, _, hsel⟩ := fillsTo_sweepBody hp
      obtain ⟨lead, hlead, -⟩ := hsel a
      have hnil : selectedJets
          (withClustering lib (emptyAt lib.inclusive_jets (conv.bufs.all, jetDefOf a i, adef)))
          adef conv.bufs.all (jetDefOf a i) = [] := by
        simp [selectedJets, withClustering, emptyAt, SelectorPtMin, sorted_by_pt]
      rw [hnil] at hlead
      simp at hlead
  · intro allFinal
    refine ⟨rfl, rfl, hnd, ?_, ?_, ?_⟩
    · intro c hc
      obtain ⟨a, i, -, rfl⟩ := (hmem allFinal c).mp hc
      exact ⟨rfl, rfl⟩
    · intro g time partons h
      apply sweepLoop_withClustering
      intro i hi c hc
      exact h c (List.mem_flatMap.mpr ⟨i, hi, hc⟩)
    · intro g time time' partons i a tr tr' hg ht htr htr' o
      obtain ⟨p0, p1, h0, h1, hfills⟩ := fillsTo_sweepBody htr
      obtain ⟨q0, q1, k0, k1, hfills'⟩ := fillsTo_sweepBody htr'
      obtain ⟨lead, hlead, hfill⟩ := hfills a
      obtain ⟨lead', hlead', hfill'⟩ := hfills' a
      rw [selectedJets_withClustering hg] at hlead' hfill'
      rw [h0] at k0
      rw [h1] at k1
      rw [hlead] at hlead'
      injection k0 with k0
      injection k1 with k1
      injection hlead' with hlead'
      subst k0 k1 hlead'
      rw [hfill o, hfill' o, ht]
      rfl
  · rw [heff]
    simp only [List.map_append, ← List.append_assoc]
    exact ⟨_, rfl⟩

/-- C14 on `demoEvent` as the first event of the loop in `demoWorld`. -/
theorem forty_clusterings_per_event_witness :
    eventBody demoLib (area_def 0) (demoWorld.elapsed 1) demoEvent noBuffers 1 =
      .ok (demoBody.1, demoBody.2) ∧
    ((eventClusterings (area_def 0) demoBody.1.all).length = 40 ∧
    (eventClusterings (area_def 0) demoBody.1.all).Nodup ∧
    (∀ c, c ∈ eventClusterings (area_def 0) demoBody.1.all ↔
      ∃ a i, i < nRadii ∧ c = (demoBody.1.all, jetDefOf a i, (area_def 0))) ∧
    List.countP isDurationFill demoBody.2 = 40 ∧
    (∀ a i, i < nRadii →
      entriesIn (sweepHist a .clustertime) (i + 1) demoBody.2 = 1 ∧
      entriesIn (sweepHist a .njets) (i + 1) demoBody.2 = 1 ∧
      Effect.fill (.fillLabel (sweepHist a .clustertime) (radBin i) ((demoWorld.elapsed 1) i a) 1) ∈ demoBody.2 ∧
      Effect.fill (.fillLabel (sweepHist a .njets) (radBin i)
        ((selectedJets demoLib (area_def 0) demoBody.1.all (jetDefOf a i)).length : ℚ) 1) ∈ demoBody.2 ∧
      selectedJets demoLib (area_def 0) demoBody.1.all (jetDefOf a i) =
        sorted_by_pt demoLib
          (SelectorPtMin demoLib 1 (demoLib.inclusive_jets (jetDefOf a i) (area_def 0) demoBody.1.all))) ∧
    (∀ g : JetDefinition → AreaDefinition → List PseudoJet → List Jet,
      (∀ c ∈ eventClusterings (area_def 0) demoBody.1.all,
        g c.2.1 c.2.2 c.1 = demoLib.inclusive_jets c.2.1 c.2.2 c.1) →
      eventBody (withClustering demoLib g) (area_def 0) (demoWorld.elapsed 1) demoEvent noBuffers 1 = .ok (demoBody.1, demoBody.2)) ∧
    (∀ c ∈ eventClusterings (area_def 0) demoBody.1.all,
      (∀ jd ad ps, (ps, jd, ad) ≠ c →
        emptyAt demoLib.inclusive_jets c jd ad ps = demoLib.inclusive_jets jd ad ps) ∧
      eventBody (withClustering demoLib (emptyAt demoLib.inclusive_jets c)) (area_def 0) (demoWorld.elapsed 1) demoEvent noBuffers 1 ≠
        .ok (demoBody.1, demoBody.2)) ∧
    (∀ allFinal : List PseudoJet,
      (eventClusterings (area_def 0) allFinal).length = 40 ∧
      (eventClusterings (area_def 0) allFinal).map (fun c => c.2.1) =
        (List.range nRadii).flatMap (fun i => Algo.all.map fun a => jetDefOf a i) ∧
      ((List.range nRadii).flatMap (fun i => Algo.all.map fun a => jetDefOf a i)).Nodup ∧
      (∀ c ∈ eventClusterings (area_def 0) allFinal, c.1 = allFinal ∧ c.2.2 = (area_def 0)) ∧
      (∀ (g : JetDefinition → AreaDefinition → List PseudoJet → List Jet)
          (time : Nat → Algo → ℚ) (partons : List PseudoJet),
        (∀ c ∈ eventClusterings (area_def 0) allFinal,
          g c.2.1 c.2.2 c.1 = demoLib.inclusive_jets c.2.1 c.2.2 c.1) →
        sweepLoop (withClustering demoLib g) (area_def 0) time allFinal partons (List.range nRadii) =
          sweepLoop demoLib (area_def 0) time allFinal partons (List.range nRadii)) ∧
      (∀ (g : JetDefinition → AreaDefinition → List PseudoJet → List Jet)
          (time time' : Algo → ℚ) (partons : List PseudoJet) (i : Nat) (a : Algo)
          (tr tr' : List FillCall),
        g (jetDefOf a i) (area_def 0) allFinal = demoLib.inclusive_jets (jetDefOf a i) (area_def 0) allFinal →
        time' a = time a →
        sweepBody demoLib (area_def 0) time allFinal partons i = .ok tr →
        sweepBody (withClustering demoLib g) (area_def 0) time' allFinal partons i = .ok tr' →
        ∀ o, fillsTo (sweepHist a o) tr' = fillsTo (sweepHist a o) tr)) ∧
    (∃ conv sweep, convertToPseudoJet demoLib demoEvent max_track_rap noBuffers = .ok conv ∧ demoBody.1 = conv.bufs ∧
      sweepLoop demoLib (area_def 0) (demoWorld.elapsed 1) conv.bufs.all conv.bufs.part (List.range nRadii) = .ok sweep ∧
      ∃ before, demoBody.2 = before ++ sweep.map .fill)) :=
  have h : eventBody demoLib (area_def 0) (demoWorld.elapsed 1) demoEvent noBuffers 1 =
      .ok (demoBody.1, demoBody.2) := eq_ok_getD (noBuffers, []) (by decide!)
  ⟨h, forty_clusterings_per_event demoLib (area_def 0) (demoWorld.elapsed 1) demoEvent noBuffers
    demoBody.1 1 demoBody.2 h⟩

end PythiaJetFinding
